import Mathlib

/-!
Verification development for the ShankTools container codecs.

The two container codecs (`canim.py`, `canim_meta.py`) are shallowly embedded
here.  Byte buffers are `List Nat` (entries are bytes, `< 256`); machine
integers are read little-endian as `Nat`.  32-bit IEEE-754 float fields are
carried as their raw 32-bit patterns; where the Python code compares a float's
numeric value, the pattern is decoded exactly into `Rat` (NaN and infinities
are flagged separately), which matches CPython semantics on every value class.
Where a float value travels through the JSON interchange layer, Python
collapses every NaN payload to the default quiet NaN; the model applies the
same collapse (`jsonF32`).
-/

set_option maxHeartbeats 1000000
set_option maxRecDepth 100000

/-- Byte at position `p`, 0 when out of range (reads are bounds-guarded before use). -/
def byteAt (d : List Nat) (p : Nat) : Nat := d.getD p 0

/-- Little-endian 16-bit read. -/
def u16at (d : List Nat) (p : Nat) : Nat := byteAt d p + 256 * byteAt d (p + 1)

/-- Little-endian 32-bit read. -/
def u32at (d : List Nat) (p : Nat) : Nat :=
  byteAt d p + 256 * byteAt d (p + 1) + 65536 * byteAt d (p + 2) + 16777216 * byteAt d (p + 3)

/-- The half-open byte range `[a, b)` of a buffer. -/
def bslice (d : List Nat) (a b : Nat) : List Nat := (d.drop a).take (b - a)

/-- Every entry of the buffer is an actual byte. -/
def Bytes (d : List Nat) : Prop := ∀ b ∈ d, b < 256

instance : DecidablePred Bytes := fun d => List.decidableBAll _ d

/-- Reader `r8`: one byte, bounds-checked against the buffer end. -/
def r8 (d : List Nat) (p : Nat) : Option (Nat × Nat) :=
  if p + 1 ≤ d.length then some (byteAt d p, p + 1) else none

/-- Reader `r16`: little-endian 16-bit word, bounds-checked. -/
def r16 (d : List Nat) (p : Nat) : Option (Nat × Nat) :=
  if p + 2 ≤ d.length then some (u16at d p, p + 2) else none

/-- Reader `r32`: little-endian 32-bit word, bounds-checked. -/
def r32 (d : List Nat) (p : Nat) : Option (Nat × Nat) :=
  if p + 4 ≤ d.length then some (u32at d p, p + 4) else none

/-- Reader `rf`: a 32-bit float field, kept as its raw pattern. -/
def rf (d : List Nat) (p : Nat) : Option (Nat × Nat) := r32 d p

/-- ASCII decode with lossy replacement: bytes ≥ 128 become U+FFFD. -/
def decodeAscii (bs : List Nat) : List Nat :=
  bs.map (fun b => if b < 128 then b else 65533)

/-- Reader `rstr`: 32-bit length prefix, 500-byte sanity ceiling, then the text. -/
def rstr (d : List Nat) (p : Nat) : Option (List Nat × Nat) :=
  match r32 d p with
  | none => none
  | some (l, p2) =>
    if l > 500 then none
    else if p2 + l > d.length then none
    else some (decodeAscii (bslice d p2 (p2 + l)), p2 + l)

/-- Writer `w8`. -/
def w8 (v : Nat) : List Nat := [v % 256]

/-- Writer `w16` (little-endian). -/
def w16 (v : Nat) : List Nat := [v % 256, v / 256 % 256]

/-- Writer `w32` (little-endian). -/
def w32 (v : Nat) : List Nat :=
  [v % 256, v / 256 % 256, v / 65536 % 256, v / 16777216 % 256]

/-- Writer `wstr`: ASCII-encode; fails (like Python `str.encode`) on a
code point ≥ 128, e.g. the U+FFFD produced by lossy decoding. -/
def wstr (s : List Nat) : Option (List Nat) :=
  if s.all (· < 128) then some (w32 s.length ++ s) else none

/-! ### Exact IEEE-754 single-precision value model -/

/-- Sign bit of a 32-bit float pattern. -/
def f32Sign (w : Nat) : Nat := w / 2 ^ 31 % 2

/-- Exponent field of a 32-bit float pattern. -/
def f32Exp (w : Nat) : Nat := w / 2 ^ 23 % 256

/-- Mantissa field of a 32-bit float pattern. -/
def f32Man (w : Nat) : Nat := w % 2 ^ 23

/-- Value class of a 32-bit float. -/
inductive FVal where
  | nan : FVal
  | inf : Bool → FVal
  | fin : Rat → FVal
deriving DecidableEq, Repr

/-- Exact value of a 32-bit float pattern. -/
def f32v (w : Nat) : FVal :=
  let s : Rat := if f32Sign w = 1 then -1 else 1
  if f32Exp w = 255 then
    if f32Man w = 0 then .inf (f32Sign w = 1) else .nan
  else if f32Exp w = 0 then
    .fin (s * (f32Man w : Rat) / 2 ^ 149)
  else
    .fin (s * ((2 ^ 23 + f32Man w : Nat) : Rat) * 2 ^ f32Exp w / 2 ^ 150)

/-- Finite value of a pattern (0 for non-finite; used only behind finiteness guards). -/
def f32q (w : Nat) : Rat :=
  match f32v w with
  | .fin q => q
  | _ => 0

/-- Magnitude of a finite 32-bit float scaled by 2^149 (an exact integer:
subnormals are `man`, normals are `(2^23 + man) * 2^(exp - 1)`). -/
def f32Mag149 (w : Nat) : Nat :=
  if f32Exp w = 0 then f32Man w else (2 ^ 23 + f32Man w) * 2 ^ (f32Exp w - 1)

/-- Exact value of a finite 32-bit float scaled by 2^149 (kernel-computable;
`f32q w = scaled149 w / 2^149`). -/
def scaled149 (w : Nat) : Int :=
  if f32Sign w = 1 then -(f32Mag149 w : Int) else (f32Mag149 w : Int)

/-- Python `math.isnan(v) or math.isinf(v)` is false and `-10000 <= v <= 10000`. -/
def is_float_reasonable (w : Nat) : Bool :=
  if f32Exp w = 255 then false
  else decide (-(10000 * 2 ^ 149) ≤ scaled149 w ∧ scaled149 w ≤ 10000 * 2 ^ 149)

/-- Python float comparison `v > c` against an integer constant
(false for NaN, sign-determined for infinities). -/
def fgtB (w : Nat) (c : Int) : Bool :=
  if f32Exp w = 255 then (if f32Man w = 0 then decide (f32Sign w ≠ 1) else false)
  else decide (scaled149 w > c * 2 ^ 149)

/-- Python float comparison `v < c` against an integer constant. -/
def fltB (w : Nat) (c : Int) : Bool :=
  if f32Exp w = 255 then (if f32Man w = 0 then decide (f32Sign w = 1) else false)
  else decide (scaled149 w < c * 2 ^ 149)

/-- Round trip of a float pattern through the JSON layer: `json.dump`
writes the literal `NaN` for every NaN payload and `json.load` reads back
the default quiet NaN, so all NaN payloads collapse; every other pattern
survives exactly. -/
def jsonF32 (w : Nat) : Nat :=
  if f32Exp w = 255 ∧ f32Man w ≠ 0 then 2143289344 else w

/-! ### canim.py validation helpers -/

/-- Python `valid_str`: 4-byte length prefix in `1..300`, in bounds, body printable. -/
def valid_str (d : List Nat) (p : Nat) : Bool :=
  if p + 4 ≤ d.length then
    if u32at d p = 0 ∨ u32at d p > 300 ∨ p + 4 + u32at d p > d.length then false
    else decide (∀ i < u32at d p, 32 ≤ byteAt d (p + 4 + i) ∧ byteAt d (p + 4 + i) < 127)
  else false

/-- Python `empty_str_at`: a zero 32-bit length prefix in bounds. -/
def empty_str_at (d : List Nat) (p : Nat) : Bool :=
  p + 4 ≤ d.length && u32at d p = 0

/-- The fixed set of plausible frame rates (`KNOWN_RATES`). -/
def KNOWN_RATES : List Nat := [1, 2, 3, 4, 5, 6, 8, 10, 12, 15, 20, 24, 25, 30, 60]

/-- One decoded sprite record of a canim symbol. -/
structure Sprite where
  frame : Nat
  unk : Nat
  name : List Nat
  width : Nat
  height : Nat
  pivot_x : Nat
  pivot_y : Nat
  empty : Bool
deriving DecidableEq, Repr

/-- Four consecutive float-pattern reads (the `rf` sequence of a sprite). -/
def rf4 (d : List Nat) (p : Nat) : Option (Nat × Nat × Nat × Nat) :=
  match rf d p, rf d (p + 4), rf d (p + 8), rf d (p + 12) with
  | some (a, _), some (b, _), some (c, _), some (e, _) => some (a, b, c, e)
  | _, _, _, _ => none

/-- Python `try_parse_sprite`: trial decode of one sprite record at `pos`. -/
def try_parse_sprite (d : List Nat) (pos fs : Nat) : Option (Sprite × Nat) :=
  if pos + 4 > fs then none
  else match r16 d pos with
  | none => none
  | some (spf, p1) =>
    match r16 d p1 with
    | none => none
    | some (spu, p2) =>
      if empty_str_at d p2 then
        if p2 + 4 + 16 > fs then none
        else match rf4 d (p2 + 4) with
        | some (sw, sh, spx, spy) => some (⟨spf, spu, [], sw, sh, spx, spy, true⟩, p2 + 20)
        | none => none
      else if ¬ valid_str d p2 then none
      else match rstr d p2 with
      | none => none
      | some (spn, p3) =>
        if p3 + 16 > fs then none
        else match rf4 d p3 with
        | some (sw, sh, spx, spy) =>
          if ¬ (is_float_reasonable sw ∧ is_float_reasonable sh ∧
                is_float_reasonable spx ∧ is_float_reasonable spy) then none
          else if fltB sw 0 ∨ fltB sh 0 ∨ fgtB sw 5000 ∨ fgtB sh 5000 then none
          else some (⟨spf, spu, spn, sw, sh, spx, spy, false⟩, p3 + 16)
        | none => none

/-- Python `try_parse_bare_sprite`: the minimal-format sprite record. -/
def try_parse_bare_sprite (d : List Nat) (pos fs : Nat) : Option (Sprite × Nat) :=
  if ¬ valid_str d pos then none
  else match rstr d pos with
  | none => none
  | some (spn, p) =>
    if p + 16 > fs then none
    else match rf4 d p with
    | some (sw, sh, spx, spy) =>
      if ¬ (is_float_reasonable sw ∧ is_float_reasonable sh ∧
            is_float_reasonable spx ∧ is_float_reasonable spy) then none
      else if fltB sw 0 ∨ fltB sh 0 ∨ fgtB sw 5000 ∨ fgtB sh 5000 then none
      else some (⟨0, 0, spn, sw, sh, spx, spy, false⟩, p + 16)
    | none => none

/-- Python `is_symbol_header`: the resynchronization predicate. -/
def is_symbol_header (d : List Nat) (pos fs : Nat) : Bool :=
  if ¬ valid_str d pos then false
  else match rstr d pos with
  | none => false
  | some (name, p) =>
    if p + 3 > fs then false
    else
      let rate := byteAt d p
      let count := u16at d (p + 1)
      if ¬ KNOWN_RATES.contains rate then false
      else if count > 5000 then false
      else if name.contains 47 then false
      else true

/-- Python `find_next_symbol`: linear rescan to the next symbol header. -/
def find_next_symbol (d : List Nat) (pos fs : Nat) : Nat :=
  if _h : pos < fs - 7 then
    if is_symbol_header d pos fs then pos else find_next_symbol d (pos + 1) fs
  else fs
termination_by fs - pos
decreasing_by omega

/-- Python `looks_like_section`: structural predicate for the traditional
Section layout. -/
def looks_like_section (d : List Nat) (pos fs : Nat) (layers : List (List Nat)) : Bool :=
  if ¬ valid_str d pos then false
  else match rstr d pos with
  | none => false
  | some (_, p0) =>
    if p0 + 9 > fs then false
    else
      let p := p0 + 4
      let sfc := u16at d (p + 1)
      let sec := u16at d (p + 3)
      if sfc > 10000 ∨ sec > 10000 then false
      else if sfc = 0 ∧ sec = 0 then false
      else if sec > 0 ∧ p + 5 + 6 ≤ fs then
        let li := u16at d (p + 5 + 4)
        if li ≥ layers.length ∧ li > 100 then false else true
      else true

/-! ### canim.py build region -/

/-- One build-region entry: a symbol or a build timeline block. Every entry
carries the exact raw byte span it occupied (`_raw_hex` in the source). -/
inductive BuildEntry where
  | symbol (name : List Nat) (frame_rate num_sprites : Nat) (sprites : List Sprite)
      (composite : Bool) (sub_symbols : List (List Nat)) (timeline_size : Nat)
      (raw : List Nat) : BuildEntry
  | build_block (name : List Nat) (data_size : Nat) (raw : List Nat) : BuildEntry
deriving DecidableEq, Repr

theorem valid_str_spec (d : List Nat) (p : Nat) (h : valid_str d p = true) :
    p + 4 ≤ d.length ∧ 1 ≤ u32at d p ∧ u32at d p ≤ 300 ∧ p + 4 + u32at d p ≤ d.length := by
  unfold valid_str at h
  split at h
  · split at h
    · exact absurd h (by simp)
    · rename_i h1 h2
      push_neg at h2
      omega
  · exact absurd h (by simp)

theorem rstr_of_valid (d : List Nat) (p : Nat) (h : valid_str d p = true) :
    rstr d p = some (decodeAscii (bslice d (p + 4) (p + 4 + u32at d p)), p + 4 + u32at d p) := by
  obtain ⟨h1, h2, h3, h4⟩ := valid_str_spec d p h
  unfold rstr r32
  rw [if_pos h1]
  simp only []
  rw [if_neg (by omega), if_neg (by omega)]

/-- The mid-list header-break test of `parse_nested_symbol`'s while loop. -/
def nested_hdr_break (d : List Nat) (fs count : Nat) (pos : Nat)
    (subs : List (List Nat)) : Bool :=
  if is_symbol_header d pos fs then
    match rstr d pos with
    | some (_, tp) =>
      if tp + 3 ≤ d.length ∧ KNOWN_RATES.contains (byteAt d tp) ∧ u16at d (tp + 1) < 5000 then
        if (try_parse_sprite d (tp + 3) fs).isSome then true
        else if valid_str d (tp + 3) ∧ subs.length ≥ count then true
        else false
      else false
    | none => false
  else false

def nested_sub_loop (d : List Nat) (fs count : Nat) (pos : Nat) (subs : List (List Nat)) :
    List (List Nat) × Nat :=
  if hv : valid_str d pos then
    if nested_hdr_break d fs count pos subs then (subs, pos)
    else
      match h : rstr d pos with
      | some (sn2, pos2) =>
        let subs2 := subs ++ [sn2]
        if subs2.length ≥ count ∧ count > 0 then (subs2, pos2)
        else nested_sub_loop d fs count pos2 subs2
      | none => (subs, pos)
  else (subs, pos)
termination_by d.length - pos
decreasing_by
  obtain ⟨h1, h2, h3, h4⟩ := valid_str_spec d pos hv
  rw [rstr_of_valid d pos hv] at h
  cases h
  omega

/-- Python `parse_nested_symbol`: collects sub-symbol names, then
resynchronizes; returns the sub-name list and the resynchronization point. -/
def parse_nested_symbol (d : List Nat) (pos fs count : Nat) : List (List Nat) × Nat :=
  let r := nested_sub_loop d fs count pos []
  (r.1, find_next_symbol d r.2 fs)

/-- The count-prefixed sub-name reader of the zero-sprite-count branch. -/
def read_sub_names (d : List Nat) : Nat → Nat → List (List Nat) × Nat
  | 0, tp => ([], tp)
  | n + 1, tp =>
    if valid_str d tp then
      match rstr d tp with
      | some (tn, tp2) =>
        let r := read_sub_names d n tp2
        (tn :: r.1, r.2)
      | none => ([], tp)
    else ([], tp)

/-- The `count`-bounded sprite loop of a simple symbol; the Bool is the
`sok` flag (false when a mid-stream sprite failed validation). -/
def sprite_loop (d : List Nat) (fs : Nat) : Nat → Nat → List Sprite × Nat × Bool
  | 0, pos => ([], pos, true)
  | n + 1, pos =>
    match try_parse_sprite d pos fs with
    | none => ([], pos, false)
    | some (sp, pos2) =>
      let r := sprite_loop d fs n pos2
      (sp :: r.1, r.2.1, r.2.2)

/-- Python `parse_build_section`, with explicit fuel (the termination claim
shows `fs + 1 - pos` fuel always suffices).  Returns the ordered build
entries and the final cursor, or `none` on fuel exhaustion. -/
def parse_build_section (d : List Nat) (fs : Nat) :
    Nat → Nat → List BuildEntry → Option (List BuildEntry × Nat)
  | 0, _, _ => none
  | fuel + 1, pos, acc =>
    if ¬ (pos + 4 < fs) then some (acc, pos)
    else if ¬ valid_str d pos ∧ ¬ empty_str_at d pos then some (acc, pos)
    else if is_symbol_header d pos fs then
      match rstr d pos with
      | none => some (acc, pos)
      | some (sn, pA) =>
        match r8 d pA with
        | none => some (acc, pos)
        | some (sr, pB) =>
          match r16 d pB with
          | none => some (acc, pos)
          | some (snsp, posh) =>
            if snsp = 0 then
              let nextSym := find_next_symbol d posh fs
              if nextSym > posh then
                let tlSize := nextSym - posh
                if posh + 4 ≤ fs ∧ 0 < u16at d posh ∧ u16at d posh < 200 ∧
                    posh + 4 < nextSym ∧
                    (read_sub_names d (u16at d posh) (posh + 4)).1.length = u16at d posh then
                  let e := BuildEntry.symbol sn sr 0 [] true
                    (read_sub_names d (u16at d posh) (posh + 4)).1 tlSize (bslice d pos nextSym)
                  parse_build_section d fs fuel nextSym (acc ++ [e])
                else
                  let e := BuildEntry.symbol sn sr 0 [] false [] tlSize (bslice d pos nextSym)
                  parse_build_section d fs fuel nextSym (acc ++ [e])
              else
                let e := BuildEntry.symbol sn sr 0 [] false [] 0 (bslice d pos posh)
                parse_build_section d fs fuel posh (acc ++ [e])
            else if (try_parse_sprite d posh fs).isSome then
              let r := sprite_loop d fs snsp posh
              let e := BuildEntry.symbol sn sr snsp r.1 false [] 0 (bslice d pos r.2.1)
              if r.2.2 then parse_build_section d fs fuel r.2.1 (acc ++ [e])
              else some (acc ++ [e], r.2.1)
            else if valid_str d posh then
              let r := parse_nested_symbol d posh fs snsp
              let e := BuildEntry.symbol sn sr 0 [] true r.1 (r.2 - posh) (bslice d pos r.2)
              parse_build_section d fs fuel r.2 (acc ++ [e])
            else
              let nextSym := find_next_symbol d posh fs
              let e := BuildEntry.symbol sn sr snsp [] true [] (nextSym - posh)
                (bslice d pos nextSym)
              parse_build_section d fs fuel nextSym (acc ++ [e])
    else
      match rstr d pos with
      | none => some (acc, pos)
      | some (sn, _) =>
        let nextSym := find_next_symbol d (pos + 1) fs
        let e := BuildEntry.build_block sn (nextSym - pos) (bslice d pos nextSym)
        parse_build_section d fs fuel nextSym (acc ++ [e])

/-! ### canim.py full document parse -/

/-- A clip-table entry. -/
structure Clip where
  name : List Nat
  value : Nat
deriving DecidableEq, Repr

/-- A traditional-section element; matrix fields are stored `(ma, mb, mc, md)`
while the file order is `ma, md, mb, mc`. -/
structure Element where
  index : Nat
  unk1 : Nat
  layer_idx : Nat
  unk2 : Nat
  layer_name : List Nat
  ma : Nat
  mb : Nat
  mc : Nat
  md : Nat
  tx : Nat
  ty : Nat
  z_ord : Nat
  etype : Nat
  cr : Nat
  cg : Nat
  cb : Nat
  ca : Nat
  pad : List Nat
deriving DecidableEq, Repr

/-- A traditional section. -/
structure SectionRec where
  name : List Nat
  unknown : Nat
  facing : Nat
  frame_count : Nat
  element_count : Nat
  elements : List Element
deriving DecidableEq, Repr

/-- The parsed canim document (the dict returned by `parse_canim`). -/
structure CanimDoc where
  magic : List Nat
  version : Nat
  hf1 : Nat
  hf2 : Nat
  anim_name : List Nat
  frame_rate : Nat
  num_clips : Nat
  num_sections : Nat
  total_elements : Nat
  unk2 : Nat
  layers : List (List Nat)
  clips : List Clip
  sectionRecs : List SectionRec
  build_entries : List BuildEntry
  minimal : Bool
  minimal_meta : List Nat
  minimal_sprites : List Sprite
  has_traditional_sections : Bool
  trail : List Nat
  skipped : Bool
deriving DecidableEq, Repr

/-- The minimal-format forward scan, on fuel. -/
def minimalScanF (d : List Nat) (fs : Nat) : Nat → Nat → Option Nat
  | 0, _ => none
  | fuel + 1, scan =>
    if scan + 4 < fs then
      if valid_str d scan then
        match rstr d scan with
        | some (tn, _) =>
          if tn.contains 45 then some scan else minimalScanF d fs fuel (scan + 1)
        | none => minimalScanF d fs fuel (scan + 1)
      else minimalScanF d fs fuel (scan + 1)
    else none

/-- The minimal-format forward scan for the first hyphenated string. -/
def minimal_scan (d : List Nat) (fs : Nat) (scan : Nat) : Option Nat :=
  minimalScanF d fs (fs - scan) scan

theorem try_parse_bare_sprite_advance (d : List Nat) (pos fs : Nat) (sp : Sprite) (p2 : Nat)
    (h : try_parse_bare_sprite d pos fs = some (sp, p2)) : pos < p2 ∧ p2 ≤ fs := by
  unfold try_parse_bare_sprite at h
  split at h
  · exact absurd h (by simp)
  · rename_i hv
    rw [Decidable.not_not] at hv
    rw [rstr_of_valid d pos hv] at h
    obtain ⟨h1, h2, h3, h4⟩ := valid_str_spec d pos hv
    simp only [] at h
    split at h
    · exact absurd h (by simp)
    · rename_i hfs
      split at h
      · split at h
        · exact absurd h (by simp)
        · split at h
          · exact absurd h (by simp)
          · cases h; omega
      · exact absurd h (by simp)

/-- The minimal-format bare-sprite loop, on fuel. -/
def bareSpriteLoopF (d : List Nat) (fs : Nat) : Nat → Nat → List Sprite × Nat
  | 0, pos => ([], pos)
  | fuel + 1, pos =>
    if pos + 4 < fs then
      match try_parse_bare_sprite d pos fs with
      | none => ([], pos)
      | some (sp, pos2) =>
        (sp :: (bareSpriteLoopF d fs fuel pos2).1, (bareSpriteLoopF d fs fuel pos2).2)
    else ([], pos)

/-- The minimal-format bare-sprite loop. -/
def bare_sprite_loop (d : List Nat) (fs : Nat) (pos : Nat) : List Sprite × Nat :=
  bareSpriteLoopF d fs (fs - pos) pos

theorem bareSpriteLoopF_fuel (d : List Nat) (fs : Nat) :
    ∀ fuel pos, fs - pos ≤ fuel →
      bareSpriteLoopF d fs fuel pos = bareSpriteLoopF d fs (fs - pos) pos
  | 0, pos => by
    intro h
    have h0 : fs - pos = 0 := by omega
    rw [h0]
  | fuel + 1, pos => by
    intro h
    by_cases hp : pos + 4 < fs
    · have h0 : fs - pos = (fs - (pos + 1)) + 1 := by omega
      rw [h0]
      unfold bareSpriteLoopF
      rw [if_pos hp, if_pos hp]
      cases hs : try_parse_bare_sprite d pos fs with
      | none => rfl
      | some r =>
        obtain ⟨sp, pos2⟩ := r
        have hadv := try_parse_bare_sprite_advance d pos fs sp pos2 hs
        dsimp only
        rw [bareSpriteLoopF_fuel d fs fuel pos2 (by omega)]
        rw [bareSpriteLoopF_fuel d fs (fs - (pos + 1)) pos2 (by omega)]
    · cases hh : fs - pos with
      | zero =>
        unfold bareSpriteLoopF
        rw [if_neg hp]
      | succ k =>
        unfold bareSpriteLoopF
        rw [if_neg hp, if_neg hp]

theorem bare_sprite_loop_unfold (d : List Nat) (fs : Nat) (pos : Nat) :
    bare_sprite_loop d fs pos =
      if pos + 4 < fs then
        match try_parse_bare_sprite d pos fs with
        | none => ([], pos)
        | some (sp, pos2) =>
          (sp :: (bare_sprite_loop d fs pos2).1, (bare_sprite_loop d fs pos2).2)
      else ([], pos) := by
  unfold bare_sprite_loop
  by_cases hp : pos + 4 < fs
  · have h0 : fs - pos = (fs - (pos + 1)) + 1 := by omega
    rw [h0]
    simp only [bareSpriteLoopF]
    rw [if_pos hp, if_pos hp]
    cases hs : try_parse_bare_sprite d pos fs with
    | none => rfl
    | some r =>
      obtain ⟨sp, pos2⟩ := r
      have hadv := try_parse_bare_sprite_advance d pos fs sp pos2 hs
      dsimp only
      rw [bareSpriteLoopF_fuel d fs (fs - (pos + 1)) pos2 (by omega)]
  · rw [if_neg hp]
    cases hh : fs - pos with
    | zero =>
      unfold bareSpriteLoopF
      rfl
    | succ k =>
      unfold bareSpriteLoopF
      rw [if_neg hp]

/-- The layer-name-table loop. -/
def layers_loop (d : List Nat) : Nat → Nat → List (List Nat) × Nat
  | 0, pos => ([], pos)
  | n + 1, pos =>
    if valid_str d pos then
      match rstr d pos with
      | some (nm, pos2) =>
        let r := layers_loop d n pos2
        (nm :: r.1, r.2)
      | none => ([], pos)
    else ([], pos)

/-- The clip-table loop (a clip whose 16-bit value is truncated is dropped,
but its name bytes stay consumed). -/
def clips_loop (d : List Nat) : Nat → Nat → List Clip × Nat
  | 0, pos => ([], pos)
  | n + 1, pos =>
    if valid_str d pos then
      match rstr d pos with
      | some (cn, p1) =>
        match r16 d p1 with
        | some (cv, p2) =>
          let r := clips_loop d n p2
          (⟨cn, cv⟩ :: r.1, r.2)
        | none => ([], p1)
      | none => ([], pos)
    else ([], pos)

/-- One fixed-layout element read; on a truncated field the cursor stops at
the first out-of-bounds read, exactly like the sequential Python reads. -/
def parse_element (d : List Nat) (layers : List (List Nat)) (pos : Nat) :
    Option Element × Nat :=
  match r16 d pos with
  | none => (none, pos)
  | some (idx, p1) =>
  match r16 d p1 with
  | none => (none, p1)
  | some (u1, p2) =>
  match r16 d p2 with
  | none => (none, p2)
  | some (li, p3) =>
  match r16 d p3 with
  | none => (none, p3)
  | some (u2, p4) =>
  match rf d p4 with
  | none => (none, p4)
  | some (ma, p5) =>
  match rf d p5 with
  | none => (none, p5)
  | some (md, p6) =>
  match rf d p6 with
  | none => (none, p6)
  | some (mb, p7) =>
  match rf d p7 with
  | none => (none, p7)
  | some (mc, p8) =>
  match rf d p8 with
  | none => (none, p8)
  | some (tx, p9) =>
  match rf d p9 with
  | none => (none, p9)
  | some (ty, p10) =>
  match r16 d p10 with
  | none => (none, p10)
  | some (zo, p11) =>
  match r8 d p11 with
  | none => (none, p11)
  | some (tp, p12) =>
  match r8 d p12 with
  | none => (none, p12)
  | some (cr, p13) =>
  match r8 d p13 with
  | none => (none, p13)
  | some (cg, p14) =>
  match r8 d p14 with
  | none => (none, p14)
  | some (cb, p15) =>
  match r8 d p15 with
  | none => (none, p15)
  | some (ca, p16) =>
    let pd := bslice d p16 (p16 + 4)
    let ln := if li < layers.length then layers.getD li [] else [63]
    (some ⟨idx, u1, li, u2, ln, ma, mb, mc, md, tx, ty, zo, tp, cr, cg, cb, ca, pd⟩, p16 + 4)

/-- The per-section element loop; the Bool is the `ok` flag. -/
def elements_loop (d : List Nat) (layers : List (List Nat)) :
    Nat → Nat → List Element × Nat × Bool
  | 0, pos => ([], pos, true)
  | n + 1, pos =>
    match parse_element d layers pos with
    | (none, pf) => ([], pf, false)
    | (some el, pos2) =>
      let r := elements_loop d layers n pos2
      (el :: r.1, r.2.1, r.2.2)

/-- The traditional-sections loop. -/
def sections_loop (d : List Nat) (fs : Nat) (layers : List (List Nat)) :
    Nat → Nat → List SectionRec × Nat
  | 0, pos => ([], pos)
  | n + 1, pos =>
    if ¬ looks_like_section d pos fs layers then ([], pos)
    else
      match rstr d pos with
      | none => ([], pos)
      | some (fn_, p1) =>
        match r32 d p1 with
        | none => ([], pos)
        | some (su, p2) =>
        match r8 d p2 with
        | none => ([], pos)
        | some (sf, p3) =>
        match r16 d p3 with
        | none => ([], pos)
        | some (sfc, p4) =>
        match r16 d p4 with
        | none => ([], pos)
        | some (sec, p5) =>
          if sec > 10000 ∨ sfc > 10000 then ([], pos)
          else
            let r := elements_loop d layers sec p5
            let s : SectionRec := ⟨fn_, su, sf, sfc, sec, r.1⟩
            if r.2.2 then
              let rest := sections_loop d fs layers n r.2.1
              (s :: rest.1, rest.2)
            else ([s], r.2.1)

/-- The skipped (too-small) result of `parse_canim`. -/
def empty_canim_result (fs : Nat) : CanimDoc :=
  ⟨[63, 63, 63, 63], 0, 0, 0, [], 0, 0, 0, 0, 0, [], [], [], [], false, [], [], false,
    (if fs > 0 then [] else []), true⟩

/-- The normal (non-minimal) tail of `parse_canim` after the rate byte. -/
def parse_canim_normal (d : List Nat) (magic : List Nat) (version hf1 hf2 : Nat)
    (anim_name : List Nat) (m_rate pos0 : Nat) : Option CanimDoc :=
  let fs := d.length
  match r16 d pos0 with
  | none => none
  | some (m_clips, q1) =>
  match r16 d q1 with
  | none => none
  | some (m_sections, q2) =>
  match r16 d q2 with
  | none => none
  | some (m_elements, q3) =>
  match r16 d q3 with
  | none => none
  | some (m_unk2, q4) =>
  match r16 d q4 with
  | none => none
  | some (m_layers, q5) =>
    let lr := layers_loop d m_layers q5
    let layers := lr.1
    let cr := if m_clips > 0 then clips_loop d m_clips lr.2 else ([], lr.2)
    let clips := cr.1
    let hasTrad := looks_like_section d cr.2 fs layers
    let sr := if hasTrad then sections_loop d fs layers m_sections cr.2 else ([], cr.2)
    match parse_build_section d fs (fs + 1) sr.2 [] with
    | none => none
    | some (entries, posB) =>
      some ⟨magic, version, hf1, hf2, anim_name, m_rate, m_clips, m_sections, m_elements,
        m_unk2, layers, clips, sr.1, entries, false, [], [], hasTrad,
        bslice d posB fs, false⟩

/-- Python `parse_canim` on an in-memory buffer; `none` models an uncaught
exception (the caller treats the file as rejected). -/
def parse_canim (d : List Nat) : Option CanimDoc :=
  let fs := d.length
  if fs < 20 then some (empty_canim_result fs)
  else if ¬ (d.take 4).all (· < 128) then none
  else
    let magic := d.take 4
    let version := u32at d 4
    let hf1 := u16at d 8
    let hf2 := u16at d 10
    match rstr d 12 with
    | none => none
    | some (anim_name, posN) =>
      match r8 d posN with
      | none => none
      | some (m_rate, pos0) =>
        match (if hf1 = 0 then minimal_scan d fs pos0 else none) with
        | some spriteStart =>
          let minimalMeta := bslice d pos0 spriteStart
          let br := bare_sprite_loop d fs spriteStart
          some ⟨magic, version, hf1, hf2, anim_name, m_rate, 0, 0, 0, 0, [], [], [], [],
            true, minimalMeta, br.1, false, bslice d br.2 fs, false⟩
        | none =>
          parse_canim_normal d magic version hf1 hf2 anim_name m_rate pos0

/-! ### canim.py JSON export / rebuild -/

/-- A minimal-format sprite as exported to JSON (name + geometry only). -/
structure MinSprite where
  name : List Nat
  width : Nat
  height : Nat
  pivot_x : Nat
  pivot_y : Nat
deriving DecidableEq, Repr

/-- The JSON export of a canim document (`export_canim_to_json`'s dict). -/
structure CanimJson where
  magic : List Nat
  version : Nat
  hf1 : Nat
  hf2 : Nat
  anim_name : List Nat
  frame_rate : Nat
  minimal : Bool
  minimal_meta : List Nat
  has_traditional_sections : Bool
  unk2 : Nat
  num_clips : Nat
  num_sections : Nat
  total_elements : Nat
  layers : List (List Nat)
  clips : List Clip
  sectionRecs : List SectionRec
  build_entries : List BuildEntry
  minimal_sprites : List MinSprite
  trail : List Nat
deriving DecidableEq, Repr

/-- Float fields of a sprite after the JSON round trip. -/
def jsonSprite (sp : Sprite) : Sprite :=
  ⟨sp.frame, sp.unk, sp.name, jsonF32 sp.width, jsonF32 sp.height,
    jsonF32 sp.pivot_x, jsonF32 sp.pivot_y, sp.empty⟩

/-- Float fields of a build entry after the JSON round trip. -/
def jsonEntry : BuildEntry → BuildEntry
  | .symbol n r ns sps c subs tl raw => .symbol n r ns (sps.map jsonSprite) c subs tl raw
  | e => e

/-- Float fields of an element after the JSON round trip. -/
def jsonElement (el : Element) : Element :=
  ⟨el.index, el.unk1, el.layer_idx, el.unk2, el.layer_name, jsonF32 el.ma, jsonF32 el.mb,
    jsonF32 el.mc, jsonF32 el.md, jsonF32 el.tx, jsonF32 el.ty, el.z_ord, el.etype,
    el.cr, el.cg, el.cb, el.ca, el.pad⟩

/-- Float fields of a section after the JSON round trip. -/
def jsonSection (s : SectionRec) : SectionRec :=
  { s with elements := s.elements.map jsonElement }

/-- Python `export_canim_to_json` (raises on a skipped parse result). -/
def export_canim_to_json (r : CanimDoc) : Option CanimJson :=
  if r.skipped then none
  else some ⟨r.magic, r.version, r.hf1, r.hf2, r.anim_name, r.frame_rate, r.minimal,
    r.minimal_meta, r.has_traditional_sections, r.unk2, r.num_clips, r.num_sections,
    r.total_elements, r.layers, r.clips, r.sectionRecs.map jsonSection,
    r.build_entries.map jsonEntry,
    (if r.minimal then
      r.minimal_sprites.map (fun sp =>
        ⟨sp.name, jsonF32 sp.width, jsonF32 sp.height, jsonF32 sp.pivot_x, jsonF32 sp.pivot_y⟩)
     else []),
    r.trail⟩

/-- Encode each item and concatenate; fails at the first failing item. -/
def wcat {α : Type} (f : α → Option (List Nat)) : List α → Option (List Nat)
  | [] => some []
  | x :: xs =>
    match f x, wcat f xs with
    | some a, some b => some (a ++ b)
    | _, _ => none

/-- Rebuild of one minimal-format sprite. -/
def encode_min_sprite (sp : MinSprite) : Option (List Nat) :=
  match wstr sp.name with
  | some nb => some (nb ++ w32 sp.width ++ w32 sp.height ++ w32 sp.pivot_x ++ w32 sp.pivot_y)
  | none => none

/-- Rebuild of one clip-table entry. -/
def encode_clip (c : Clip) : Option (List Nat) :=
  match wstr c.name with
  | some nb => some (nb ++ w16 c.value)
  | none => none

/-- Rebuild of one element (matrix re-ordered back to file order `a, d, b, c`). -/
def encode_element (el : Element) : List Nat :=
  w16 el.index ++ w16 el.unk1 ++ w16 el.layer_idx ++ w16 el.unk2 ++
  w32 el.ma ++ w32 el.md ++ w32 el.mb ++ w32 el.mc ++ w32 el.tx ++ w32 el.ty ++
  w16 el.z_ord ++ w8 el.etype ++ w8 el.cr ++ w8 el.cg ++ w8 el.cb ++ w8 el.ca ++ el.pad

/-- Rebuild of one traditional section. -/
def encode_sectionRec (s : SectionRec) : Option (List Nat) :=
  match wstr s.name with
  | some nb => some (nb ++ w32 s.unknown ++ w8 s.facing ++ w16 s.frame_count ++
      w16 s.element_count ++ (s.elements.map encode_element).flatten)
  | none => none

/-- Python `_write_symbol_from_parsed`: one sprite record from fields. -/
def encode_parsed_sprite (sp : Sprite) : Option (List Nat) :=
  let tailB := w32 sp.width ++ w32 sp.height ++ w32 sp.pivot_x ++ w32 sp.pivot_y
  if sp.empty ∨ sp.name = [] then some (w16 sp.frame ++ w16 sp.unk ++ w32 0 ++ tailB)
  else
    match wstr sp.name with
    | some nb => some (w16 sp.frame ++ w16 sp.unk ++ nb ++ tailB)
    | none => none

/-- Python `_write_symbol_from_parsed`: a simple symbol rebuilt from fields. -/
def write_symbol_from_parsed (n : List Nat) (r ns : Nat) (sps : List Sprite) :
    Option (List Nat) :=
  match wstr n, wcat encode_parsed_sprite sps with
  | some nb, some spsB => some (nb ++ w8 r ++ w16 ns ++ spsB)
  | _, _ => none

/-- Rebuild of one build entry: the retained raw span when present, the
field-by-field fallback for a non-composite symbol, nothing otherwise. -/
def encode_build_entry : BuildEntry → Option (List Nat)
  | .symbol n r ns sps comp _ _ raw =>
    if raw ≠ [] then some raw
    else if ¬ comp then write_symbol_from_parsed n r ns sps
    else some []
  | .build_block _ _ raw => if raw ≠ [] then some raw else some []

/-- Python `rebuild_canim_from_json`: JSON document back to a byte buffer. -/
def rebuild_canim_from_json (j : CanimJson) : Option (List Nat) :=
  match (if j.magic.all (· < 128) then some j.magic else none), wstr j.anim_name with
  | some mg, some nm =>
    let base := mg ++ w32 j.version ++ w16 j.hf1 ++ w16 j.hf2 ++ nm ++ w8 j.frame_rate
    if j.minimal then
      match wcat encode_min_sprite j.minimal_sprites with
      | some sprB => some (base ++ j.minimal_meta ++ sprB ++ j.trail)
      | none => none
    else
      match wcat wstr j.layers, wcat encode_clip j.clips,
        (if j.has_traditional_sections then wcat encode_sectionRec j.sectionRecs
         else some ([] : List Nat)),
        wcat encode_build_entry j.build_entries with
      | some layB, some clB, some secB, some beB =>
        some (base ++ w16 j.num_clips ++ w16 j.num_sections ++ w16 j.total_elements ++
          w16 j.unk2 ++ w16 j.layers.length ++ layB ++ clB ++ secB ++ beB ++ j.trail)
      | _, _, _, _ => none
  | _, _ => none

/-! ### canim_meta.py model

Chunk tags: MHIT = `[77,72,73,84]`, MACT = `[77,65,67,84]`, MCOL = `[77,67,79,76]`. -/

/-- The fixed chunk-marker set `CHUNK_MAGICS`. -/
def CHUNK_MAGICS : List (List Nat) := [[77, 72, 73, 84], [77, 65, 67, 84], [77, 67, 79, 76]]

/-- Finite values scaled by 2^149; infinities pushed past every finite
magnitude (`|scaled149| < 2^300`). -/
def extScaled (w : Nat) : Int :=
  if f32Exp w = 255 then (if f32Sign w = 1 then -(2 : Int) ^ 300 else 2 ^ 300)
  else scaled149 w

/-- Python float `a < b` on two 32-bit patterns (NaN incomparable). -/
def fvLtP (a b : Nat) : Bool :=
  if (f32Exp a = 255 ∧ f32Man a ≠ 0) ∨ (f32Exp b = 255 ∧ f32Man b ≠ 0) then false
  else decide (extScaled a < extScaled b)

/-- Python `min` over a nonempty float list (first element wins ties/NaN). -/
def pyMin : List Nat → Nat
  | [] => 0
  | x :: xs => xs.foldl (fun acc y => if fvLtP y acc then y else acc) x

/-- Python `max` over a nonempty float list. -/
def pyMax : List Nat → Nat
  | [] => 0
  | x :: xs => xs.foldl (fun acc y => if fvLtP acc y then y else acc) x

/-- Elements at even indices (`floats[0::2]`). -/
def evenIdx : List Nat → List Nat
  | [] => []
  | [x] => [x]
  | x :: _ :: rest => x :: evenIdx rest

/-- Elements at odd indices (`floats[1::2]`). -/
def oddIdx : List Nat → List Nat
  | [] => []
  | [_] => []
  | _ :: y :: rest => y :: oddIdx rest

/-- An MHIT phase (`canim_meta.Phase`): time, point-count tag, either the
raw point floats or the rectangle reading (all floats are 32-bit patterns). -/
structure MetaPhase where
  phase_time : Nat
  bbox_type : Nat
  raw_floats : Option (List Nat)
  minX : Nat
  minY : Nat
  maxX : Nat
  maxY : Nat
deriving DecidableEq, Repr

/-- Python `Phase.get_floats`: the retained raw points, or the four corners. -/
def phase_get_floats (ph : MetaPhase) : List Nat :=
  match ph.raw_floats with
  | some l => l
  | none => [ph.minX, ph.minY, ph.minX, ph.maxY, ph.maxX, ph.maxY, ph.maxX, ph.minY]

/-- Python `Phase.to_bytes`. -/
def metaPhase_to_bytes (ph : MetaPhase) : List Nat :=
  w32 ph.phase_time ++ w32 ph.bbox_type ++ (phase_get_floats ph).flatMap w32

/-- Python `Phase.from_bytes`: `bbox_type == 4` stores the rectangle reading
(indices 0, 1, 4, 3 of the floats); any other tag keeps the raw floats and
derives the bbox by Python `min`/`max`. -/
def phase_from_bytes (d : List Nat) (off : Nat) : MetaPhase :=
  let pt := u32at d off
  let bt := u32at d (off + 4)
  let floats := (List.range (bt * 2)).map (fun i => u32at d (off + 8 + i * 4))
  if bt = 4 ∧ floats.length = 8 then
    ⟨pt, bt, none, floats.getD 0 0, floats.getD 1 0, floats.getD 4 0, floats.getD 3 0⟩
  else
    let xs := evenIdx floats
    let ys := oddIdx floats
    ⟨pt, bt, some floats,
      (if xs ≠ [] then pyMin xs else 0), (if ys ≠ [] then pyMin ys else 0),
      (if xs ≠ [] then pyMax xs else 0), (if ys ≠ [] then pyMax ys else 0)⟩

/-- The MHIT structured chunk. -/
structure MHITEntry where
  anim_hash : Nat
  event_hash : Nat
  start_time : Nat
  end_time : Nat
  element_id : Nat
  phases : List MetaPhase
  ref_hashes : List Nat
  footer_extra : List Nat
deriving DecidableEq, Repr

/-- Python `MHITEntry.to_bytes`. -/
def mhit_to_bytes (e : MHITEntry) : List Nat :=
  [77, 72, 73, 84] ++ w32 e.anim_hash ++ w32 e.event_hash ++ w32 e.start_time ++
  w32 e.end_time ++ w32 e.element_id ++ w32 e.phases.length ++
  (e.phases.map metaPhase_to_bytes).flatten ++
  w32 e.ref_hashes.length ++ e.ref_hashes.flatMap w32 ++ e.footer_extra

/-- The self-describing phase chain of an MHIT chunk (stops at the declared
count or the chunk end). -/
def mhit_phase_walk (d : List Nat) (endPos : Nat) : Nat → Nat → List MetaPhase × Nat
  | 0, cur => ([], cur)
  | n + 1, cur =>
    if cur + 8 > endPos then ([], cur)
    else
      let psize := 8 + u32at d (cur + 4) * 8
      if cur + psize > endPos then ([], cur)
      else
        let r := mhit_phase_walk d endPos n (cur + psize)
        (phase_from_bytes d cur :: r.1, r.2)

/-- Python `MHITEntry.from_bytes`; `none` models the uncaught buffer
overrun of the fixed header reads (caught by the load loop). -/
def mhit_from_bytes (d : List Nat) (offset size : Nat) : Option MHITEntry :=
  if offset + 28 > d.length then none
  else
    let w := mhit_phase_walk d (offset + size) (u32at d (offset + 24)) (offset + 28)
    let footerOff := w.2
    if footerOff + 4 ≤ offset + size then
      let refCount := u32at d footerOff
      let refs := (List.range refCount).filterMap (fun r =>
        if footerOff + 4 + r * 4 + 4 ≤ offset + size then
          some (u32at d (footerOff + 4 + r * 4))
        else none)
      let consumed := footerOff + 4 + refCount * 4 - offset
      let fx := if consumed < size then bslice d (offset + consumed) (offset + size) else []
      some ⟨u32at d (offset + 4), u32at d (offset + 8), u32at d (offset + 12),
        u32at d (offset + 16), u32at d (offset + 20), w.1, refs, fx⟩
    else
      some ⟨u32at d (offset + 4), u32at d (offset + 8), u32at d (offset + 12),
        u32at d (offset + 16), u32at d (offset + 20), w.1, [], []⟩

/-- A collision line segment (float patterns). -/
structure ColSeg where
  x1 : Nat
  y1 : Nat
  x2 : Nat
  y2 : Nat
deriving DecidableEq, Repr

/-- Python `CollisionSegment.to_bytes`: four floats plus the 5 zero bytes. -/
def seg_to_bytes (s : ColSeg) : List Nat :=
  w32 s.x1 ++ w32 s.y1 ++ w32 s.x2 ++ w32 s.y2 ++ [0, 0, 0, 0, 0]

/-- A collision phase: timestamp plus segments. -/
structure ColPhase where
  phase_time : Nat
  segments : List ColSeg
deriving DecidableEq, Repr

/-- Python `CollisionPhase.to_bytes`. -/
def colphase_to_bytes (ph : ColPhase) : List Nat :=
  w32 ph.phase_time ++ w32 ph.segments.length ++ (ph.segments.map seg_to_bytes).flatten

/-- The failure reasons of `CollisionPhase.from_bytes`. -/
inductive ColErr where
  | headerOverflow : ColErr
  | badNumSegments : ColErr
  | segmentOverflow : ColErr
  | separatorOverflow : ColErr
  | badSeparator : ColErr
deriving DecidableEq, Repr

/-- The segment chain of one collision phase: each segment is 16 bytes of
coordinates followed by a mandatory 5-zero-byte separator. -/
def col_seg_walk (d : List Nat) (maxEnd : Nat) : Nat → Nat → List ColSeg × Nat × Option ColErr
  | 0, cur => ([], cur, none)
  | n + 1, cur =>
    if cur + 16 > maxEnd then ([], cur, some .segmentOverflow)
    else
      let seg : ColSeg := ⟨u32at d cur, u32at d (cur + 4), u32at d (cur + 8), u32at d (cur + 12)⟩
      let cur2 := cur + 16
      if cur2 + 5 > maxEnd then ([], cur2, some .separatorOverflow)
      else if bslice d cur2 (cur2 + 5) ≠ [0, 0, 0, 0, 0] then ([], cur2, some .badSeparator)
      else
        let r := col_seg_walk d maxEnd n (cur2 + 5)
        (seg :: r.1, r.2.1, r.2.2)

/-- Python `CollisionPhase.from_bytes`: phase header, bounds-checked segment
count in `1..200`, then the separator-verified segment chain. -/
def collision_phase_from_bytes (d : List Nat) (offset maxEnd : Nat) :
    Option ColPhase × Nat × Option ColErr :=
  if offset + 8 > maxEnd then (none, offset, some .headerOverflow)
  else if u32at d (offset + 4) < 1 ∨ u32at d (offset + 4) > 200 then
    (none, offset, some .badNumSegments)
  else
    match (col_seg_walk d maxEnd (u32at d (offset + 4)) (offset + 8)).2.2 with
    | some err =>
      (none, (col_seg_walk d maxEnd (u32at d (offset + 4)) (offset + 8)).2.1, some err)
    | none =>
      (some ⟨u32at d offset, (col_seg_walk d maxEnd (u32at d (offset + 4)) (offset + 8)).1⟩,
        (col_seg_walk d maxEnd (u32at d (offset + 4)) (offset + 8)).2.1, none)

/-- The MCOL structured chunk. -/
structure MCOLEntry where
  anim_hash : Nat
  event_hash : Nat
  start_time : Nat
  end_time : Nat
  element_id : Nat
  phases : List ColPhase
  ref_count : Nat
deriving DecidableEq, Repr

/-- Python `MCOLEntry.to_bytes`. -/
def mcol_to_bytes (e : MCOLEntry) : List Nat :=
  [77, 67, 79, 76] ++ w32 e.anim_hash ++ w32 e.event_hash ++ w32 e.start_time ++
  w32 e.end_time ++ w32 e.element_id ++ w32 e.phases.length ++
  (e.phases.map colphase_to_bytes).flatten ++ w32 e.ref_count

/-- The phase chain of an MCOL chunk; the Bool marks a failed phase decode
(which aborts the whole chunk). -/
def mcol_phase_walk (d : List Nat) (maxEnd : Nat) : Nat → Nat → List ColPhase × Nat × Bool
  | 0, cur => ([], cur, false)
  | n + 1, cur =>
    match collision_phase_from_bytes d cur maxEnd with
    | (some ph, cur2, _) =>
      let r := mcol_phase_walk d maxEnd n cur2
      (ph :: r.1, r.2.1, r.2.2)
    | (none, _, _) => ([], cur, true)

/-- Python `MCOLEntry.from_bytes` (`none` for the header overrun and for a
failed phase chain alike). -/
def mcol_from_bytes (d : List Nat) (offset size : Nat) : Option MCOLEntry :=
  if offset + 28 > d.length then none
  else if (mcol_phase_walk d (offset + size) (u32at d (offset + 24)) (offset + 28)).2.2 then
    none
  else
    some ⟨u32at d (offset + 4), u32at d (offset + 8), u32at d (offset + 12),
      u32at d (offset + 16), u32at d (offset + 20),
      (mcol_phase_walk d (offset + size) (u32at d (offset + 24)) (offset + 28)).1,
      (if (mcol_phase_walk d (offset + size) (u32at d (offset + 24)) (offset + 28)).2.1 + 4 ≤
          offset + size then
        u32at d ((mcol_phase_walk d (offset + size) (u32at d (offset + 24)) (offset + 28)).2.1)
      else 0)⟩

/-- One chunk of the loaded event container. -/
inductive MetaChunk where
  | raw (magic : List Nat) (rawData : List Nat) : MetaChunk
  | mhit (e : MHITEntry) : MetaChunk
  | mcol (e : MCOLEntry) : MetaChunk
deriving DecidableEq, Repr

/-- Chunk re-encoding (`to_bytes` of the matching Python class). -/
def chunk_to_bytes : MetaChunk → List Nat
  | .raw _ rawData => rawData
  | .mhit e => mhit_to_bytes e
  | .mcol e => mcol_to_bytes e

/-- The byte scan of `_find_chunk_boundaries`, on fuel (the wrapper below
supplies provably sufficient fuel, so the fuel is invisible semantically). -/
def boundaryScanF (d : List Nat) : Nat → Nat → List (Nat × List Nat)
  | 0, _ => []
  | fuel + 1, pos =>
    if pos + 4 ≤ d.length then
      if CHUNK_MAGICS.contains (bslice d pos (pos + 4)) then
        (pos, bslice d pos (pos + 4)) :: boundaryScanF d fuel (pos + 4)
      else boundaryScanF d fuel (pos + 1)
    else []

/-- The byte scan of `_find_chunk_boundaries` from a given position. -/
def boundary_scan (d : List Nat) (pos : Nat) : List (Nat × List Nat) :=
  boundaryScanF d (d.length - pos) pos

theorem boundaryScanF_fuel (d : List Nat) :
    ∀ fuel pos, d.length - pos ≤ fuel →
      boundaryScanF d fuel pos = boundaryScanF d (d.length - pos) pos
  | 0, pos => by
    intro h
    have h0 : d.length - pos = 0 := by omega
    rw [h0]
  | fuel + 1, pos => by
    intro h
    by_cases hp : pos + 4 ≤ d.length
    · have h0 : d.length - pos = (d.length - (pos + 1)) + 1 := by omega
      rw [h0]
      unfold boundaryScanF
      rw [if_pos hp, if_pos hp]
      by_cases hm : CHUNK_MAGICS.contains (bslice d pos (pos + 4)) = true
      · rw [if_pos hm, if_pos hm]
        rw [boundaryScanF_fuel d fuel (pos + 4) (by omega)]
        rw [boundaryScanF_fuel d (d.length - (pos + 1)) (pos + 4) (by omega)]
      · rw [if_neg hm, if_neg hm]
        rw [boundaryScanF_fuel d fuel (pos + 1) (by omega)]
    · cases hh : d.length - pos with
      | zero =>
        unfold boundaryScanF
        rw [if_neg hp]
      | succ k =>
        unfold boundaryScanF
        rw [if_neg hp, if_neg hp]

theorem boundary_scan_unfold (d : List Nat) (pos : Nat) :
    boundary_scan d pos =
      if pos + 4 ≤ d.length then
        if CHUNK_MAGICS.contains (bslice d pos (pos + 4)) then
          (pos, bslice d pos (pos + 4)) :: boundary_scan d (pos + 4)
        else boundary_scan d (pos + 1)
      else [] := by
  unfold boundary_scan
  by_cases hp : pos + 4 ≤ d.length
  · have h0 : d.length - pos = (d.length - (pos + 1)) + 1 := by omega
    rw [h0]
    simp only [boundaryScanF]
    rw [if_pos hp, if_pos hp]
    by_cases hm : CHUNK_MAGICS.contains (bslice d pos (pos + 4)) = true
    · rw [if_pos hm, if_pos hm]
      rw [boundaryScanF_fuel d (d.length - (pos + 1)) (pos + 4) (by omega)]
    · rw [if_neg hm, if_neg hm]
  · rw [if_neg hp]
    cases hh : d.length - pos with
    | zero =>
      unfold boundaryScanF
      rfl
    | succ k =>
      unfold boundaryScanF
      rw [if_neg hp]

/-- Python `_find_chunk_boundaries`: every marker hit from offset 12 on. -/
def find_chunk_boundaries (d : List Nat) : List (Nat × List Nat) := boundary_scan d 12

/-- The loaded event container (`CAnimMeta`). -/
structure MetaDoc where
  version : Nat
  anim_hash : Nat
  entry_count : Nat
  chunks : List MetaChunk
  trailing : List Nat
deriving DecidableEq, Repr

/-- Verify-or-fallback decode of a single chunk boundary. -/
def load_chunk (d : List Nat) (cpos : Nat) (cmagic : List Nat) (csize : Nat) : MetaChunk :=
  if cmagic = [77, 72, 73, 84] then
    match mhit_from_bytes d cpos csize with
    | some e =>
      if mhit_to_bytes e = bslice d cpos (cpos + csize) then .mhit e
      else .raw cmagic (bslice d cpos (cpos + csize))
    | none => .raw cmagic (bslice d cpos (cpos + csize))
  else if cmagic = [77, 67, 79, 76] then
    match mcol_from_bytes d cpos csize with
    | some e =>
      if mcol_to_bytes e = bslice d cpos (cpos + csize) then .mcol e
      else .raw cmagic (bslice d cpos (cpos + csize))
    | none => .raw cmagic (bslice d cpos (cpos + csize))
  else .raw cmagic (bslice d cpos (cpos + csize))

/-- Decode every boundary; a chunk's size runs to the next boundary (or the
buffer end for the last chunk). -/
def load_chunks (d : List Nat) : List (Nat × List Nat) → List MetaChunk
  | [] => []
  | (cpos, cmagic) :: rest =>
    let csize :=
      match rest with
      | (npos, _) :: _ => npos - cpos
      | [] => d.length - cpos
    load_chunk d cpos cmagic csize :: load_chunks d rest

/-- Python `CAnimMeta.load` on an in-memory buffer. -/
def canim_meta_load (d : List Nat) : MetaDoc :=
  if d.length < 12 then
    ⟨if d.length ≥ 4 then u32at d 0 else 0, if d.length ≥ 8 then u32at d 4 else 0, 0, [], []⟩
  else
    let bounds := find_chunk_boundaries d
    let dataEnd := if bounds ≠ [] then d.length else 12
    ⟨u32at d 0, u32at d 4, u32at d 8, load_chunks d bounds,
      if dataEnd < d.length then bslice d dataEnd d.length else []⟩

/-- Python `_rebuild_bytes`: header (with the recomputed chunk count), every
chunk's bytes, then the retained trailing bytes. -/
def rebuild_bytes (m : MetaDoc) : List Nat :=
  w32 m.version ++ w32 m.anim_hash ++ w32 m.chunks.length ++
  (m.chunks.map chunk_to_bytes).flatten ++ m.trailing

/-! ### canim_meta.py JSON export / import -/

/-- The JSON form of one chunk (`export_json`'s per-chunk dict; the raw-chunk
display fields that `import_json` ignores are omitted). -/
inductive MetaJsonChunk where
  | jmhit (event_hash start_time end_time element_id : Nat)
      (phases : List MetaPhase) (ref_hashes : List Nat) (footer_extra : List Nat) : MetaJsonChunk
  | jmcol (anim_hash event_hash start_time end_time element_id ref_count : Nat)
      (phases : List ColPhase) : MetaJsonChunk
  | jraw (rawData : List Nat) : MetaJsonChunk
deriving DecidableEq, Repr

/-- The JSON export of a loaded event container. -/
structure MetaJson where
  version : Nat
  anim_hash : Nat
  trailing : List Nat
  chunks : List MetaJsonChunk
deriving DecidableEq, Repr

/-- Float fields of an MHIT phase after the JSON round trip. -/
def jsonMetaPhase (ph : MetaPhase) : MetaPhase :=
  ⟨jsonF32 ph.phase_time, ph.bbox_type, ph.raw_floats.map (List.map jsonF32),
    jsonF32 ph.minX, jsonF32 ph.minY, jsonF32 ph.maxX, jsonF32 ph.maxY⟩

/-- Float fields of a collision phase after the JSON round trip. -/
def jsonColPhase (ph : ColPhase) : ColPhase :=
  ⟨jsonF32 ph.phase_time,
    ph.segments.map (fun s => ⟨jsonF32 s.x1, jsonF32 s.y1, jsonF32 s.x2, jsonF32 s.y2⟩)⟩

/-- Python `export_json` (the written dict, with the JSON float round trip
already applied). -/
def export_json_meta (m : MetaDoc) : MetaJson :=
  ⟨m.version, m.anim_hash, m.trailing,
    m.chunks.map (fun c =>
      match c with
      | .mhit e => .jmhit e.event_hash (jsonF32 e.start_time) (jsonF32 e.end_time)
          e.element_id (e.phases.map jsonMetaPhase) e.ref_hashes e.footer_extra
      | .mcol e => .jmcol e.anim_hash e.event_hash (jsonF32 e.start_time)
          (jsonF32 e.end_time) e.element_id e.ref_count (e.phases.map jsonColPhase)
      | .raw _ rawData => .jraw rawData)⟩

/-- Python `import_json`: rebuilds the in-memory document from the JSON dict.
An imported MHIT chunk takes the container's `anim_hash`; a raw chunk's magic
is re-derived from its first four bytes. -/
def import_json_meta (j : MetaJson) : MetaDoc :=
  let chunks := j.chunks.map (fun c =>
    match c with
    | .jmhit ev st et el phs refs fx =>
      MetaChunk.mhit ⟨j.anim_hash, ev, st, et, el, phs, refs, fx⟩
    | .jmcol ah ev st et el rc phs =>
      MetaChunk.mcol ⟨ah, ev, st, et, el, phs, rc⟩
    | .jraw rawData => MetaChunk.raw (rawData.take 4) rawData)
  ⟨j.version, j.anim_hash, chunks.length, chunks, j.trailing⟩

/-! ### Value-level collision geometry (for the edit operations)

`cmd_scale` and friends operate on the in-memory Python floats.  The edit
arithmetic is modelled exactly over `Rat`; on the coordinate ranges the edits
are used with (and on the specified scenario) IEEE double arithmetic is exact,
so the rational model coincides with the source. -/

/-- A collision segment with value-level coordinates. -/
structure QSeg where
  x1 : Rat
  y1 : Rat
  x2 : Rat
  y2 : Rat
deriving DecidableEq, Repr

/-- Python `CollisionSegment.scale(factor, cx, cy)`. -/
def qsegScale (s : QSeg) (factor cx cy : Rat) : QSeg :=
  ⟨cx + (s.x1 - cx) * factor, cy + (s.y1 - cy) * factor,
   cx + (s.x2 - cx) * factor, cy + (s.y2 - cy) * factor⟩

/-- A collision phase with value-level segments. -/
structure QColPhase where
  phase_time : Rat
  segments : List QSeg
deriving DecidableEq, Repr

/-- Minimum of a rational list (first element seeds the fold). -/
def qListMin : List Rat → Rat
  | [] => 0
  | x :: xs => xs.foldl min x

/-- Maximum of a rational list. -/
def qListMax : List Rat → Rat
  | [] => 0
  | x :: xs => xs.foldl max x

/-- Python `CollisionPhase.get_bounds`. -/
def qphaseBounds (ph : QColPhase) : Rat × Rat × Rat × Rat :=
  if ph.segments = [] then (0, 0, 0, 0)
  else
    let xs := ph.segments.flatMap (fun s => [s.x1, s.x2])
    let ys := ph.segments.flatMap (fun s => [s.y1, s.y2])
    (qListMin xs, qListMin ys, qListMax xs, qListMax ys)

/-- Python `CollisionPhase.scale(factor, cx, cy)` with explicit center. -/
def qphaseScaleWith (ph : QColPhase) (factor cx cy : Rat) : QColPhase :=
  ⟨ph.phase_time, ph.segments.map (fun s => qsegScale s factor cx cy)⟩

/-- Python `CollisionPhase.scale(factor)` with the default per-phase center
(the center of this phase's own bounds). -/
def qphaseScaleOwn (ph : QColPhase) (factor : Rat) : QColPhase :=
  qphaseScaleWith ph factor (((qphaseBounds ph).1 + (qphaseBounds ph).2.2.1) / 2)
    (((qphaseBounds ph).2.1 + (qphaseBounds ph).2.2.2) / 2)

/-- The value-level geometric core of an MCOL entry (the fields
`MCOLEntry.scale` / `get_bounds` / `move` read and write). -/
structure QMCOL where
  phases : List QColPhase
deriving DecidableEq, Repr

/-- Python `MCOLEntry.get_bounds`: bounds over all segments of all phases. -/
def qmcolBounds (e : QMCOL) : Rat × Rat × Rat × Rat :=
  let xs := e.phases.flatMap (fun ph => ph.segments.flatMap (fun s => [s.x1, s.x2]))
  let ys := e.phases.flatMap (fun ph => ph.segments.flatMap (fun s => [s.y1, s.y2]))
  if xs = [] then (0, 0, 0, 0)
  else (qListMin xs, qListMin ys, qListMax xs, qListMax ys)

/-- Python `MCOLEntry.scale`: one shared centroid from the global bounds,
then every phase scaled about it. -/
def qmcolScale (e : QMCOL) (factor : Rat) : QMCOL :=
  ⟨e.phases.map (fun ph => qphaseScaleWith ph factor
      (((qmcolBounds e).1 + (qmcolBounds e).2.2.1) / 2)
      (((qmcolBounds e).2.1 + (qmcolBounds e).2.2.2) / 2))⟩

/-- Modelled from the spec (section 4.3 edit operations): scale recomputes
the bounding centroid across all segments in all phases and scales every
coordinate about that shared centroid. Written from the spec's words, to be
compared with `qmcolScale` (which is translated from the source). -/
def specSharedCentroidScale (e : QMCOL) (factor : Rat) : QMCOL :=
  ⟨e.phases.map (fun ph =>
    ⟨ph.phase_time, ph.segments.map (fun s =>
      ⟨(((qmcolBounds e).1 + (qmcolBounds e).2.2.1) / 2) +
        (s.x1 - (((qmcolBounds e).1 + (qmcolBounds e).2.2.1) / 2)) * factor,
       (((qmcolBounds e).2.1 + (qmcolBounds e).2.2.2) / 2) +
        (s.y1 - (((qmcolBounds e).2.1 + (qmcolBounds e).2.2.2) / 2)) * factor,
       (((qmcolBounds e).1 + (qmcolBounds e).2.2.1) / 2) +
        (s.x2 - (((qmcolBounds e).1 + (qmcolBounds e).2.2.1) / 2)) * factor,
       (((qmcolBounds e).2.1 + (qmcolBounds e).2.2.2) / 2) +
        (s.y2 - (((qmcolBounds e).2.1 + (qmcolBounds e).2.2.2) / 2)) * factor⟩)⟩)⟩

/-! ### Basic byte-level lemmas -/

theorem byteAt_lt_256 (d : List Nat) (p : Nat) (hb : Bytes d) (h : p < d.length) :
    byteAt d p < 256 := by
  have : d.getD p 0 = d[p] := List.getD_eq_getElem d 0 h
  rw [byteAt, this]
  exact hb _ (List.getElem_mem h)

theorem bslice_eq_map (d : List Nat) (a b : Nat) (h : b ≤ d.length) :
    bslice d a b = (List.range (b - a)).map (fun i => byteAt d (a + i)) := by
  apply List.ext_getElem
  · simp [bslice]
    omega
  · intro i h1 h2
    simp only [bslice] at h1 ⊢
    rw [List.getElem_take, List.getElem_drop]
    simp only [List.getElem_map, List.getElem_range]
    have hi : a + i < d.length := by
      simp at h1
      omega
    rw [byteAt, List.getD_eq_getElem d 0 hi]

theorem bslice_len (d : List Nat) (a b : Nat) (h : b ≤ d.length) :
    (bslice d a b).length = b - a := by
  simp [bslice]
  omega

theorem mem_bslice (d : List Nat) (a b x : Nat) (h : b ≤ d.length) (hx : x ∈ bslice d a b) :
    ∃ i, a + i < b ∧ byteAt d (a + i) = x := by
  rw [bslice_eq_map d a b h] at hx
  obtain ⟨i, hi, hix⟩ := List.mem_map.mp hx
  exact ⟨i, by simp at hi; omega, hix⟩

theorem bslice_four (d : List Nat) (p : Nat) (h : p + 4 ≤ d.length) :
    bslice d p (p + 4) = [byteAt d p, byteAt d (p + 1), byteAt d (p + 2), byteAt d (p + 3)] := by
  rw [bslice_eq_map d p (p + 4) h]
  norm_num [List.range_succ]

theorem bslice_two (d : List Nat) (p : Nat) (h : p + 2 ≤ d.length) :
    bslice d p (p + 2) = [byteAt d p, byteAt d (p + 1)] := by
  rw [bslice_eq_map d p (p + 2) h]
  norm_num [List.range_succ]

theorem bslice_one (d : List Nat) (p : Nat) (h : p + 1 ≤ d.length) :
    bslice d p (p + 1) = [byteAt d p] := by
  rw [bslice_eq_map d p (p + 1) h]
  norm_num [List.range_succ]

theorem w32_u32at (d : List Nat) (p : Nat) (hb : Bytes d) (h : p + 4 ≤ d.length) :
    w32 (u32at d p) = bslice d p (p + 4) := by
  rw [bslice_four d p h]
  have h0 := byteAt_lt_256 d p hb (by omega)
  have h1 := byteAt_lt_256 d (p + 1) hb (by omega)
  have h2 := byteAt_lt_256 d (p + 2) hb (by omega)
  have h3 := byteAt_lt_256 d (p + 3) hb (by omega)
  simp only [w32, u32at, List.cons.injEq, and_true]
  refine ⟨by omega, by omega, by omega, by omega⟩

theorem w16_u16at (d : List Nat) (p : Nat) (hb : Bytes d) (h : p + 2 ≤ d.length) :
    w16 (u16at d p) = bslice d p (p + 2) := by
  rw [bslice_two d p h]
  have h0 := byteAt_lt_256 d p hb (by omega)
  have h1 := byteAt_lt_256 d (p + 1) hb (by omega)
  simp only [w16, u16at, List.cons.injEq, and_true]
  refine ⟨by omega, by omega⟩

theorem w8_byteAt (d : List Nat) (p : Nat) (hb : Bytes d) (h : p + 1 ≤ d.length) :
    w8 (byteAt d p) = bslice d p (p + 1) := by
  rw [bslice_one d p h]
  have h0 := byteAt_lt_256 d p hb (by omega)
  simp only [w8, List.cons.injEq, and_true]
  omega

theorem bslice_append (d : List Nat) (a b c : Nat) (hab : a ≤ b) (hbc : b ≤ c)
    (hc : c ≤ d.length) : bslice d a b ++ bslice d b c = bslice d a c := by
  rw [bslice_eq_map d a b (by omega), bslice_eq_map d b c hc, bslice_eq_map d a c hc]
  apply List.ext_getElem
  · simp
    omega
  · intro i h1 h2
    simp only [List.getElem_append]
    split
    · simp only [List.getElem_map, List.getElem_range]
    · rename_i hh
      simp only [List.length_map, List.length_range] at hh
      simp only [List.getElem_map, List.getElem_range, List.length_map, List.length_range]
      congr 1
      omega

theorem bslice_self (d : List Nat) : bslice d 0 d.length = d := by
  simp [bslice]

theorem bslice_nil (d : List Nat) (a b : Nat) (h : b ≤ a) : bslice d a b = [] := by
  simp [bslice]
  omega

/-! ### Claim C8 — string reader failure semantics -/

/-- Claim C8: `rstr(buffer, offset)` fails exactly when fewer than 4 bytes
remain for the length prefix, or the declared length exceeds the 500-byte
sanity ceiling, or the declared length runs past the buffer end; in every
other case it returns the decoded text (non-ASCII bytes replaced by the
U+FFFD placeholder, code point 65533) and the advanced offset
`offset + 4 + length`. -/
theorem rstr_failure_semantics (d : List Nat) (p : Nat) :
    rstr d p =
      if d.length < p + 4 ∨ u32at d p > 500 ∨ p + 4 + u32at d p > d.length then none
      else some ((bslice d (p + 4) (p + 4 + u32at d p)).map
        (fun b => if b < 128 then b else 65533), p + 4 + u32at d p) := by
  by_cases h1 : p + 4 ≤ d.length
  · have hr : rstr d p =
        (if u32at d p > 500 then none
         else if p + 4 + u32at d p > d.length then none
         else some (decodeAscii (bslice d (p + 4) (p + 4 + u32at d p)), p + 4 + u32at d p)) := by
      unfold rstr r32
      rw [if_pos h1]
    rw [hr]
    by_cases h2 : u32at d p > 500
    · rw [if_pos h2, if_pos (by omega)]
    · rw [if_neg h2]
      by_cases h3 : p + 4 + u32at d p > d.length
      · rw [if_pos h3, if_pos (by omega)]
      · rw [if_neg h3, if_neg (by omega)]
        rfl
  · have hr : rstr d p = none := by
      unfold rstr r32
      rw [if_neg h1]
    rw [hr, if_pos (by omega)]

/-! ### Claim C4 — the symbol-header predicate -/

/-- The spec's reading of a valid length-prefixed string: nonzero length,
under the sanity cap, in bounds, printable-ASCII body. -/
def specValidStr (d : List Nat) (p : Nat) : Prop :=
  p + 4 ≤ d.length ∧ 1 ≤ u32at d p ∧ u32at d p ≤ 300 ∧ p + 4 + u32at d p ≤ d.length ∧
  ∀ i < u32at d p, 32 ≤ byteAt d (p + 4 + i) ∧ byteAt d (p + 4 + i) < 127

/-- The spec's symbol-header characterization: a valid length-prefixed
printable string, followed in bounds by a rate byte from the enumerated
rate set and a 16-bit count at most 5000, with no `/` (byte 47) in the name. -/
def specSymbolHeader (d : List Nat) (pos fs : Nat) : Prop :=
  specValidStr d pos ∧
  pos + 4 + u32at d pos + 3 ≤ fs ∧
  KNOWN_RATES.contains (byteAt d (pos + 4 + u32at d pos)) = true ∧
  u16at d (pos + 4 + u32at d pos + 1) ≤ 5000 ∧
  ∀ i < u32at d pos, byteAt d (pos + 4 + i) ≠ 47

theorem valid_str_iff (d : List Nat) (p : Nat) :
    valid_str d p = true ↔ specValidStr d p := by
  unfold valid_str specValidStr
  constructor
  · intro h
    split at h
    · split at h
      · exact absurd h (by simp)
      · rename_i h1 h2
        push_neg at h2
        simp only [decide_eq_true_eq] at h
        exact ⟨h1, by omega, by omega, by omega, h⟩
    · exact absurd h (by simp)
  · rintro ⟨h1, h2, h3, h4, h5⟩
    rw [if_pos h1, if_neg (by omega)]
    simpa using h5

theorem name_contains_47 (d : List Nat) (p l : Nat) (hl : p + 4 + l ≤ d.length) :
    (decodeAscii (bslice d (p + 4) (p + 4 + l))).contains 47 = true ↔
      ∃ i < l, byteAt d (p + 4 + i) = 47 := by
  have hmem : (decodeAscii (bslice d (p + 4) (p + 4 + l))).contains 47 = true ↔
      47 ∈ decodeAscii (bslice d (p + 4) (p + 4 + l)) := List.elem_iff
  rw [hmem, bslice_eq_map d (p + 4) (p + 4 + l) hl]
  have hll : p + 4 + l - (p + 4) = l := by omega
  rw [hll]
  simp only [decodeAscii, List.map_map, List.mem_map, List.mem_range, Function.comp]
  constructor
  · rintro ⟨i, hi, hix⟩
    refine ⟨i, hi, ?_⟩
    by_cases hb : byteAt d (p + 4 + i) < 128
    · rw [if_pos hb] at hix
      exact hix
    · rw [if_neg hb] at hix
      omega
  · rintro ⟨i, hi, hix⟩
    exact ⟨i, hi, by simp [hix]⟩

/-- Claim C4: over the buffer length (`fs` never exceeds it in the source's
call sites; past it the Python predicate would crash on the raw index),
`is_symbol_header(d, pos, fs)` holds iff the position carries a valid
length-prefixed printable-ASCII string followed in bounds by a known rate
byte and a 16-bit count at most 5000, with no path separator in the name. -/
theorem is_symbol_header_iff (d : List Nat) (pos fs : Nat) (_hfs : fs ≤ d.length) :
    is_symbol_header d pos fs = true ↔ specSymbolHeader d pos fs := by
  by_cases hv : valid_str d pos = true
  · obtain ⟨h1, h2, h3, h4⟩ := valid_str_spec d pos hv
    have heq : is_symbol_header d pos fs =
        (if pos + 4 + u32at d pos + 3 > fs then false
         else if ¬ KNOWN_RATES.contains (byteAt d (pos + 4 + u32at d pos)) then false
         else if u16at d (pos + 4 + u32at d pos + 1) > 5000 then false
         else if (decodeAscii (bslice d (pos + 4) (pos + 4 + u32at d pos))).contains 47 then false
         else true) := by
      unfold is_symbol_header
      rw [if_neg (by simpa using hv), rstr_of_valid d pos hv]
    rw [heq]
    unfold specSymbolHeader
    have hvs := (valid_str_iff d pos).mp hv
    by_cases hb : pos + 4 + u32at d pos + 3 > fs
    · rw [if_pos hb]
      simp only [Bool.false_eq_true, false_iff]
      rintro ⟨_, hb2, _, _, _⟩
      omega
    · rw [if_neg hb]
      by_cases hr : KNOWN_RATES.contains (byteAt d (pos + 4 + u32at d pos)) = true
      · rw [if_neg (by simpa using hr)]
        by_cases hc : u16at d (pos + 4 + u32at d pos + 1) > 5000
        · rw [if_pos hc]
          simp only [Bool.false_eq_true, false_iff]
          rintro ⟨_, _, _, hc2, _⟩
          omega
        · rw [if_neg hc]
          by_cases hn : (decodeAscii (bslice d (pos + 4) (pos + 4 + u32at d pos))).contains 47 = true
          · rw [if_pos hn]
            simp only [Bool.false_eq_true, false_iff]
            rintro ⟨_, _, _, _, hn2⟩
            obtain ⟨i, hi, hbyte⟩ := (name_contains_47 d pos (u32at d pos) h4).mp hn
            exact hn2 i hi hbyte
          · rw [if_neg (by simpa using hn)]
            simp only [true_iff]
            refine ⟨hvs, by omega, hr, by omega, ?_⟩
            intro i hi hbyte
            exact hn ((name_contains_47 d pos (u32at d pos) h4).mpr ⟨i, hi, hbyte⟩)
      · rw [if_pos (by simpa using hr)]
        simp only [Bool.false_eq_true, false_iff]
        rintro ⟨_, _, hr2, _, _⟩
        exact hr hr2
  · have heq : is_symbol_header d pos fs = false := by
      unfold is_symbol_header
      rw [if_pos (by simpa using hv)]
    rw [heq]
    simp only [Bool.false_eq_true, false_iff]
    rintro ⟨hvs, _⟩
    exact hv ((valid_str_iff d pos).mpr hvs)

/-- Witness for C4 at a concrete header: name `"a"`, rate 24, count 1. -/
theorem is_symbol_header_iff_witness :
    (8 : Nat) ≤ ([1, 0, 0, 0, 97, 24, 1, 0] : List Nat).length ∧
    specSymbolHeader [1, 0, 0, 0, 97, 24, 1, 0] 0 8 := by
  refine ⟨by norm_num, ?_⟩
  exact (is_symbol_header_iff [1, 0, 0, 0, 97, 24, 1, 0] 0 8 (by norm_num)).mp (by decide)

/-! ### Claim C5 — sprite validation bounds -/

/-- The spec's sprite value checks: printable-ASCII name, finite floats
within ±10000, width and height within `[0, 5000]`. -/
def sprite_value_ok (sp : Sprite) : Prop :=
  (∀ c ∈ sp.name, 32 ≤ c ∧ c < 127) ∧
  is_float_reasonable sp.width = true ∧ is_float_reasonable sp.height = true ∧
  is_float_reasonable sp.pivot_x = true ∧ is_float_reasonable sp.pivot_y = true ∧
  0 ≤ f32q sp.width ∧ f32q sp.width ≤ 5000 ∧ 0 ≤ f32q sp.height ∧ f32q sp.height ≤ 5000

instance (sp : Sprite) : Decidable (sprite_value_ok sp) := by
  unfold sprite_value_ok
  infer_instance

theorem is_float_reasonable_finite (w : Nat) (h : is_float_reasonable w = true) :
    f32Exp w ≠ 255 := by
  unfold is_float_reasonable at h
  intro hc
  rw [if_pos hc] at h
  cases h

theorem f32q_eq_scaled (w : Nat) (hfin : f32Exp w ≠ 255) :
    f32q w = (scaled149 w : Rat) / 2 ^ 149 := by
  have hv : f32v w = .fin ((scaled149 w : Rat) / 2 ^ 149) := by
    unfold f32v scaled149 f32Mag149
    rw [if_neg hfin]
    by_cases h0 : f32Exp w = 0
    · rw [if_pos h0, if_pos h0]
      congr 1
      by_cases hs : f32Sign w = 1
      · rw [if_pos hs, if_pos hs]
        push_cast
        ring
      · rw [if_neg hs, if_neg hs]
        push_cast
        ring
    · rw [if_neg h0, if_neg h0]
      have hpow : (2 : Rat) ^ f32Exp w = 2 ^ (f32Exp w - 1) * 2 := by
        rw [← pow_succ]
        congr 1
        omega
      congr 1
      by_cases hs : f32Sign w = 1
      · rw [if_pos hs, if_pos hs]
        push_cast
        rw [hpow]
        ring
      · rw [if_neg hs, if_neg hs]
        push_cast
        rw [hpow]
        ring
  unfold f32q
  rw [hv]

theorem scaled_lt_iff (w : Nat) (c : Int) (hfin : f32Exp w ≠ 255) :
    scaled149 w < c * 2 ^ 149 ↔ f32q w < (c : Rat) := by
  rw [f32q_eq_scaled w hfin, div_lt_iff (by positivity)]
  constructor
  · intro h
    exact_mod_cast Int.cast_lt.mpr h
  · intro h
    exact_mod_cast h

theorem scaled_gt_iff (w : Nat) (c : Int) (hfin : f32Exp w ≠ 255) :
    scaled149 w > c * 2 ^ 149 ↔ f32q w > (c : Rat) := by
  rw [f32q_eq_scaled w hfin, gt_iff_lt, gt_iff_lt,
    lt_div_iff (by positivity : (0 : Rat) < 2 ^ 149)]
  constructor
  · intro h
    exact_mod_cast Int.cast_lt.mpr h
  · intro h
    exact_mod_cast h

theorem fltB_eq_of_reasonable (w : Nat) (c : Int) (h : is_float_reasonable w = true) :
    fltB w c = decide (f32q w < (c : Rat)) := by
  have hfin := is_float_reasonable_finite w h
  unfold fltB
  rw [if_neg hfin]
  exact decide_eq_decide.mpr (scaled_lt_iff w c hfin)

theorem fgtB_eq_of_reasonable (w : Nat) (c : Int) (h : is_float_reasonable w = true) :
    fgtB w c = decide (f32q w > (c : Rat)) := by
  have hfin := is_float_reasonable_finite w h
  unfold fgtB
  rw [if_neg hfin]
  exact decide_eq_decide.mpr (scaled_gt_iff w c hfin)

theorem valid_str_name_printable (d : List Nat) (p : Nat) (h : valid_str d p = true) :
    ∀ c ∈ decodeAscii (bslice d (p + 4) (p + 4 + u32at d p)), 32 ≤ c ∧ c < 127 := by
  intro c hc
  obtain ⟨h1, h2, h3, h4⟩ := valid_str_spec d p h
  have hp := ((valid_str_iff d p).mp h).2.2.2.2
  unfold decodeAscii at hc
  obtain ⟨b, hb, hbc⟩ := List.mem_map.mp hc
  obtain ⟨i, hi, hib⟩ := mem_bslice d (p + 4) (p + 4 + u32at d p) b h4 hb
  have hpi := hp i (by omega)
  rw [hib] at hpi
  rw [if_pos (by omega)] at hbc
  omega

theorem decodeAscii_len (d : List Nat) (a b : Nat) (h : b ≤ d.length) :
    (decodeAscii (bslice d a b)).length = b - a := by
  unfold decodeAscii
  rw [List.length_map, bslice_len d a b h]

theorem try_parse_sprite_checks (d : List Nat) (pos fs : Nat) (sp : Sprite) (p2 : Nat)
    (h : try_parse_sprite d pos fs = some (sp, p2)) :
    (sp.empty = true ∧ sp.name = []) ∨ (sp.empty = false ∧ sprite_value_ok sp) := by
  unfold try_parse_sprite at h
  split at h
  · cases h
  · split at h
    · cases h
    · split at h
      · cases h
      · split at h
        · -- empty-name placeholder branch: accepted with no value checks
          split at h
          · cases h
          · split at h
            · cases h
              exact Or.inl ⟨rfl, rfl⟩
            · cases h
        · split at h
          · cases h
          · rename_i hnv hval
            rw [Decidable.not_not] at hval
            split at h
            · rename_i heq1
              rw [rstr_of_valid _ _ hval] at heq1
              cases heq1
            · rename_i spn p3 heq1
              rw [rstr_of_valid _ _ hval] at heq1
              split at h
              · cases h
              · split at h
                · rename_i sw sh spx spy hreas0
                  split at h
                  · cases h
                  · rename_i hreas
                    split at h
                    · cases h
                    · rename_i hbnds
                      cases h
                      rw [Decidable.not_not] at hreas
                      obtain ⟨hw, hh, hx, hy⟩ := hreas
                      have hb1 : ¬ (fltB sw 0 = true) := fun hk => hbnds (Or.inl hk)
                      have hb2 : ¬ (fltB sh 0 = true) := fun hk => hbnds (Or.inr (Or.inl hk))
                      have hb3 : ¬ (fgtB sw 5000 = true) :=
                        fun hk => hbnds (Or.inr (Or.inr (Or.inl hk)))
                      have hb4 : ¬ (fgtB sh 5000 = true) :=
                        fun hk => hbnds (Or.inr (Or.inr (Or.inr hk)))
                      rw [fltB_eq_of_reasonable _ _ hw, decide_eq_true_eq] at hb1
                      rw [fltB_eq_of_reasonable _ _ hh, decide_eq_true_eq] at hb2
                      rw [fgtB_eq_of_reasonable _ _ hw, decide_eq_true_eq] at hb3
                      rw [fgtB_eq_of_reasonable _ _ hh, decide_eq_true_eq] at hb4
                      refine Or.inr ⟨rfl, ?_, hw, hh, hx, hy, not_lt.mp hb1, not_lt.mp hb3,
                        not_lt.mp hb2, not_lt.mp hb4⟩
                      injection heq1 with heqn
                      injection heqn with heqn2 heqp
                      rw [← heqn2]
                      exact valid_str_name_printable d _ hval
                · cases h

theorem try_parse_bare_sprite_checks (d : List Nat) (pos fs : Nat) (sp : Sprite) (p2 : Nat)
    (h : try_parse_bare_sprite d pos fs = some (sp, p2)) :
    sp.empty = false ∧ sp.name ≠ [] ∧ sprite_value_ok sp := by
  unfold try_parse_bare_sprite at h
  split at h
  · cases h
  · rename_i hval
    rw [Decidable.not_not] at hval
    obtain ⟨g1, g2, g3, g4⟩ := valid_str_spec d pos hval
    split at h
    · rename_i heq1
      rw [rstr_of_valid _ _ hval] at heq1
      cases heq1
    · rename_i spn p3 heq1
      rw [rstr_of_valid _ _ hval] at heq1
      split at h
      · cases h
      · split at h
        · rename_i sw sh spx spy hreas0
          split at h
          · cases h
          · rename_i hreas
            split at h
            · cases h
            · rename_i hbnds
              cases h
              rw [Decidable.not_not] at hreas
              obtain ⟨hw, hh, hx, hy⟩ := hreas
              have hb1 : ¬ (fltB sw 0 = true) := fun hk => hbnds (Or.inl hk)
              have hb2 : ¬ (fltB sh 0 = true) := fun hk => hbnds (Or.inr (Or.inl hk))
              have hb3 : ¬ (fgtB sw 5000 = true) :=
                fun hk => hbnds (Or.inr (Or.inr (Or.inl hk)))
              have hb4 : ¬ (fgtB sh 5000 = true) :=
                fun hk => hbnds (Or.inr (Or.inr (Or.inr hk)))
              rw [fltB_eq_of_reasonable _ _ hw, decide_eq_true_eq] at hb1
              rw [fltB_eq_of_reasonable _ _ hh, decide_eq_true_eq] at hb2
              rw [fgtB_eq_of_reasonable _ _ hw, decide_eq_true_eq] at hb3
              rw [fgtB_eq_of_reasonable _ _ hh, decide_eq_true_eq] at hb4
              injection heq1 with heqn
              injection heqn with heqn2 heqp
              refine ⟨rfl, ?_, ?_, hw, hh, hx, hy, not_lt.mp hb1, not_lt.mp hb3,
                not_lt.mp hb2, not_lt.mp hb4⟩
              · intro hcon
                have hcon2 : spn = [] := hcon
                rw [← heqn2] at hcon2
                have hlen := decodeAscii_len d (pos + 4) (pos + 4 + u32at d pos) g4
                rw [hcon2] at hlen
                simp at hlen
                omega
              · intro c hc
                have hc2 : c ∈ spn := hc
                rw [← heqn2] at hc2
                exact valid_str_name_printable d pos hval c hc2
        · cases h

/-- The empty-placeholder sprite record with declared width 6000 that
`try_parse_sprite` accepts without any float validation. -/
def c5emptyBuf : List Nat :=
  [0, 0, 0, 0, 0, 0, 0, 0, 0, 128, 187, 69, 0, 0, 0, 0, 0, 0, 0, 0, 0, 0, 0, 0]

/-- A well-formed named sprite record with declared width 6000. -/
def c5namedBuf : List Nat :=
  [0, 0, 0, 0, 1, 0, 0, 0, 97, 0, 128, 187, 69, 0, 0, 0, 0, 0, 0, 0, 0, 0, 0, 0, 0]

/-- Counterexample to C5 as stated: `try_parse_sprite` accepts an
empty-named sprite whose declared width is 6000 (beyond the 5000 ceiling,
and unchecked), so not every accepted sprite satisfies the float bounds. -/
theorem sprite_checks_counterexample :
    try_parse_sprite c5emptyBuf 0 24 = some (⟨0, 0, [], 1169915904, 0, 0, 0, true⟩, 24) ∧
    f32q 1169915904 = 6000 ∧ ¬ (f32q 1169915904 ≤ 5000) := by
  have hq : f32q 1169915904 = 6000 := by
    rw [f32q_eq_scaled 1169915904 (by norm_num [f32Exp])]
    norm_num [scaled149, f32Mag149, f32Exp, f32Man, f32Sign]
  refine ⟨by decide, hq, by rw [hq]; norm_num⟩

/-- Claim C5 (amended): every sprite accepted by `try_parse_sprite` is either
the explicit empty placeholder (zero-length name, floats unchecked) or has a
printable-ASCII name and floats that are finite, within ±10000, with width
and height in `[0, 5000]`; every sprite accepted by `try_parse_bare_sprite`
has a nonempty printable name and bounded floats; and a named sprite record
with declared width 6000 is rejected even when otherwise well-formed. -/
theorem sprite_validation_bounds :
    (∀ d pos fs sp p2, try_parse_sprite d pos fs = some (sp, p2) →
      (sp.empty = true ∧ sp.name = []) ∨ (sp.empty = false ∧ sprite_value_ok sp)) ∧
    (∀ d pos fs sp p2, try_parse_bare_sprite d pos fs = some (sp, p2) →
      sp.empty = false ∧ sp.name ≠ [] ∧ sprite_value_ok sp) ∧
    try_parse_sprite c5namedBuf 0 25 = none := by
  refine ⟨try_parse_sprite_checks, try_parse_bare_sprite_checks, by decide⟩

/-- Witness for C5 at a concrete accepted sprite (name `"a"`, width 10.0). -/
theorem sprite_validation_bounds_witness :
    (⟨0, 0, [97], 1092616192, 1092616192, 0, 0, false⟩ : Sprite).empty = false ∧
    sprite_value_ok ⟨0, 0, [97], 1092616192, 1092616192, 0, 0, false⟩ := by
  have h := sprite_validation_bounds.1
    [0, 0, 0, 0, 1, 0, 0, 0, 97, 0, 0, 32, 65, 0, 0, 32, 65, 0, 0, 0, 0, 0, 0, 0, 0] 0 25
    ⟨0, 0, [97], 1092616192, 1092616192, 0, 0, false⟩ 25 (by decide)
  rcases h with ⟨he, _⟩ | ⟨he, hok⟩
  · cases he
  · exact ⟨he, hok⟩

/-! ### Claim C7 — collision scale about the shared centroid -/

/-- The scenario entry: two phases holding one segment each,
`(0,0)-(10,0)` and `(0,10)-(10,10)`. -/
def c7entry : QMCOL := ⟨[⟨0, [⟨0, 0, 10, 0⟩]⟩, ⟨0, [⟨0, 10, 10, 10⟩]⟩]⟩

/-- Claim C7: `MCOLEntry.scale(factor)` computes one centroid as the center
of the bounding box over all segments of all phases and scales every
coordinate of every phase about that shared centroid (it agrees with the
spec's shared-centroid scale on every entry); on the scenario entry scaled
by 2 it yields `(-5,-5)-(15,-5)` and `(-5,15)-(15,15)` (centroid `(5,5)`),
which differs from what per-phase scaling would produce. -/
theorem mcol_scale_shared_centroid :
    (∀ e factor, qmcolScale e factor = specSharedCentroidScale e factor) ∧
    qmcolScale c7entry 2 = ⟨[⟨0, [⟨-5, -5, 15, -5⟩]⟩, ⟨0, [⟨-5, 15, 15, 15⟩]⟩]⟩ ∧
    qphaseScaleOwn ⟨0, [⟨0, 0, 10, 0⟩]⟩ 2 ≠ ⟨0, [⟨-5, -5, 15, -5⟩]⟩ := by
  refine ⟨fun e factor => rfl, ?_, ?_⟩
  · have hb : qmcolBounds c7entry = (0, 0, 10, 10) := by
      unfold qmcolBounds c7entry
      norm_num [qListMin, qListMax, min_def, max_def]
      intro hk
      exact absurd hk (by simp)
    unfold qmcolScale
    rw [hb]
    unfold c7entry qphaseScaleWith qsegScale
    norm_num
  · have hb : qphaseBounds ⟨0, [⟨0, 0, 10, 0⟩]⟩ = (0, 0, 10, 0) := by
      unfold qphaseBounds
      norm_num [qListMin, qListMax, min_def, max_def]
      try (intro hk; exact absurd hk (by simp))
    unfold qphaseScaleOwn
    rw [hb]
    unfold qphaseScaleWith qsegScale
    intro hcon
    rw [QColPhase.mk.injEq] at hcon
    obtain ⟨-, hcon2⟩ := hcon
    simp only [List.map_cons, List.map_nil, List.cons.injEq] at hcon2
    obtain ⟨hcon3, -⟩ := hcon2
    rw [QSeg.mk.injEq] at hcon3
    obtain ⟨-, hcon4, -, -⟩ := hcon3
    norm_num at hcon4

/-! ### Claim C2 — load-time promotion invariant -/

/-- Size of the `i`-th chunk boundary: up to the next boundary, or to the
buffer end for the last one. -/
def boundary_size (d : List Nat) (bounds : List (Nat × List Nat)) (i : Nat) : Nat :=
  match bounds[i]?, bounds[i + 1]? with
  | some (cpos, _), some (npos, _) => npos - cpos
  | some (cpos, _), none => d.length - cpos
  | none, _ => 0

theorem load_chunks_get (d : List Nat) :
    ∀ (bounds : List (Nat × List Nat)) (i : Nat),
      (load_chunks d bounds)[i]? =
        (bounds[i]?).map (fun pc => load_chunk d pc.1 pc.2 (boundary_size d bounds i))
  | [], i => by
    simp [load_chunks]
  | (cpos, cmagic) :: rest, 0 => by
    cases rest with
    | nil => simp [load_chunks, boundary_size]
    | cons b rest2 => simp [load_chunks, boundary_size]
  | (cpos, cmagic) :: rest, i + 1 => by
    have ih := load_chunks_get d rest i
    simp only [load_chunks, List.getElem?_cons_succ]
    rw [ih]
    have hbs : boundary_size d ((cpos, cmagic) :: rest) (i + 1) = boundary_size d rest i := by
      unfold boundary_size
      simp only [List.getElem?_cons_succ]
    rw [hbs]

theorem meta_chunks_eq (d : List Nat) :
    (canim_meta_load d).chunks = load_chunks d (find_chunk_boundaries d) := by
  unfold canim_meta_load
  split
  · rename_i hlen
    have hb : find_chunk_boundaries d = [] := by
      unfold find_chunk_boundaries
      unfold boundary_scan
      have h0 : d.length - 12 = 0 := by omega
      rw [h0]
      rfl
    rw [hb]
    rfl
  · rfl

theorem load_chunk_mhit_bytes (d : List Nat) (cpos : Nat) (cmagic : List Nat) (csize : Nat)
    (e : MHITEntry) (h : load_chunk d cpos cmagic csize = MetaChunk.mhit e) :
    mhit_to_bytes e = bslice d cpos (cpos + csize) := by
  unfold load_chunk at h
  split at h
  · split at h
    · split at h
      · rename_i hver
        cases h
        exact hver
      · cases h
    · cases h
  · split at h
    · split at h
      · split at h
        · cases h
        · cases h
      · cases h
    · cases h

theorem load_chunk_mcol_bytes (d : List Nat) (cpos : Nat) (cmagic : List Nat) (csize : Nat)
    (e : MCOLEntry) (h : load_chunk d cpos cmagic csize = MetaChunk.mcol e) :
    mcol_to_bytes e = bslice d cpos (cpos + csize) := by
  unfold load_chunk at h
  split at h
  · split at h
    · split at h
      · cases h
      · cases h
    · cases h
  · split at h
    · split at h
      · split at h
        · rename_i hver
          cases h
          exact hver
        · cases h
      · cases h
    · cases h

theorem load_chunk_mhit_fallback (d : List Nat) (cpos csize : Nat) (e : MHITEntry)
    (hf : mhit_from_bytes d cpos csize = some e)
    (hne : mhit_to_bytes e ≠ bslice d cpos (cpos + csize)) :
    load_chunk d cpos [77, 72, 73, 84] csize =
      MetaChunk.raw [77, 72, 73, 84] (bslice d cpos (cpos + csize)) := by
  unfold load_chunk
  rw [if_pos rfl, hf]
  dsimp only
  rw [if_neg hne]

theorem load_chunk_mcol_fallback (d : List Nat) (cpos csize : Nat) (e : MCOLEntry)
    (hf : mcol_from_bytes d cpos csize = some e)
    (hne : mcol_to_bytes e ≠ bslice d cpos (cpos + csize)) :
    load_chunk d cpos [77, 67, 79, 76] csize =
      MetaChunk.raw [77, 67, 79, 76] (bslice d cpos (cpos + csize)) := by
  unfold load_chunk
  rw [if_neg (by decide), if_pos rfl, hf]
  dsimp only
  rw [if_neg hne]

/-- Claim C2: after `CAnimMeta.load`, the chunk decoded at every discovered
boundary is exactly the verify-or-fallback decode of that boundary; any chunk
kept structured (MHIT or MCOL) re-encodes byte-for-byte to its raw slice, and
a tentative structured decode whose re-encoding differs from the slice is
stored as an opaque raw chunk with that exact slice instead. -/
theorem chunks_get_boundary (d : List Nat) (i cpos : Nat) (cmagic : List Nat)
    (hb : (find_chunk_boundaries d)[i]? = some (cpos, cmagic)) :
    (canim_meta_load d).chunks[i]? =
      some (load_chunk d cpos cmagic (boundary_size d (find_chunk_boundaries d) i)) := by
  rw [meta_chunks_eq, load_chunks_get d (find_chunk_boundaries d) i, hb]
  rfl

theorem chunk_promotion_invariant (d : List Nat) (i cpos : Nat) (cmagic : List Nat)
    (hb : (find_chunk_boundaries d)[i]? = some (cpos, cmagic)) :
    ((canim_meta_load d).chunks[i]? =
      some (load_chunk d cpos cmagic (boundary_size d (find_chunk_boundaries d) i))) ∧
    (∀ e, load_chunk d cpos cmagic (boundary_size d (find_chunk_boundaries d) i) =
        MetaChunk.mhit e →
      mhit_to_bytes e =
        bslice d cpos (cpos + boundary_size d (find_chunk_boundaries d) i)) ∧
    (∀ e, load_chunk d cpos cmagic (boundary_size d (find_chunk_boundaries d) i) =
        MetaChunk.mcol e →
      mcol_to_bytes e =
        bslice d cpos (cpos + boundary_size d (find_chunk_boundaries d) i)) ∧
    (cmagic = [77, 72, 73, 84] →
      ∀ e, mhit_from_bytes d cpos (boundary_size d (find_chunk_boundaries d) i) = some e →
        mhit_to_bytes e ≠
          bslice d cpos (cpos + boundary_size d (find_chunk_boundaries d) i) →
        (canim_meta_load d).chunks[i]? = some (MetaChunk.raw cmagic
          (bslice d cpos (cpos + boundary_size d (find_chunk_boundaries d) i)))) ∧
    (cmagic = [77, 67, 79, 76] →
      ∀ e, mcol_from_bytes d cpos (boundary_size d (find_chunk_boundaries d) i) = some e →
        mcol_to_bytes e ≠
          bslice d cpos (cpos + boundary_size d (find_chunk_boundaries d) i) →
        (canim_meta_load d).chunks[i]? = some (MetaChunk.raw cmagic
          (bslice d cpos (cpos + boundary_size d (find_chunk_boundaries d) i)))) := by
  have hc := chunks_get_boundary d i cpos cmagic hb
  refine ⟨hc, fun e => load_chunk_mhit_bytes d cpos cmagic _ e,
    fun e => load_chunk_mcol_bytes d cpos cmagic _ e, ?_, ?_⟩
  · rintro rfl e hf hne
    rw [hc, load_chunk_mhit_fallback d cpos _ e hf hne]
  · rintro rfl e hf hne
    rw [hc, load_chunk_mcol_fallback d cpos _ e hf hne]

/-- A 12-byte event-container header followed by one well-formed MCOL chunk
(no phases), used as the C2 witness input. -/
def c2buf : List Nat :=
  [1, 0, 0, 0, 7, 0, 0, 0, 1, 0, 0, 0,
   77, 67, 79, 76, 0, 0, 0, 0, 0, 0, 0, 0, 0, 0, 0, 0, 0, 0, 0, 0,
   0, 0, 0, 0, 0, 0, 0, 0, 0, 0, 0, 0]

/-- Witness for C2 on the concrete buffer `c2buf`. -/
theorem chunk_promotion_invariant_witness :
    (canim_meta_load c2buf).chunks[0]? =
      some (load_chunk c2buf 12 [77, 67, 79, 76]
        (boundary_size c2buf (find_chunk_boundaries c2buf) 0)) :=
  (chunk_promotion_invariant c2buf 0 12 [77, 67, 79, 76] (by decide)).1

/-! ### Claim C3 — bad collision separators force the opaque fallback -/

/-- The segment chain of `CollisionPhase.from_bytes` visits a separator that
is not five zero bytes (mirrors `col_seg_walk` step for step). -/
def segWalkBadSep (d : List Nat) (maxEnd : Nat) : Nat → Nat → Bool
  | 0, _ => false
  | n + 1, cur =>
    if cur + 16 > maxEnd then false
    else if cur + 16 + 5 > maxEnd then false
    else if bslice d (cur + 16) (cur + 21) ≠ [0, 0, 0, 0, 0] then true
    else segWalkBadSep d maxEnd n (cur + 21)

/-- The phase chain of `MCOLEntry.from_bytes` reaches a segment whose
separator bytes are not all zero. -/
def phaseWalkBadSep (d : List Nat) (maxEnd : Nat) : Nat → Nat → Bool
  | 0, _ => false
  | n + 1, cur =>
    if cur + 8 > maxEnd then false
    else if u32at d (cur + 4) < 1 ∨ u32at d (cur + 4) > 200 then false
    else if segWalkBadSep d maxEnd (u32at d (cur + 4)) (cur + 8) then true
    else
      match collision_phase_from_bytes d cur maxEnd with
      | (some _, cur2, _) => phaseWalkBadSep d maxEnd n cur2
      | (none, _, _) => false

theorem segWalk_err_of_badSep (d : List Nat) (maxEnd : Nat) :
    ∀ n cur, segWalkBadSep d maxEnd n cur = true →
      (col_seg_walk d maxEnd n cur).2.2 = some ColErr.badSeparator
  | 0, cur => by
    intro h
    cases h
  | n + 1, cur => by
    intro h
    unfold segWalkBadSep at h
    unfold col_seg_walk
    split at h
    · cases h
    · rename_i h16
      rw [if_neg h16]
      split at h
      · cases h
      · rename_i h21
        rw [if_neg (by omega : ¬ cur + 16 + 5 > maxEnd)]
        split at h
        · rename_i hbad
          rw [if_pos hbad]
        · rename_i hbad
          rw [if_neg hbad]
          exact segWalk_err_of_badSep d maxEnd n (cur + 21) h

theorem phaseWalk_fail_of_badSep (d : List Nat) (maxEnd : Nat) :
    ∀ n cur, phaseWalkBadSep d maxEnd n cur = true →
      (mcol_phase_walk d maxEnd n cur).2.2 = true
  | 0, cur => by
    intro h
    cases h
  | n + 1, cur => by
    intro h
    unfold phaseWalkBadSep at h
    unfold mcol_phase_walk
    split at h
    · cases h
    · rename_i h8
      split at h
      · cases h
      · rename_i hns
        split at h
        · rename_i hbad
          have herr := segWalk_err_of_badSep d maxEnd (u32at d (cur + 4)) (cur + 8) hbad
          have hphase : collision_phase_from_bytes d cur maxEnd =
              ((none : Option ColPhase), (col_seg_walk d maxEnd (u32at d (cur + 4)) (cur + 8)).2.1,
                some ColErr.badSeparator) := by
            unfold collision_phase_from_bytes
            rw [if_neg h8, if_neg hns, herr]
          rw [hphase]
        · rename_i hok
          split at h
          · rename_i ph cur2 e hphase
            show (mcol_phase_walk d maxEnd n cur2).2.2 = true
            exact phaseWalk_fail_of_badSep d maxEnd n cur2 h
          · cases h

theorem mcol_from_bytes_none_of_badSep (d : List Nat) (offset size : Nat)
    (h : phaseWalkBadSep d (offset + size) (u32at d (offset + 24)) (offset + 28) = true) :
    mcol_from_bytes d offset size = none := by
  unfold mcol_from_bytes
  split
  · rfl
  · rw [phaseWalk_fail_of_badSep d (offset + size) (u32at d (offset + 24)) (offset + 28) h]
    rfl

/-- Claim C3: if an MCOL chunk's structured phase decode reaches a segment
whose 5-byte separator is not five zero bytes, the structured decode of the
whole chunk aborts, `CAnimMeta.load` stores that boundary as an opaque raw
chunk holding the exact original slice, and the raw chunk's `to_bytes`
returns those bytes unchanged. -/
theorem collision_bad_separator_fallback (d : List Nat) (i cpos : Nat)
    (hb : (find_chunk_boundaries d)[i]? = some (cpos, [77, 67, 79, 76]))
    (hbad : phaseWalkBadSep d (cpos + boundary_size d (find_chunk_boundaries d) i)
      (u32at d (cpos + 24)) (cpos + 28) = true) :
    mcol_from_bytes d cpos (boundary_size d (find_chunk_boundaries d) i) = none ∧
    (canim_meta_load d).chunks[i]? = some (MetaChunk.raw [77, 67, 79, 76]
      (bslice d cpos (cpos + boundary_size d (find_chunk_boundaries d) i))) ∧
    chunk_to_bytes (MetaChunk.raw [77, 67, 79, 76]
        (bslice d cpos (cpos + boundary_size d (find_chunk_boundaries d) i))) =
      bslice d cpos (cpos + boundary_size d (find_chunk_boundaries d) i) := by
  have hnone := mcol_from_bytes_none_of_badSep d cpos
    (boundary_size d (find_chunk_boundaries d) i) hbad
  have hc := chunks_get_boundary d i cpos [77, 67, 79, 76] hb
  have hlc : load_chunk d cpos [77, 67, 79, 76]
      (boundary_size d (find_chunk_boundaries d) i) =
      MetaChunk.raw [77, 67, 79, 76]
        (bslice d cpos (cpos + boundary_size d (find_chunk_boundaries d) i)) := by
    unfold load_chunk
    rw [if_neg (by decide), if_pos rfl, hnone]
  rw [hlc] at hc
  exact ⟨hnone, hc, rfl⟩

/-- The C3 witness buffer: a header and one MCOL chunk whose single phase
holds one segment with separator bytes `[0,0,0,0,9]`. -/
def c3buf : List Nat :=
  [1, 0, 0, 0, 7, 0, 0, 0, 1, 0, 0, 0,
   77, 67, 79, 76, 0, 0, 0, 0, 0, 0, 0, 0, 0, 0, 0, 0, 0, 0, 0, 0,
   0, 0, 0, 0, 1, 0, 0, 0,
   0, 0, 0, 0, 1, 0, 0, 0,
   0, 0, 0, 0, 0, 0, 0, 0, 0, 0, 0, 0, 0, 0, 0, 0,
   0, 0, 0, 0, 9,
   0, 0, 0, 0]

/-- Witness for C3 on the concrete crafted buffer. -/
theorem collision_bad_separator_fallback_witness :
    mcol_from_bytes c3buf 12 (boundary_size c3buf (find_chunk_boundaries c3buf) 0) = none ∧
    (canim_meta_load c3buf).chunks[0]? = some (MetaChunk.raw [77, 67, 79, 76]
      (bslice c3buf 12 (12 + boundary_size c3buf (find_chunk_boundaries c3buf) 0))) := by
  have h := collision_bad_separator_fallback c3buf 0 12 (by decide) (by decide)
  exact ⟨h.1, h.2.1⟩

/-! ### Claim C10 — decoder totality of the build region -/

theorem find_next_symbol_le_aux (d : List Nat) (fs : Nat) :
    ∀ k pos, fs - pos ≤ k → find_next_symbol d pos fs ≤ fs
  | 0, pos => by
    intro h
    unfold find_next_symbol
    rw [dif_neg (by omega)]
  | k + 1, pos => by
    intro h
    unfold find_next_symbol
    by_cases hp : pos < fs - 7
    · rw [dif_pos hp]
      split
      · omega
      · exact find_next_symbol_le_aux d fs k (pos + 1) (by omega)
    · rw [dif_neg hp]

theorem find_next_symbol_le (d : List Nat) (pos fs : Nat) :
    find_next_symbol d pos fs ≤ fs :=
  find_next_symbol_le_aux d fs (fs - pos) pos (Nat.le_refl _)

theorem find_next_symbol_min_aux (d : List Nat) (fs : Nat) :
    ∀ k pos, fs - pos ≤ k → min pos fs ≤ find_next_symbol d pos fs
  | 0, pos => by
    intro h
    unfold find_next_symbol
    rw [dif_neg (by omega)]
    omega
  | k + 1, pos => by
    intro h
    unfold find_next_symbol
    by_cases hp : pos < fs - 7
    · rw [dif_pos hp]
      split
      · omega
      · have := find_next_symbol_min_aux d fs k (pos + 1) (by omega)
        omega
    · rw [dif_neg hp]
      omega

theorem find_next_symbol_min (d : List Nat) (pos fs : Nat) :
    min pos fs ≤ find_next_symbol d pos fs :=
  find_next_symbol_min_aux d fs (fs - pos) pos (Nat.le_refl _)

theorem r8_some (d : List Nat) (p v q : Nat) (h : r8 d p = some (v, q)) :
    v = byteAt d p ∧ q = p + 1 ∧ p + 1 ≤ d.length := by
  unfold r8 at h
  split at h
  · cases h
    exact ⟨rfl, rfl, by assumption⟩
  · cases h

theorem r16_some (d : List Nat) (p v q : Nat) (h : r16 d p = some (v, q)) :
    v = u16at d p ∧ q = p + 2 ∧ p + 2 ≤ d.length := by
  unfold r16 at h
  split at h
  · cases h
    exact ⟨rfl, rfl, by assumption⟩
  · cases h

theorem rstr_some (d : List Nat) (p : Nat) (s : List Nat) (q : Nat)
    (h : rstr d p = some (s, q)) :
    q = p + 4 + u32at d p ∧ q ≤ d.length := by
  unfold rstr at h
  cases hr : r32 d p with
  | none =>
    rw [hr] at h
    cases h
  | some r0 =>
    obtain ⟨l, pp⟩ := r0
    have hfacts : l = u32at d p ∧ pp = p + 4 ∧ p + 4 ≤ d.length := by
      unfold r32 at hr
      split at hr
      · cases hr
        exact ⟨rfl, rfl, by assumption⟩
      · cases hr
    obtain ⟨hl, hpp, hb⟩ := hfacts
    rw [hr] at h
    dsimp only at h
    split at h
    · cases h
    · split at h
      · cases h
      · rename_i hover
        cases h
        constructor
        · omega
        · omega

theorem try_parse_sprite_advance (d : List Nat) (pos fs : Nat) (sp : Sprite) (p2 : Nat)
    (h : try_parse_sprite d pos fs = some (sp, p2)) : pos < p2 ∧ p2 ≤ fs := by
  unfold try_parse_sprite at h
  split at h
  · cases h
  · split at h
    · cases h
    · rename_i r1 spf p1 h1
      obtain ⟨hv1, hq1, hb1⟩ := r16_some d pos spf p1 h1
      split at h
      · cases h
      · rename_i r2 spu pp2 h2
        obtain ⟨hv2, hq2, hb2⟩ := r16_some d p1 spu pp2 h2
        split at h
        · split at h
          · cases h
          · rename_i hfsb
            split at h
            · cases h
              omega
            · cases h
        · split at h
          · cases h
          · split at h
            · cases h
            · rename_i rs spn p3 h3
              obtain ⟨hq3, hb3⟩ := rstr_some d pp2 spn p3 h3
              split at h
              · cases h
              · rename_i hfsb
                split at h
                · split at h
                  · cases h
                  · split at h
                    · cases h
                    · cases h
                      omega
                · cases h

theorem sprite_loop_bounds (d : List Nat) (fs : Nat) :
    ∀ n pos, pos ≤ (sprite_loop d fs n pos).2.1 ∧
      (sprite_loop d fs n pos).2.1 ≤ max pos fs
  | 0, pos => by
    unfold sprite_loop
    dsimp only
    omega
  | n + 1, pos => by
    unfold sprite_loop
    cases hs : try_parse_sprite d pos fs with
    | none => dsimp only; omega
    | some r =>
      obtain ⟨sp, pos2⟩ := r
      have hadv := try_parse_sprite_advance d pos fs sp pos2 hs
      have ih := sprite_loop_bounds d fs n pos2
      dsimp only
      omega

theorem sprite_loop_progress (d : List Nat) (fs : Nat) (n pos : Nat) (sp : Sprite)
    (pos2 : Nat) (h : try_parse_sprite d pos fs = some (sp, pos2)) :
    pos < (sprite_loop d fs (n + 1) pos).2.1 ∧ (sprite_loop d fs (n + 1) pos).2.1 ≤ fs := by
  unfold sprite_loop
  rw [h]
  have hadv := try_parse_sprite_advance d pos fs sp pos2 h
  have ih := sprite_loop_bounds d fs n pos2
  dsimp only
  omega

theorem nested_sub_loop_ge (d : List Nat) (fs count : Nat) (pos : Nat)
    (subs : List (List Nat)) : pos ≤ (nested_sub_loop d fs count pos subs).2 := by
  unfold nested_sub_loop
  split
  · rename_i hv
    obtain ⟨h1, h2, h3, h4⟩ := valid_str_spec d pos hv
    split
    · exact Nat.le_refl pos
    · split
      · rename_i sn2 pos2 hr
        rw [rstr_of_valid d pos hv] at hr
        cases hr
        dsimp only
        split
        · dsimp only
          omega
        · have := nested_sub_loop_ge d fs count (pos + 4 + u32at d pos)
            (subs ++ [decodeAscii (bslice d (pos + 4) (pos + 4 + u32at d pos))])
          omega
      · exact Nat.le_refl pos
  · exact Nat.le_refl pos
termination_by d.length - pos
decreasing_by omega

theorem symbol_header_facts (d : List Nat) (pos fs : Nat)
    (h : is_symbol_header d pos fs = true) :
    valid_str d pos = true ∧ pos + 4 + u32at d pos + 3 ≤ fs := by
  unfold is_symbol_header at h
  split at h
  · cases h
  · rename_i hv
    rw [Decidable.not_not] at hv
    rw [rstr_of_valid d pos hv] at h
    dsimp only at h
    split at h
    · cases h
    · rename_i hfs
      exact ⟨hv, by omega⟩

theorem parse_build_section_some (d : List Nat) (fs : Nat) (hfs : fs ≤ d.length) :
    ∀ fuel pos acc, pos ≤ fs → fs + 1 - pos ≤ fuel →
      (parse_build_section d fs fuel pos acc).isSome = true
  | 0, pos, acc => by
    intro h1 h2
    omega
  | fuel + 1, pos, acc => by
    intro hple hfuel
    unfold parse_build_section
    by_cases h1 : pos + 4 < fs
    swap
    · rw [if_pos (by simpa using h1)]
      rfl
    · rw [if_neg (by simpa using h1)]
      by_cases h2 : ¬ valid_str d pos = true ∧ ¬ empty_str_at d pos = true
      · rw [if_pos h2]
        rfl
      · rw [if_neg h2]
        by_cases h3 : is_symbol_header d pos fs = true
        · rw [if_pos h3]
          obtain ⟨hv, hhb⟩ := symbol_header_facts d pos fs h3
          obtain ⟨hv1, hv2, hv3, hv4⟩ := valid_str_spec d pos hv
          rw [rstr_of_valid d pos hv]
          dsimp only
          rw [show r8 d (pos + 4 + u32at d pos) =
              some (byteAt d (pos + 4 + u32at d pos), pos + 4 + u32at d pos + 1) from by
            unfold r8
            rw [if_pos (by omega)]]
          dsimp only
          rw [show r16 d (pos + 4 + u32at d pos + 1) =
              some (u16at d (pos + 4 + u32at d pos + 1), pos + 4 + u32at d pos + 1 + 2) from by
            unfold r16
            rw [if_pos (by omega)]]
          dsimp only
          by_cases h4 : u16at d (pos + 4 + u32at d pos + 1) = 0
          · rw [if_pos h4]
            by_cases h5 : find_next_symbol d (pos + 4 + u32at d pos + 1 + 2) fs >
                pos + 4 + u32at d pos + 1 + 2
            · rw [if_pos h5]
              have hle := find_next_symbol_le d (pos + 4 + u32at d pos + 1 + 2) fs
              split
              · exact parse_build_section_some d fs hfs fuel _ _ (by omega) (by omega)
              · exact parse_build_section_some d fs hfs fuel _ _ (by omega) (by omega)
            · rw [if_neg h5]
              exact parse_build_section_some d fs hfs fuel _ _ (by omega) (by omega)
          · rw [if_neg h4]
            by_cases h6 : (try_parse_sprite d (pos + 4 + u32at d pos + 1 + 2) fs).isSome = true
            · rw [if_pos h6]
              obtain ⟨r0, hs⟩ := Option.isSome_iff_exists.mp h6
              obtain ⟨sp, pos2⟩ := r0
              obtain ⟨m, hm⟩ : ∃ m, u16at d (pos + 4 + u32at d pos + 1) = m + 1 :=
                ⟨u16at d (pos + 4 + u32at d pos + 1) - 1, by omega⟩
              rw [hm]
              have hprog := sprite_loop_progress d fs m (pos + 4 + u32at d pos + 1 + 2)
                sp pos2 hs
              by_cases h7 : (sprite_loop d fs (m + 1) (pos + 4 + u32at d pos + 1 + 2)).2.2 = true
              · rw [if_pos h7]
                exact parse_build_section_some d fs hfs fuel _ _ (by omega) (by omega)
              · rw [if_neg h7]
                rfl
            · rw [if_neg h6]
              by_cases h7 : valid_str d (pos + 4 + u32at d pos + 1 + 2) = true
              · rw [if_pos h7]
                dsimp only [parse_nested_symbol]
                have hg := nested_sub_loop_ge d fs (u16at d (pos + 4 + u32at d pos + 1))
                  (pos + 4 + u32at d pos + 1 + 2) []
                have hle := find_next_symbol_le d
                  (nested_sub_loop d fs (u16at d (pos + 4 + u32at d pos + 1))
                    (pos + 4 + u32at d pos + 1 + 2) []).2 fs
                have hmin := find_next_symbol_min d
                  (nested_sub_loop d fs (u16at d (pos + 4 + u32at d pos + 1))
                    (pos + 4 + u32at d pos + 1 + 2) []).2 fs
                exact parse_build_section_some d fs hfs fuel _ _ (by omega) (by omega)
              · rw [if_neg h7]
                have hle := find_next_symbol_le d (pos + 4 + u32at d pos + 1 + 2) fs
                have hmin := find_next_symbol_min d (pos + 4 + u32at d pos + 1 + 2) fs
                exact parse_build_section_some d fs hfs fuel _ _ (by omega) (by omega)
        · rw [if_neg h3]
          cases hr : rstr d pos with
          | none => rfl
          | some r0 =>
            obtain ⟨sn, p0⟩ := r0
            dsimp only
            have hle := find_next_symbol_le d (pos + 1) fs
            have hmin := find_next_symbol_min d (pos + 1) fs
            exact parse_build_section_some d fs hfs fuel _ _ (by omega) (by omega)

/-- Claim C10: the build-region decoder is total: `find_next_symbol` always
lands between `min pos fs` and `fs`, and with fuel `fs + 1 - pos` (every loop
iteration strictly advances the cursor while staying within the file) the
build-entry loop always returns a result, for every byte buffer. -/
theorem build_decoder_total (d : List Nat) (fs : Nat) (hfs : fs ≤ d.length) :
    (∀ pos, pos ≤ fs →
      pos ≤ find_next_symbol d pos fs ∧ find_next_symbol d pos fs ≤ fs) ∧
    (∀ fuel pos acc, pos ≤ fs → fs + 1 - pos ≤ fuel →
      (parse_build_section d fs fuel pos acc).isSome = true) := by
  constructor
  · intro pos hp
    have hmin := find_next_symbol_min d pos fs
    have hle := find_next_symbol_le d pos fs
    exact ⟨by omega, hle⟩
  · exact parse_build_section_some d fs hfs

/-- Witness for C10 on a concrete ten-byte buffer. -/
theorem build_decoder_total_witness :
    (0 ≤ find_next_symbol [1, 2, 3, 4, 5, 6, 7, 8, 9, 10] 0 10 ∧
      find_next_symbol [1, 2, 3, 4, 5, 6, 7, 8, 9, 10] 0 10 ≤ 10) ∧
    (parse_build_section [1, 2, 3, 4, 5, 6, 7, 8, 9, 10] 10 11 0 []).isSome = true :=
  ⟨(build_decoder_total [1, 2, 3, 4, 5, 6, 7, 8, 9, 10] 10 (by decide)).1 0 (by decide),
   (build_decoder_total [1, 2, 3, 4, 5, 6, 7, 8, 9, 10] 10 (by decide)).2 11 0 []
     (by decide) (by decide)⟩

/-! ### Claim C9 — JSON interchange of the event container -/

/-- A chunk whose float fields survive the JSON number round trip unchanged
and (for raw chunks) whose magic is recoverable from its first four bytes. -/
def chunk_json_stable : MetaChunk → Bool
  | .raw magic rawData => decide (magic = rawData.take 4)
  | .mhit e =>
    decide (jsonF32 e.start_time = e.start_time) &&
    decide (jsonF32 e.end_time = e.end_time) &&
    e.phases.all (fun ph => decide (jsonMetaPhase ph = ph))
  | .mcol e =>
    decide (jsonF32 e.start_time = e.start_time) &&
    decide (jsonF32 e.end_time = e.end_time) &&
    e.phases.all (fun ph => decide (jsonColPhase ph = ph))

/-- A container whose single MHIT chunk's own `anim_hash` (9) differs from
the container header's hash (7): re-import rewrites it to the header hash. -/
def c9buf : List Nat :=
  [1, 0, 0, 0, 7, 0, 0, 0, 1, 0, 0, 0,
   77, 72, 73, 84, 9, 0, 0, 0, 0, 0, 0, 0, 0, 0, 0, 0,
   0, 0, 0, 0, 0, 0, 0, 0, 0, 0, 0, 0, 0, 0, 0, 0]

/-- `export_json` omits an MHIT chunk's `anim_hash` and `import_json` replaces
it with the container hash, so the round trip is not idempotent on `c9buf`. -/
theorem meta_json_roundtrip_counterexample :
    (import_json_meta (export_json_meta (canim_meta_load c9buf))).chunks ≠
      (canim_meta_load c9buf).chunks := by
  decide

/-- Claim C9 (amended): importing the exported JSON of a loaded container
reproduces the version, container hash, trailing bytes and chunk list exactly,
provided every structured MHIT chunk's `anim_hash` equals the container hash
(export omits that field and import substitutes the container hash) and every
chunk's float fields are fixed points of the JSON number round trip (every
NaN payload collapses to the default quiet NaN); the entry count is recomputed
as the chunk count. -/
theorem meta_json_roundtrip (m : MetaDoc)
    (hhash : ∀ e, MetaChunk.mhit e ∈ m.chunks → e.anim_hash = m.anim_hash)
    (hstable : ∀ c ∈ m.chunks, chunk_json_stable c = true) :
    import_json_meta (export_json_meta m) =
      ⟨m.version, m.anim_hash, m.chunks.length, m.chunks, m.trailing⟩ := by
  unfold import_json_meta export_json_meta
  dsimp only
  rw [List.map_map]
  have hchunks : ∀ (l : List MetaChunk),
      (∀ e, MetaChunk.mhit e ∈ l → e.anim_hash = m.anim_hash) →
      (∀ c ∈ l, chunk_json_stable c = true) →
      l.map ((fun c =>
        match c with
        | .jmhit ev st et el phs refs fx =>
          MetaChunk.mhit ⟨m.anim_hash, ev, st, et, el, phs, refs, fx⟩
        | .jmcol ah ev st et el rc phs =>
          MetaChunk.mcol ⟨ah, ev, st, et, el, phs, rc⟩
        | .jraw rawData => MetaChunk.raw (rawData.take 4) rawData) ∘
        (fun c =>
        match c with
        | .mhit e => MetaJsonChunk.jmhit e.event_hash (jsonF32 e.start_time)
            (jsonF32 e.end_time) e.element_id (e.phases.map jsonMetaPhase)
            e.ref_hashes e.footer_extra
        | .mcol e => MetaJsonChunk.jmcol e.anim_hash e.event_hash (jsonF32 e.start_time)
            (jsonF32 e.end_time) e.element_id e.ref_count (e.phases.map jsonColPhase)
        | .raw _ rawData => MetaJsonChunk.jraw rawData)) = l := by
    intro l
    induction l with
    | nil => intro _ _; rfl
    | cons c rest ih =>
      intro hh hs
      have hc : chunk_json_stable c = true := hs c (List.mem_cons_self c rest)
      have hrest : rest.map _ = rest :=
        ih (fun e he => hh e (List.mem_cons_of_mem c he))
          (fun x hx => hs x (List.mem_cons_of_mem c hx))
      rw [List.map_cons, hrest]
      congr 1
      cases c with
      | raw magic rawData =>
        unfold chunk_json_stable at hc
        rw [decide_eq_true_eq] at hc
        dsimp only [Function.comp]
        rw [← hc]
      | mhit e =>
        unfold chunk_json_stable at hc
        rw [Bool.and_eq_true, Bool.and_eq_true] at hc
        obtain ⟨⟨hst, het⟩, hphs⟩ := hc
        rw [decide_eq_true_eq] at hst het
        have hmap : e.phases.map jsonMetaPhase = e.phases := by
          conv_rhs => rw [← List.map_id e.phases]
          refine List.map_congr_left ?_
          intro ph hph
          have := List.all_eq_true.mp hphs ph hph
          rwa [decide_eq_true_eq] at this
        have hah : e.anim_hash = m.anim_hash :=
          hh e (List.mem_cons_self _ _)
        dsimp only [Function.comp]
        rw [hst, het, hmap, ← hah]
      | mcol e =>
        unfold chunk_json_stable at hc
        rw [Bool.and_eq_true, Bool.and_eq_true] at hc
        obtain ⟨⟨hst, het⟩, hphs⟩ := hc
        rw [decide_eq_true_eq] at hst het
        have hmap : e.phases.map jsonColPhase = e.phases := by
          conv_rhs => rw [← List.map_id e.phases]
          refine List.map_congr_left ?_
          intro ph hph
          have := List.all_eq_true.mp hphs ph hph
          rwa [decide_eq_true_eq] at this
        dsimp only [Function.comp]
        rw [hst, het, hmap]
  rw [hchunks m.chunks hhash hstable]

/-- Witness for C9 on a concrete two-chunk document whose MHIT hash matches
the container hash. -/
theorem meta_json_roundtrip_witness :
    import_json_meta (export_json_meta
      ⟨1, 7, 2, [MetaChunk.mhit ⟨7, 5, 0, 0, 3, [], [8], [1]⟩,
        MetaChunk.raw [77, 65, 67, 84] [77, 65, 67, 84, 9]], [2]⟩) =
      ⟨1, 7, 2, [MetaChunk.mhit ⟨7, 5, 0, 0, 3, [], [8], [1]⟩,
        MetaChunk.raw [77, 65, 67, 84] [77, 65, 67, 84, 9]], [2]⟩ :=
  meta_json_roundtrip
    ⟨1, 7, 2, [MetaChunk.mhit ⟨7, 5, 0, 0, 3, [], [8], [1]⟩,
      MetaChunk.raw [77, 65, 67, 84] [77, 65, 67, 84, 9]], [2]⟩
    (by
      intro e he
      rcases List.mem_cons.mp he with h | h
      · cases h
        rfl
      · rcases List.mem_cons.mp h with h2 | h2
        · cases h2
        · exact absurd h2 (List.not_mem_nil _))
    (by decide)

/-! ### Claim C6 — the minimal-format scenario -/

/-- The specified minimal-format buffer: magic `SHNA`, version 1, header
flags 0/0, name `x`, rate byte 24, an opaque two-byte metadata blob, then a
bare sprite `a-1` with width and height 10.0 and zero pivots. -/
def c6buf : List Nat :=
  [83, 72, 78, 65, 1, 0, 0, 0, 0, 0, 0, 0, 1, 0, 0, 0, 120, 24, 238, 238,
   3, 0, 0, 0, 97, 45, 49, 0, 0, 32, 65, 0, 0, 32, 65, 0, 0, 0, 0, 0, 0, 0, 0]

/-- The document `parse_canim` produces for `c6buf`. -/
def c6doc : CanimDoc :=
  ⟨[83, 72, 78, 65], 1, 0, 0, [120], 24, 0, 0, 0, 0, [], [], [], [],
   true, [238, 238], [⟨0, 0, [97, 45, 49], 1092616192, 1092616192, 0, 0, false⟩],
   false, [], false⟩

/-- Claim C6: the scenario buffer decodes to the minimal-layout document with
name `x`, rate 24 and the single 10.0-by-10.0 sprite `a-1` (the decode stops
right after it), and export followed by rebuild reproduces the buffer
byte-identically. -/
theorem minimal_format_scenario :
    parse_canim c6buf = some c6doc ∧
    c6doc.minimal = true ∧ c6doc.anim_name = [120] ∧ c6doc.frame_rate = 24 ∧
    c6doc.minimal_sprites.length = 1 ∧
    (c6doc.minimal_sprites.map Sprite.name = [[97, 45, 49]]) ∧
    (∀ sp ∈ c6doc.minimal_sprites, f32q sp.width = 10 ∧ f32q sp.height = 10) ∧
    (export_canim_to_json c6doc).bind rebuild_canim_from_json = some c6buf := by
  have hq : f32q 1092616192 = 10 := by
    rw [f32q_eq_scaled 1092616192 (by norm_num [f32Exp])]
    norm_num [scaled149, f32Mag149, f32Exp, f32Man, f32Sign]
  refine ⟨by decide, rfl, rfl, rfl, rfl, by decide, ?_, by decide⟩
  intro sp hsp
  rcases List.mem_singleton.mp hsp with rfl
  exact ⟨hq, hq⟩

/-! ### Claim C1 — conditional round trips of both containers -/

theorem bslice_append2 (d : List Nat) (a b c : Nat) (hab : a ≤ b) (hbc : b ≤ c) :
    bslice d a b ++ bslice d b c = bslice d a c := by
  unfold bslice
  have h1 : d.drop b = (d.drop a).drop (b - a) := by
    rw [List.drop_drop]
    congr 1
    omega
  rw [h1, ← List.take_add]
  congr 1
  omega

theorem bslice_empty (d : List Nat) (a : Nat) : bslice d a a = [] := by
  simp [bslice]

theorem bslice_ne_nil (d : List Nat) (a b : Nat) (hab : a < b) (ha : a < d.length) :
    bslice d a b ≠ [] := by
  unfold bslice
  intro hcon
  have := congrArg List.length hcon
  simp at this
  omega

theorem bslice_zero (d : List Nat) (b : Nat) : bslice d 0 b = d.take b := by
  simp [bslice]

theorem decodeAscii_id (bs : List Nat) (h : ∀ b ∈ decodeAscii bs, b < 128) :
    decodeAscii bs = bs := by
  unfold decodeAscii at h ⊢
  induction bs with
  | nil => rfl
  | cons x xs ih =>
    rw [List.map_cons]
    by_cases hx : x < 128
    · rw [if_pos hx]
      rw [List.map_cons] at h
      rw [ih (fun b hb => h b (List.mem_cons_of_mem _ hb))]
    · exfalso
      have := h (if x < 128 then x else 65533) (by
        rw [List.map_cons]
        exact List.mem_cons_self _ _)
      rw [if_neg hx] at this
      omega

theorem r32_some (d : List Nat) (p v q : Nat) (h : r32 d p = some (v, q)) :
    v = u32at d p ∧ q = p + 4 ∧ p + 4 ≤ d.length := by
  unfold r32 at h
  split at h
  · cases h
    exact ⟨rfl, rfl, by assumption⟩
  · cases h

theorem wstr_of_valid (d : List Nat) (p : Nat) (hb : Bytes d) (hv : valid_str d p = true) :
    wstr (decodeAscii (bslice d (p + 4) (p + 4 + u32at d p))) =
      some (bslice d p (p + 4 + u32at d p)) := by
  obtain ⟨h1, h2, h3, h4⟩ := valid_str_spec d p hv
  have hprint := valid_str_name_printable d p hv
  have hid : decodeAscii (bslice d (p + 4) (p + 4 + u32at d p)) =
      bslice d (p + 4) (p + 4 + u32at d p) :=
    decodeAscii_id _ (fun b hbm => by have := hprint b hbm; omega)
  unfold wstr
  rw [if_pos (by
    rw [List.all_eq_true]
    intro b hbm
    have := hprint b hbm
    simp only [decide_eq_true_eq]
    omega)]
  rw [decodeAscii_len d (p + 4) (p + 4 + u32at d p) h4, hid]
  have hlen : p + 4 + u32at d p - (p + 4) = u32at d p := by omega
  rw [hlen, w32_u32at d p hb (by omega)]
  rw [bslice_append2 d p (p + 4) (p + 4 + u32at d p) (by omega) (by omega)]

theorem jsonF32_of_reasonable (w : Nat) (h : is_float_reasonable w = true) :
    jsonF32 w = w := by
  unfold is_float_reasonable at h
  unfold jsonF32
  split at h
  · cases h
  · rename_i hexp
    rw [if_neg (fun hc => hexp hc.1)]

theorem load_chunk_to_bytes (d : List Nat) (cpos : Nat) (cmagic : List Nat) (csize : Nat) :
    chunk_to_bytes (load_chunk d cpos cmagic csize) = bslice d cpos (cpos + csize) := by
  unfold load_chunk
  split
  · split
    · split
      · rename_i hv
        unfold chunk_to_bytes
        exact hv
      · rfl
    · rfl
  · split
    · split
      · split
        · rename_i hv
          unfold chunk_to_bytes
          exact hv
        · rfl
      · rfl
    · rfl

theorem load_chunks_length (d : List Nat) :
    ∀ bounds : List (Nat × List Nat), (load_chunks d bounds).length = bounds.length
  | [] => rfl
  | (cpos, cmagic) :: rest => by
    unfold load_chunks
    rw [List.length_cons, List.length_cons, load_chunks_length d rest]

theorem scanF_head_bound (d : List Nat) :
    ∀ fuel pos q m rest, boundaryScanF d fuel pos = (q, m) :: rest →
      pos ≤ q ∧ q + 4 ≤ d.length
  | 0, pos => by
    intro q m rest h
    cases h
  | fuel + 1, pos => by
    intro q m rest h
    unfold boundaryScanF at h
    split at h
    · rename_i hp
      split at h
      · cases h
        omega
      · have := scanF_head_bound d fuel (pos + 1) q m rest h
        omega
    · cases h

theorem scanF_flatten (d : List Nat) :
    ∀ fuel pos, d.length - pos ≤ fuel →
      ((load_chunks d (boundaryScanF d fuel pos)).map chunk_to_bytes).flatten =
        (match boundaryScanF d fuel pos with
         | [] => []
         | (q, _) :: _ => bslice d q d.length)
  | 0, pos => by
    intro h
    rfl
  | fuel + 1, pos => by
    intro h
    unfold boundaryScanF
    by_cases hp : pos + 4 ≤ d.length
    · rw [if_pos hp]
      by_cases hm : CHUNK_MAGICS.contains (bslice d pos (pos + 4)) = true
      · rw [if_pos hm]
        cases hrest : boundaryScanF d fuel (pos + 4) with
        | nil =>
          unfold load_chunks
          dsimp only
          simp only [load_chunks]
          rw [List.map_cons, List.map_nil, List.flatten_cons, List.flatten_nil,
            load_chunk_to_bytes, List.append_nil]
          have hpl : pos + (d.length - pos) = d.length := by omega
          rw [hpl]
        | cons b rest2 =>
          obtain ⟨np, nm⟩ := b
          have hnb := scanF_head_bound d fuel (pos + 4) np nm rest2 hrest
          have hrec := scanF_flatten d fuel (pos + 4) (by omega)
          rw [hrest] at hrec
          dsimp only at hrec
          unfold load_chunks
          dsimp only
          rw [List.map_cons, List.flatten_cons, load_chunk_to_bytes]
          rw [hrec]
          have hpn : pos + (np - pos) = np := by omega
          rw [hpn]
          exact bslice_append2 d pos np d.length (by omega) (by omega)
      · rw [if_neg hm]
        exact scanF_flatten d fuel (pos + 1) (by omega)
    · rw [if_neg hp]
      rfl

theorem meta_roundtrip_aux (d : List Nat) (hB : Bytes d) (hlen : 12 ≤ d.length)
    (hcount : u32at d 8 = (find_chunk_boundaries d).length)
    (hfirst : ∀ p m rest, find_chunk_boundaries d = (p, m) :: rest → p = 12) :
    rebuild_bytes (canim_meta_load d) = d := by
  unfold canim_meta_load
  rw [if_neg (by omega)]
  unfold rebuild_bytes
  dsimp only
  have hflat := scanF_flatten d (d.length - 12) 12 (Nat.le_refl _)
  have hfb : find_chunk_boundaries d = boundaryScanF d (d.length - 12) 12 := rfl
  cases hbd : find_chunk_boundaries d with
  | nil =>
    rw [hfb] at hbd
    rw [hbd] at hflat
    simp only [load_chunks, List.map_nil, List.flatten_nil, List.length_nil]
    have h12 : (if ([] : List (Nat × List Nat)) ≠ [] then d.length else 12) = 12 := by
      norm_num
    rw [h12]
    have hcount0 : u32at d 8 = 0 := by
      rw [hcount, hfb, hbd]
      rfl
    have htr : (if 12 < d.length then bslice d 12 d.length else []) = bslice d 12 d.length := by
      by_cases hc : 12 < d.length
      · rw [if_pos hc]
      · rw [if_neg hc]
        rw [bslice_nil d 12 d.length (by omega)]
    rw [htr]
    rw [show w32 0 = bslice d 8 12 from by
      rw [← hcount0]
      exact w32_u32at d 8 hB (by omega)]
    rw [w32_u32at d 0 hB (by omega), w32_u32at d 4 hB (by omega)]
    rw [List.append_nil]
    rw [List.append_assoc, List.append_assoc]
    rw [bslice_append2 d 8 12 d.length (by omega) (by omega)]
    rw [bslice_append2 d 4 8 d.length (by omega) (by omega)]
    rw [bslice_append2 d 0 4 d.length (by omega) (by omega)]
    exact bslice_self d
  | cons b rest =>
    obtain ⟨p, m⟩ := b
    have hp12 : p = 12 := hfirst p m rest hbd
    subst hp12
    rw [hfb] at hbd
    rw [hbd] at hflat
    dsimp only at hflat
    have h12 : (if ((12, m) :: rest : List (Nat × List Nat)) ≠ [] then d.length else 12) =
        d.length := by
      rw [if_pos (List.cons_ne_nil _ _)]
    rw [h12]
    have htr : (if d.length < d.length then bslice d d.length d.length else []) = [] := by
      rw [if_neg (by omega)]
    rw [htr, List.append_nil]
    rw [hflat]
    rw [load_chunks_length d ((12, m) :: rest)]
    have hcnt : u32at d 8 = ((12, m) :: rest).length := by
      rw [hcount, hfb, hbd]
    rw [show w32 ((12, m) :: rest).length = bslice d 8 12 from by
      rw [← hcnt]
      exact w32_u32at d 8 hB (by omega)]
    rw [w32_u32at d 0 hB (by omega), w32_u32at d 4 hB (by omega)]
    rw [List.append_assoc, List.append_assoc]
    rw [bslice_append2 d 8 12 d.length (by omega) (by omega)]
    rw [bslice_append2 d 4 8 d.length (by omega) (by omega)]
    rw [bslice_append2 d 0 4 d.length (by omega) (by omega)]
    exact bslice_self d

/-- The event-container round trip fails on a plain 12-byte header whose
declared entry count (5) differs from the number of chunks found (0):
`_rebuild_bytes` writes back the recomputed chunk count. -/
theorem meta_roundtrip_counterexample :
    rebuild_bytes (canim_meta_load [1, 0, 0, 0, 0, 0, 0, 0, 5, 0, 0, 0]) ≠
      [1, 0, 0, 0, 0, 0, 0, 0, 5, 0, 0, 0] := by
  decide

theorem rstr_some_name (d : List Nat) (p : Nat) (s : List Nat) (q : Nat)
    (h : rstr d p = some (s, q)) :
    s = decodeAscii (bslice d (p + 4) q) ∧ q = p + 4 + u32at d p ∧ q ≤ d.length ∧
      p + 4 ≤ d.length := by
  unfold rstr at h
  cases hr : r32 d p with
  | none =>
    rw [hr] at h
    cases h
  | some r0 =>
    obtain ⟨l, pp⟩ := r0
    obtain ⟨hl, hpp, hb⟩ := r32_some d p l pp hr
    rw [hr] at h
    dsimp only at h
    split at h
    · cases h
    · split at h
      · cases h
      · rename_i hover
        cases h
        refine ⟨?_, by omega, by omega, by omega⟩
        rw [hl, hpp]

theorem wstr_of_ascii (d : List Nat) (p : Nat) (s : List Nat) (q : Nat) (hB : Bytes d)
    (h : rstr d p = some (s, q)) (ha : ∀ b ∈ s, b < 128) :
    wstr s = some (bslice d p q) := by
  obtain ⟨hs, hq, hql, hpl⟩ := rstr_some_name d p s q h
  have hid : decodeAscii (bslice d (p + 4) q) = bslice d (p + 4) q := by
    apply decodeAscii_id
    rw [← hs]
    exact ha
  unfold wstr
  rw [if_pos (by
    rw [List.all_eq_true]
    intro b hbm
    have := ha b hbm
    simp only [decide_eq_true_eq]
    omega)]
  rw [hs, hid]
  rw [bslice_len d (p + 4) q (by omega)]
  have hlen : q - (p + 4) = u32at d p := by omega
  rw [hlen, w32_u32at d p hB (by omega)]
  rw [bslice_append2 d p (p + 4) q (by omega) (by omega)]

theorem rf4_some (d : List Nat) (p a b c e : Nat) (h : rf4 d p = some (a, b, c, e)) :
    a = u32at d p ∧ b = u32at d (p + 4) ∧ c = u32at d (p + 8) ∧ e = u32at d (p + 12) ∧
      p + 16 ≤ d.length := by
  unfold rf4 at h
  split at h
  · rename_i a' pa b' pb c' pc e' pe h1 h2 h3 h4
    obtain ⟨ha, _, _⟩ := r32_some d p a' pa h1
    obtain ⟨hb, _, _⟩ := r32_some d (p + 4) b' pb h2
    obtain ⟨hc, _, _⟩ := r32_some d (p + 8) c' pc h3
    obtain ⟨he, _, hbound⟩ := r32_some d (p + 12) e' pe h4
    cases h
    exact ⟨ha, hb, hc, he, by omega⟩
  · cases h

theorem minimalScanF_ge (d : List Nat) (fs : Nat) :
    ∀ fuel pos s, minimalScanF d fs fuel pos = some s → pos ≤ s ∧ s + 4 < fs
  | 0, pos, s => by
    intro h
    cases h
  | fuel + 1, pos, s => by
    intro h
    unfold minimalScanF at h
    split at h
    · rename_i hp
      split at h
      · split at h
        · rename_i tn tp htn
          split at h
          · cases h
            omega
          · have := minimalScanF_ge d fs fuel (pos + 1) s h
            omega
        · have := minimalScanF_ge d fs fuel (pos + 1) s h
          omega
      · have := minimalScanF_ge d fs fuel (pos + 1) s h
        omega
    · cases h

theorem bare_sprite_region (d : List Nat) (fs pos : Nat) (sp : Sprite) (pos2 : Nat)
    (hB : Bytes d) (h : try_parse_bare_sprite d pos fs = some (sp, pos2)) :
    encode_min_sprite ⟨sp.name, jsonF32 sp.width, jsonF32 sp.height,
      jsonF32 sp.pivot_x, jsonF32 sp.pivot_y⟩ = some (bslice d pos pos2) := by
  unfold try_parse_bare_sprite at h
  split at h
  · cases h
  · rename_i hv
    rw [Decidable.not_not] at hv
    rw [rstr_of_valid d pos hv] at h
    obtain ⟨h1, h2, h3, h4⟩ := valid_str_spec d pos hv
    dsimp only at h
    split at h
    · cases h
    · rename_i hfs
      split at h
      · rename_i sw sh spx spy hrf
        obtain ⟨hsw, hsh, hspx, hspy, hbound⟩ := rf4_some d (pos + 4 + u32at d pos)
          sw sh spx spy hrf
        split at h
        · cases h
        · rename_i hreas
          rw [Decidable.not_not] at hreas
          split at h
          · cases h
          · cases h
            unfold encode_min_sprite
            dsimp only
            rw [wstr_of_valid d pos hB hv]
            dsimp only
            rw [jsonF32_of_reasonable _ hreas.1, jsonF32_of_reasonable _ hreas.2.1,
              jsonF32_of_reasonable _ hreas.2.2.1, jsonF32_of_reasonable _ hreas.2.2.2]
            rw [hsw, hsh, hspx, hspy]
            rw [w32_u32at d (pos + 4 + u32at d pos) hB (by omega)]
            rw [w32_u32at d (pos + 4 + u32at d pos + 4) hB (by omega)]
            rw [w32_u32at d (pos + 4 + u32at d pos + 8) hB (by omega)]
            rw [w32_u32at d (pos + 4 + u32at d pos + 12) hB (by omega)]
            simp only [List.append_assoc]
            rw [show pos + 4 + u32at d pos + 8 + 4 = pos + 4 + u32at d pos + 12 from by omega]
            rw [show pos + 4 + u32at d pos + 4 + 4 = pos + 4 + u32at d pos + 8 from by omega]
            rw [show pos + 4 + u32at d pos + 12 + 4 = pos + 4 + u32at d pos + 16 from by omega]
            rw [bslice_append2 d (pos + 4 + u32at d pos + 8) (pos + 4 + u32at d pos + 12)
              (pos + 4 + u32at d pos + 16) (by omega) (by omega)]
            rw [bslice_append2 d (pos + 4 + u32at d pos + 4) (pos + 4 + u32at d pos + 8)
              (pos + 4 + u32at d pos + 16) (by omega) (by omega)]
            rw [bslice_append2 d (pos + 4 + u32at d pos) (pos + 4 + u32at d pos + 4)
              (pos + 4 + u32at d pos + 16) (by omega) (by omega)]
            rw [bslice_append2 d pos (pos + 4 + u32at d pos)
              (pos + 4 + u32at d pos + 16) (by omega) (by omega)]
      · cases h

theorem bareF_region (d : List Nat) (fs : Nat) (hB : Bytes d) :
    ∀ fuel pos, pos ≤ fs →
      wcat encode_min_sprite ((bareSpriteLoopF d fs fuel pos).1.map
        (fun sp => ⟨sp.name, jsonF32 sp.width, jsonF32 sp.height,
          jsonF32 sp.pivot_x, jsonF32 sp.pivot_y⟩)) =
        some (bslice d pos (bareSpriteLoopF d fs fuel pos).2) ∧
      pos ≤ (bareSpriteLoopF d fs fuel pos).2 ∧ (bareSpriteLoopF d fs fuel pos).2 ≤ fs
  | 0, pos => by
    intro hp
    unfold bareSpriteLoopF
    refine ⟨?_, Nat.le_refl pos, hp⟩
    rw [bslice_empty]
    rfl
  | fuel + 1, pos => by
    intro hp
    unfold bareSpriteLoopF
    by_cases hc : pos + 4 < fs
    · rw [if_pos hc]
      cases hs : try_parse_bare_sprite d pos fs with
      | none =>
        dsimp only
        refine ⟨?_, Nat.le_refl pos, hp⟩
        rw [bslice_empty]
        rfl
      | some r0 =>
        obtain ⟨sp, pos2⟩ := r0
        have hadv := try_parse_bare_sprite_advance d pos fs sp pos2 hs
        have hreg := bare_sprite_region d fs pos sp pos2 hB hs
        obtain ⟨ih1, ih2, ih3⟩ := bareF_region d fs hB fuel pos2 (by omega)
        dsimp only
        rw [List.map_cons]
        refine ⟨?_, by omega, ih3⟩
        unfold wcat
        rw [hreg, ih1]
        dsimp only
        rw [bslice_append2 d pos pos2 (bareSpriteLoopF d fs fuel pos2).2 (by omega) ih2]
    · rw [if_neg hc]
      refine ⟨?_, Nat.le_refl pos, hp⟩
      rw [bslice_empty]
      rfl

theorem layers_region (d : List Nat) (hB : Bytes d) :
    ∀ n pos, (layers_loop d n pos).1.length = n →
      wcat wstr (layers_loop d n pos).1 = some (bslice d pos (layers_loop d n pos).2) ∧
      pos ≤ (layers_loop d n pos).2
  | 0, pos => by
    intro h
    unfold layers_loop
    refine ⟨?_, Nat.le_refl pos⟩
    rw [bslice_empty]
    rfl
  | n + 1, pos => by
    intro h
    unfold layers_loop at h ⊢
    by_cases hv : valid_str d pos = true
    · rw [if_pos hv] at h ⊢
      rw [rstr_of_valid d pos hv] at h ⊢
      obtain ⟨h1, h2, h3, h4⟩ := valid_str_spec d pos hv
      dsimp only at h ⊢
      rw [List.length_cons] at h
      obtain ⟨ih1, ih2⟩ := layers_region d hB n (pos + 4 + u32at d pos) (by omega)
      refine ⟨?_, by omega⟩
      unfold wcat
      rw [wstr_of_valid d pos hB hv, ih1]
      dsimp only
      rw [bslice_append2 d pos (pos + 4 + u32at d pos)
        (layers_loop d n (pos + 4 + u32at d pos)).2 (by omega) ih2]
    · rw [if_neg hv] at h
      exact absurd h (by simp)

theorem clips_region (d : List Nat) (hB : Bytes d) :
    ∀ n pos, (clips_loop d n pos).1.length = n →
      wcat encode_clip (clips_loop d n pos).1 = some (bslice d pos (clips_loop d n pos).2) ∧
      pos ≤ (clips_loop d n pos).2
  | 0, pos => by
    intro h
    unfold clips_loop
    refine ⟨?_, Nat.le_refl pos⟩
    rw [bslice_empty]
    rfl
  | n + 1, pos => by
    intro h
    unfold clips_loop at h ⊢
    by_cases hv : valid_str d pos = true
    · rw [if_pos hv] at h ⊢
      rw [rstr_of_valid d pos hv] at h ⊢
      obtain ⟨h1, h2, h3, h4⟩ := valid_str_spec d pos hv
      dsimp only at h ⊢
      cases hr : r16 d (pos + 4 + u32at d pos) with
      | none =>
        rw [hr] at h
        exact absurd h (by simp)
      | some r0 =>
        obtain ⟨cv, p2⟩ := r0
        obtain ⟨hcv, hp2, hbd⟩ := r16_some d (pos + 4 + u32at d pos) cv p2 hr
        rw [hr] at h
        dsimp only at h ⊢
        rw [List.length_cons] at h
        obtain ⟨ih1, ih2⟩ := clips_region d hB n p2 (by omega)
        refine ⟨?_, by omega⟩
        unfold wcat
        have hhead : encode_clip ⟨decodeAscii (bslice d (pos + 4) (pos + 4 + u32at d pos)), cv⟩ =
            some (bslice d pos (pos + 4 + u32at d pos) ++ w16 cv) := by
          unfold encode_clip
          dsimp only
          rw [wstr_of_valid d pos hB hv]
        rw [hhead, ih1]
        dsimp only
        rw [hcv, hp2]
        rw [w16_u16at d (pos + 4 + u32at d pos) hB (by omega)]
        rw [hp2] at ih2
        rw [List.append_assoc]
        rw [bslice_append2 d (pos + 4 + u32at d pos) (pos + 4 + u32at d pos + 2)
          (clips_loop d n (pos + 4 + u32at d pos + 2)).2 (by omega) ih2]
        rw [bslice_append2 d pos (pos + 4 + u32at d pos)
          (clips_loop d n (pos + 4 + u32at d pos + 2)).2 (by omega) (by omega)]
    · rw [if_neg hv] at h
      exact absurd h (by simp)

theorem parse_element_region (d : List Nat) (layers : List (List Nat)) (hB : Bytes d)
    (pos : Nat) (el : Element) (pos2 : Nat)
    (h : parse_element d layers pos = (some el, pos2)) :
    encode_element el = bslice d pos (pos + 43) ∧ pos2 = pos + 43 ∧
      pos + 39 ≤ d.length := by
  unfold parse_element at h
  split at h
  · simp at h
  · rename_i x0 idx p1 hh0
    split at h
    · simp at h
    · rename_i x1 u1 p2 hh1
      split at h
      · simp at h
      · rename_i x2 li p3 hh2
        split at h
        · simp at h
        · rename_i x3 u2 p4 hh3
          split at h
          · simp at h
          · rename_i x4 ma p5 hh4
            split at h
            · simp at h
            · rename_i x5 mdv p6 hh5
              split at h
              · simp at h
              · rename_i x6 mb p7 hh6
                split at h
                · simp at h
                · rename_i x7 mc p8 hh7
                  split at h
                  · simp at h
                  · rename_i x8 tx p9 hh8
                    split at h
                    · simp at h
                    · rename_i x9 ty p10 hh9
                      split at h
                      · simp at h
                      · rename_i x10 zo p11 hh10
                        split at h
                        · simp at h
                        · rename_i x11 tp p12 hh11
                          split at h
                          · simp at h
                          · rename_i x12 cr p13 hh12
                            split at h
                            · simp at h
                            · rename_i x13 cg p14 hh13
                              split at h
                              · simp at h
                              · rename_i x14 cb p15 hh14
                                split at h
                                · simp at h
                                · rename_i x15 ca p16 hh15
                                  obtain ⟨hv0, hq0, hb0⟩ := r16_some d _ idx p1 hh0
                                  obtain ⟨hv1, hq1, hb1⟩ := r16_some d _ u1 p2 hh1
                                  obtain ⟨hv2, hq2, hb2⟩ := r16_some d _ li p3 hh2
                                  obtain ⟨hv3, hq3, hb3⟩ := r16_some d _ u2 p4 hh3
                                  obtain ⟨hv4, hq4, hb4⟩ := r32_some d _ ma p5 hh4
                                  obtain ⟨hv5, hq5, hb5⟩ := r32_some d _ mdv p6 hh5
                                  obtain ⟨hv6, hq6, hb6⟩ := r32_some d _ mb p7 hh6
                                  obtain ⟨hv7, hq7, hb7⟩ := r32_some d _ mc p8 hh7
                                  obtain ⟨hv8, hq8, hb8⟩ := r32_some d _ tx p9 hh8
                                  obtain ⟨hv9, hq9, hb9⟩ := r32_some d _ ty p10 hh9
                                  obtain ⟨hv10, hq10, hb10⟩ := r16_some d _ zo p11 hh10
                                  obtain ⟨hv11, hq11, hb11⟩ := r8_some d _ tp p12 hh11
                                  obtain ⟨hv12, hq12, hb12⟩ := r8_some d _ cr p13 hh12
                                  obtain ⟨hv13, hq13, hb13⟩ := r8_some d _ cg p14 hh13
                                  obtain ⟨hv14, hq14, hb14⟩ := r8_some d _ cb p15 hh14
                                  obtain ⟨hv15, hq15, hb15⟩ := r8_some d _ ca p16 hh15
                                  subst hq0
                                  subst hv0
                                  subst hq1
                                  subst hv1
                                  subst hq2
                                  subst hv2
                                  subst hq3
                                  subst hv3
                                  subst hq4
                                  subst hv4
                                  subst hq5
                                  subst hv5
                                  subst hq6
                                  subst hv6
                                  subst hq7
                                  subst hv7
                                  subst hq8
                                  subst hv8
                                  subst hq9
                                  subst hv9
                                  subst hq10
                                  subst hv10
                                  subst hq11
                                  subst hv11
                                  subst hq12
                                  subst hv12
                                  subst hq13
                                  subst hv13
                                  subst hq14
                                  subst hv14
                                  subst hq15
                                  subst hv15
                                  dsimp only at h
                                  injection h with hA hB2
                                  injection hA with hA
                                  subst hA
                                  refine ⟨?_, by omega, by omega⟩
                                  unfold encode_element
                                  dsimp only
                                  rw [w16_u16at d (pos) hB (by omega)]
                                  rw [w16_u16at d (pos + 2) hB (by omega)]
                                  rw [w16_u16at d (pos + 4) hB (by omega)]
                                  rw [w16_u16at d (pos + 6) hB (by omega)]
                                  rw [w32_u32at d (pos + 8) hB (by omega)]
                                  rw [w32_u32at d (pos + 12) hB (by omega)]
                                  rw [w32_u32at d (pos + 16) hB (by omega)]
                                  rw [w32_u32at d (pos + 20) hB (by omega)]
                                  rw [w32_u32at d (pos + 24) hB (by omega)]
                                  rw [w32_u32at d (pos + 28) hB (by omega)]
                                  rw [w16_u16at d (pos + 32) hB (by omega)]
                                  rw [w8_byteAt d (pos + 34) hB (by omega)]
                                  rw [w8_byteAt d (pos + 35) hB (by omega)]
                                  rw [w8_byteAt d (pos + 36) hB (by omega)]
                                  rw [w8_byteAt d (pos + 37) hB (by omega)]
                                  rw [w8_byteAt d (pos + 38) hB (by omega)]
                                  rw [show pos + 2 + 2 = pos + 4 from by omega]
                                  rw [show pos + 4 + 2 = pos + 6 from by omega]
                                  rw [show pos + 6 + 2 = pos + 8 from by omega]
                                  rw [show pos + 8 + 4 = pos + 12 from by omega]
                                  rw [show pos + 12 + 4 = pos + 16 from by omega]
                                  rw [show pos + 16 + 4 = pos + 20 from by omega]
                                  rw [show pos + 20 + 4 = pos + 24 from by omega]
                                  rw [show pos + 24 + 4 = pos + 28 from by omega]
                                  rw [show pos + 28 + 4 = pos + 32 from by omega]
                                  rw [show pos + 32 + 2 = pos + 34 from by omega]
                                  rw [show pos + 34 + 1 = pos + 35 from by omega]
                                  rw [show pos + 35 + 1 = pos + 36 from by omega]
                                  rw [show pos + 36 + 1 = pos + 37 from by omega]
                                  rw [show pos + 37 + 1 = pos + 38 from by omega]
                                  rw [show pos + 38 + 1 = pos + 39 from by omega]
                                  simp only [List.append_assoc]
                                  rw [bslice_append2 d (pos + 38) (pos + 39) (pos + 43) (by omega) (by omega)]
                                  rw [bslice_append2 d (pos + 37) (pos + 38) (pos + 43) (by omega) (by omega)]
                                  rw [bslice_append2 d (pos + 36) (pos + 37) (pos + 43) (by omega) (by omega)]
                                  rw [bslice_append2 d (pos + 35) (pos + 36) (pos + 43) (by omega) (by omega)]
                                  rw [bslice_append2 d (pos + 34) (pos + 35) (pos + 43) (by omega) (by omega)]
                                  rw [bslice_append2 d (pos + 32) (pos + 34) (pos + 43) (by omega) (by omega)]
                                  rw [bslice_append2 d (pos + 28) (pos + 32) (pos + 43) (by omega) (by omega)]
                                  rw [bslice_append2 d (pos + 24) (pos + 28) (pos + 43) (by omega) (by omega)]
                                  rw [bslice_append2 d (pos + 20) (pos + 24) (pos + 43) (by omega) (by omega)]
                                  rw [bslice_append2 d (pos + 16) (pos + 20) (pos + 43) (by omega) (by omega)]
                                  rw [bslice_append2 d (pos + 12) (pos + 16) (pos + 43) (by omega) (by omega)]
                                  rw [bslice_append2 d (pos + 8) (pos + 12) (pos + 43) (by omega) (by omega)]
                                  rw [bslice_append2 d (pos + 6) (pos + 8) (pos + 43) (by omega) (by omega)]
                                  rw [bslice_append2 d (pos + 4) (pos + 6) (pos + 43) (by omega) (by omega)]
                                  rw [bslice_append2 d (pos + 2) (pos + 4) (pos + 43) (by omega) (by omega)]
                                  rw [bslice_append2 d (pos) (pos + 2) (pos + 43) (by omega) (by omega)]

theorem elements_loop_length (d : List Nat) (layers : List (List Nat)) :
    ∀ n pos,
      ((elements_loop d layers n pos).2.2 = true →
        (elements_loop d layers n pos).1.length = n) ∧
      ((elements_loop d layers n pos).2.2 = false →
        (elements_loop d layers n pos).1.length < n)
  | 0, pos => by
    unfold elements_loop
    exact ⟨fun _ => rfl, fun hc => by cases hc⟩
  | n + 1, pos => by
    unfold elements_loop
    cases hp : parse_element d layers pos with
    | mk o pf =>
      cases o with
      | none =>
        dsimp only
        exact ⟨fun hc => (by cases hc), fun _ => (by simp)⟩
      | some el =>
        dsimp only
        have ih := elements_loop_length d layers n pf
        rw [List.length_cons]
        exact ⟨fun hc => (by rw [ih.1 hc]), fun hc => (by have := ih.2 hc; omega)⟩

theorem elements_region (d : List Nat) (layers : List (List Nat)) (hB : Bytes d) :
    ∀ n pos, (elements_loop d layers n pos).2.2 = true →
      ((elements_loop d layers n pos).1.map encode_element).flatten =
        bslice d pos (elements_loop d layers n pos).2.1 ∧
      pos ≤ (elements_loop d layers n pos).2.1
  | 0, pos => by
    intro _
    unfold elements_loop
    rw [bslice_empty]
    exact ⟨rfl, Nat.le_refl pos⟩
  | n + 1, pos => by
    intro hok
    unfold elements_loop at hok ⊢
    cases hp : parse_element d layers pos with
    | mk o pf =>
      cases o with
      | none =>
        rw [hp] at hok
        dsimp only at hok
        cases hok
      | some el =>
        rw [hp] at hok
        dsimp only at hok ⊢
        obtain ⟨hreg, hpf, hbd⟩ := parse_element_region d layers hB pos el pf hp
        obtain ⟨ih1, ih2⟩ := elements_region d layers hB n pf hok
        rw [List.map_cons, List.flatten_cons, hreg, ih1]
        subst hpf
        refine ⟨?_, by omega⟩
        rw [bslice_append2 d pos (pos + 43) (elements_loop d layers n (pos + 43)).2.1
          (by omega) ih2]

theorem looks_like_valid (d : List Nat) (pos fs : Nat) (layers : List (List Nat))
    (h : looks_like_section d pos fs layers = true) : valid_str d pos = true := by
  unfold looks_like_section at h
  split at h
  · cases h
  · rename_i hv
    exact Decidable.not_not.mp hv

theorem sections_region (d : List Nat) (fs : Nat) (layers : List (List Nat)) (hB : Bytes d) :
    ∀ n pos,
      (∀ s ∈ (sections_loop d fs layers n pos).1, s.elements.length = s.element_count) →
      wcat encode_sectionRec (sections_loop d fs layers n pos).1 =
        some (bslice d pos (sections_loop d fs layers n pos).2) ∧
      pos ≤ (sections_loop d fs layers n pos).2
  | 0, pos => by
    intro _
    unfold sections_loop
    rw [bslice_empty]
    exact ⟨rfl, Nat.le_refl pos⟩
  | n + 1, pos => by
    intro hc
    unfold sections_loop at hc ⊢
    by_cases hlk : looks_like_section d pos fs layers = true
    · rw [if_neg (by simpa using hlk)] at hc ⊢
      have hv := looks_like_valid d pos fs layers hlk
      obtain ⟨hv1, hv2, hv3, hv4⟩ := valid_str_spec d pos hv
      rw [rstr_of_valid d pos hv] at hc ⊢
      dsimp only at hc ⊢
      cases h32 : r32 d (pos + 4 + u32at d pos) with
      | none =>
        rw [bslice_empty]
        exact ⟨rfl, Nat.le_refl pos⟩
      | some r0 =>
        obtain ⟨su, p2⟩ := r0
        obtain ⟨hsu, hp2, hb2⟩ := r32_some d (pos + 4 + u32at d pos) su p2 h32
        subst hsu
        subst hp2
        rw [h32] at hc
        dsimp only at hc ⊢
        cases h8 : r8 d (pos + 4 + u32at d pos + 4) with
        | none =>
          rw [bslice_empty]
          exact ⟨rfl, Nat.le_refl pos⟩
        | some r1 =>
          obtain ⟨sf, p3⟩ := r1
          obtain ⟨hsf, hp3, hb3⟩ := r8_some d (pos + 4 + u32at d pos + 4) sf p3 h8
          subst hsf
          subst hp3
          rw [h8] at hc
          dsimp only at hc ⊢
          cases h16a : r16 d (pos + 4 + u32at d pos + 4 + 1) with
          | none =>
            rw [bslice_empty]
            exact ⟨rfl, Nat.le_refl pos⟩
          | some r2 =>
            obtain ⟨sfc, p4⟩ := r2
            obtain ⟨hsfc, hp4, hb4⟩ := r16_some d (pos + 4 + u32at d pos + 4 + 1) sfc p4 h16a
            subst hsfc
            subst hp4
            rw [h16a] at hc
            dsimp only at hc ⊢
            cases h16b : r16 d (pos + 4 + u32at d pos + 4 + 1 + 2) with
            | none =>
              rw [bslice_empty]
              exact ⟨rfl, Nat.le_refl pos⟩
            | some r3 =>
              obtain ⟨sec, p5⟩ := r3
              obtain ⟨hsec, hp5, hb5⟩ :=
                r16_some d (pos + 4 + u32at d pos + 4 + 1 + 2) sec p5 h16b
              subst hsec
              subst hp5
              rw [h16b] at hc
              dsimp only at hc ⊢
              by_cases hbig : u16at d (pos + 4 + u32at d pos + 4 + 1 + 2) > 10000 ∨
                  u16at d (pos + 4 + u32at d pos + 4 + 1) > 10000
              · rw [if_pos hbig] at hc ⊢
                rw [bslice_empty]
                exact ⟨rfl, Nat.le_refl pos⟩
              · rw [if_neg hbig] at hc ⊢
                by_cases hflag : (elements_loop d layers
                    (u16at d (pos + 4 + u32at d pos + 4 + 1 + 2))
                    (pos + 4 + u32at d pos + 4 + 1 + 2 + 2)).2.2 = true
                · rw [if_pos hflag] at hc ⊢
                  have hrest : ∀ s ∈ (sections_loop d fs layers n
                      (elements_loop d layers (u16at d (pos + 4 + u32at d pos + 4 + 1 + 2))
                        (pos + 4 + u32at d pos + 4 + 1 + 2 + 2)).2.1).1,
                      s.elements.length = s.element_count :=
                    fun s hs => hc s (List.mem_cons_of_mem _ hs)
                  obtain ⟨ih1, ih2⟩ := sections_region d fs layers hB n
                    (elements_loop d layers (u16at d (pos + 4 + u32at d pos + 4 + 1 + 2))
                      (pos + 4 + u32at d pos + 4 + 1 + 2 + 2)).2.1 hrest
                  obtain ⟨he1, he2⟩ := elements_region d layers hB
                    (u16at d (pos + 4 + u32at d pos + 4 + 1 + 2))
                    (pos + 4 + u32at d pos + 4 + 1 + 2 + 2) hflag
                  unfold wcat
                  have hhead : encode_sectionRec
                      ⟨decodeAscii (bslice d (pos + 4) (pos + 4 + u32at d pos)),
                        u32at d (pos + 4 + u32at d pos),
                        byteAt d (pos + 4 + u32at d pos + 4),
                        u16at d (pos + 4 + u32at d pos + 4 + 1),
                        u16at d (pos + 4 + u32at d pos + 4 + 1 + 2),
                        (elements_loop d layers (u16at d (pos + 4 + u32at d pos + 4 + 1 + 2))
                          (pos + 4 + u32at d pos + 4 + 1 + 2 + 2)).1⟩ =
                      some (bslice d pos
                        (elements_loop d layers (u16at d (pos + 4 + u32at d pos + 4 + 1 + 2))
                          (pos + 4 + u32at d pos + 4 + 1 + 2 + 2)).2.1) := by
                    unfold encode_sectionRec
                    dsimp only
                    rw [wstr_of_valid d pos hB hv]
                    dsimp only
                    rw [he1]
                    rw [w32_u32at d (pos + 4 + u32at d pos) hB (by omega)]
                    rw [w8_byteAt d (pos + 4 + u32at d pos + 4) hB (by omega)]
                    rw [w16_u16at d (pos + 4 + u32at d pos + 4 + 1) hB (by omega)]
                    rw [w16_u16at d (pos + 4 + u32at d pos + 4 + 1 + 2) hB (by omega)]
                    simp only [List.append_assoc]
                    rw [bslice_append2 d (pos + 4 + u32at d pos + 4 + 1 + 2)
                      (pos + 4 + u32at d pos + 4 + 1 + 2 + 2) _ (by omega) he2]
                    rw [bslice_append2 d (pos + 4 + u32at d pos + 4 + 1)
                      (pos + 4 + u32at d pos + 4 + 1 + 2) _ (by omega) (by omega)]
                    rw [bslice_append2 d (pos + 4 + u32at d pos + 4)
                      (pos + 4 + u32at d pos + 4 + 1) _ (by omega) (by omega)]
                    rw [bslice_append2 d (pos + 4 + u32at d pos)
                      (pos + 4 + u32at d pos + 4) _ (by omega) (by omega)]
                    rw [bslice_append2 d pos (pos + 4 + u32at d pos) _ (by omega) (by omega)]
                  rw [hhead, ih1]
                  dsimp only
                  rw [bslice_append2 d pos _ _ (by omega) ih2]
                  exact ⟨rfl, by omega⟩
                · rw [if_neg hflag] at hc ⊢
                  exfalso
                  have hfalse : (elements_loop d layers
                      (u16at d (pos + 4 + u32at d pos + 4 + 1 + 2))
                      (pos + 4 + u32at d pos + 4 + 1 + 2 + 2)).2.2 = false := by
                    cases hx : (elements_loop d layers
                        (u16at d (pos + 4 + u32at d pos + 4 + 1 + 2))
                        (pos + 4 + u32at d pos + 4 + 1 + 2 + 2)).2.2 with
                    | true => exact absurd hx hflag
                    | false => rfl
                  have hlen := (elements_loop_length d layers
                    (u16at d (pos + 4 + u32at d pos + 4 + 1 + 2))
                    (pos + 4 + u32at d pos + 4 + 1 + 2 + 2)).2 hfalse
                  have heq := hc _ (List.mem_cons_self _ _)
                  dsimp only at heq
                  omega
    · rw [if_pos (by simpa using hlk)]
      rw [bslice_empty]
      exact ⟨rfl, Nat.le_refl pos⟩

theorem wcat_cons_entry (d : List Nat) (e : BuildEntry) (new : List BuildEntry) (a b c : Nat)
    (he : encode_build_entry e = some (bslice d a b))
    (hw : wcat encode_build_entry new = some (bslice d b c))
    (hab : a ≤ b) (hbc : b ≤ c) :
    wcat encode_build_entry (e :: new) = some (bslice d a c) := by
  unfold wcat
  rw [he, hw]
  dsimp only
  rw [bslice_append2 d a b c hab hbc]

theorem encode_symbol_raw (n : List Nat) (r ns : Nat) (sps : List Sprite) (comp : Bool)
    (subs : List (List Nat)) (tl : Nat) (raw : List Nat) (hne : raw ≠ []) :
    encode_build_entry (.symbol n r ns sps comp subs tl raw) = some raw := by
  unfold encode_build_entry
  dsimp only
  rw [if_pos hne]

theorem encode_block_raw (n : List Nat) (ds : Nat) (raw : List Nat) (hne : raw ≠ []) :
    encode_build_entry (.build_block n ds raw) = some raw := by
  unfold encode_build_entry
  dsimp only
  rw [if_pos hne]

theorem build_region (d : List Nat) (fs : Nat) (hfs : fs ≤ d.length) :
    ∀ fuel pos acc es pB,
      parse_build_section d fs fuel pos acc = some (es, pB) →
      ∃ new, es = acc ++ new ∧
        wcat encode_build_entry (new.map jsonEntry) = some (bslice d pos pB) ∧
        pos ≤ pB
  | 0, pos, acc, es, pB => by
    intro h
    cases h
  | fuel + 1, pos, acc, es, pB => by
    intro h
    unfold parse_build_section at h
    by_cases h1 : pos + 4 < fs
    swap
    · rw [if_pos (by simpa using h1)] at h
      injection h with hA
      injection hA with hA hB2
      subst hA
      subst hB2
      refine ⟨[], by rw [List.append_nil], ?_, Nat.le_refl pos⟩
      rw [bslice_empty]
      rfl
    · rw [if_neg (by simpa using h1)] at h
      by_cases h2 : ¬ valid_str d pos = true ∧ ¬ empty_str_at d pos = true
      · rw [if_pos h2] at h
        injection h with hA
        injection hA with hA hB2
        subst hA
        subst hB2
        refine ⟨[], by rw [List.append_nil], ?_, Nat.le_refl pos⟩
        rw [bslice_empty]
        rfl
      · rw [if_neg h2] at h
        by_cases h3 : is_symbol_header d pos fs = true
        · rw [if_pos h3] at h
          obtain ⟨hv, hhb⟩ := symbol_header_facts d pos fs h3
          obtain ⟨hv1, hv2, hv3, hv4⟩ := valid_str_spec d pos hv
          rw [rstr_of_valid d pos hv] at h
          dsimp only at h
          rw [show r8 d (pos + 4 + u32at d pos) =
              some (byteAt d (pos + 4 + u32at d pos), pos + 4 + u32at d pos + 1) from by
            unfold r8
            rw [if_pos (by omega)]] at h
          dsimp only at h
          rw [show r16 d (pos + 4 + u32at d pos + 1) =
              some (u16at d (pos + 4 + u32at d pos + 1), pos + 4 + u32at d pos + 1 + 2) from by
            unfold r16
            rw [if_pos (by omega)]] at h
          dsimp only at h
          by_cases h4 : u16at d (pos + 4 + u32at d pos + 1) = 0
          · rw [if_pos h4] at h
            by_cases h5 : find_next_symbol d (pos + 4 + u32at d pos + 1 + 2) fs >
                pos + 4 + u32at d pos + 1 + 2
            · rw [if_pos h5] at h
              have hle := find_next_symbol_le d (pos + 4 + u32at d pos + 1 + 2) fs
              split at h
              · obtain ⟨new', hes, hw, hp1⟩ :=
                  build_region d fs hfs fuel _ _ es pB h
                refine ⟨_ :: new', by rw [hes, List.append_assoc]; rfl, ?_, by omega⟩
                rw [List.map_cons]
                exact wcat_cons_entry d _ _ pos _ pB
                  (by
                    dsimp only [jsonEntry]
                    exact encode_symbol_raw _ _ _ _ _ _ _ _
                      (bslice_ne_nil d pos _ (by omega) (by omega))) hw (by omega) hp1
              · obtain ⟨new', hes, hw, hp1⟩ :=
                  build_region d fs hfs fuel _ _ es pB h
                refine ⟨_ :: new', by rw [hes, List.append_assoc]; rfl, ?_, by omega⟩
                rw [List.map_cons]
                exact wcat_cons_entry d _ _ pos _ pB
                  (by
                    dsimp only [jsonEntry]
                    exact encode_symbol_raw _ _ _ _ _ _ _ _
                      (bslice_ne_nil d pos _ (by omega) (by omega))) hw (by omega) hp1
            · rw [if_neg h5] at h
              obtain ⟨new', hes, hw, hp1⟩ :=
                build_region d fs hfs fuel _ _ es pB h
              refine ⟨_ :: new', by rw [hes, List.append_assoc]; rfl, ?_, by omega⟩
              rw [List.map_cons]
              exact wcat_cons_entry d _ _ pos _ pB
                (by
                  dsimp only [jsonEntry]
                  exact encode_symbol_raw _ _ _ _ _ _ _ _
                    (bslice_ne_nil d pos _ (by omega) (by omega))) hw (by omega) hp1
          · rw [if_neg h4] at h
            by_cases h6 : (try_parse_sprite d (pos + 4 + u32at d pos + 1 + 2) fs).isSome = true
            · rw [if_pos h6] at h
              obtain ⟨r0, hs⟩ := Option.isSome_iff_exists.mp h6
              obtain ⟨sp, pos2⟩ := r0
              obtain ⟨m, hm⟩ : ∃ m, u16at d (pos + 4 + u32at d pos + 1) = m + 1 :=
                ⟨u16at d (pos + 4 + u32at d pos + 1) - 1, by omega⟩
              rw [hm] at h
              have hprog := sprite_loop_progress d fs m (pos + 4 + u32at d pos + 1 + 2)
                sp pos2 hs
              by_cases h7 : (sprite_loop d fs (m + 1) (pos + 4 + u32at d pos + 1 + 2)).2.2 = true
              · rw [if_pos h7] at h
                obtain ⟨new', hes, hw, hp1⟩ :=
                  build_region d fs hfs fuel _ _ es pB h
                refine ⟨_ :: new', by rw [hes, List.append_assoc]; rfl, ?_, by omega⟩
                rw [List.map_cons]
                exact wcat_cons_entry d _ _ pos _ pB
                  (by
                    dsimp only [jsonEntry]
                    exact encode_symbol_raw _ _ _ _ _ _ _ _
                      (bslice_ne_nil d pos _ (by omega) (by omega))) hw (by omega) hp1
              · rw [if_neg h7] at h
                injection h with hA
                injection hA with hA hB2
                subst hA
                subst hB2
                refine ⟨[_], rfl, ?_, by omega⟩
                rw [List.map_cons, List.map_nil]
                simp only [wcat]
                dsimp only [jsonEntry]
                rw [encode_symbol_raw _ _ _ _ _ _ _ _
                  (bslice_ne_nil d pos _ (by omega) (by omega))]
                dsimp only
                rw [List.append_nil]
            · rw [if_neg h6] at h
              by_cases h7 : valid_str d (pos + 4 + u32at d pos + 1 + 2) = true
              · rw [if_pos h7] at h
                dsimp only [parse_nested_symbol] at h
                have hg := nested_sub_loop_ge d fs (u16at d (pos + 4 + u32at d pos + 1))
                  (pos + 4 + u32at d pos + 1 + 2) []
                have hle := find_next_symbol_le d
                  (nested_sub_loop d fs (u16at d (pos + 4 + u32at d pos + 1))
                    (pos + 4 + u32at d pos + 1 + 2) []).2 fs
                have hmin := find_next_symbol_min d
                  (nested_sub_loop d fs (u16at d (pos + 4 + u32at d pos + 1))
                    (pos + 4 + u32at d pos + 1 + 2) []).2 fs
                obtain ⟨new', hes, hw, hp1⟩ :=
                  build_region d fs hfs fuel _ _ es pB h
                refine ⟨_ :: new', by rw [hes, List.append_assoc]; rfl, ?_, by omega⟩
                rw [List.map_cons]
                exact wcat_cons_entry d _ _ pos _ pB
                  (by
                    dsimp only [jsonEntry]
                    exact encode_symbol_raw _ _ _ _ _ _ _ _
                      (bslice_ne_nil d pos _ (by omega) (by omega))) hw (by omega) hp1
              · rw [if_neg h7] at h
                have hle := find_next_symbol_le d (pos + 4 + u32at d pos + 1 + 2) fs
                have hmin := find_next_symbol_min d (pos + 4 + u32at d pos + 1 + 2) fs
                obtain ⟨new', hes, hw, hp1⟩ :=
                  build_region d fs hfs fuel _ _ es pB h
                refine ⟨_ :: new', by rw [hes, List.append_assoc]; rfl, ?_, by omega⟩
                rw [List.map_cons]
                exact wcat_cons_entry d _ _ pos _ pB
                  (by
                    dsimp only [jsonEntry]
                    exact encode_symbol_raw _ _ _ _ _ _ _ _
                      (bslice_ne_nil d pos _ (by omega) (by omega))) hw (by omega) hp1
        · rw [if_neg h3] at h
          cases hr : rstr d pos with
          | none =>
            rw [hr] at h
            injection h with hA
            injection hA with hA hB2
            subst hA
            subst hB2
            refine ⟨[], by rw [List.append_nil], ?_, Nat.le_refl pos⟩
            rw [bslice_empty]
            rfl
          | some r0 =>
            obtain ⟨sn, p0⟩ := r0
            rw [hr] at h
            dsimp only at h
            have hle := find_next_symbol_le d (pos + 1) fs
            have hmin := find_next_symbol_min d (pos + 1) fs
            obtain ⟨new', hes, hw, hp1⟩ :=
              build_region d fs hfs fuel _ _ es pB h
            refine ⟨_ :: new', by rw [hes, List.append_assoc]; rfl, ?_, by omega⟩
            rw [List.map_cons]
            exact wcat_cons_entry d _ _ pos _ pB
              (by
                dsimp only [jsonEntry]
                exact encode_block_raw _ _ _
                  (bslice_ne_nil d pos _ (by omega) (by omega))) hw (by omega) hp1

theorem bslice_append_max (d : List Nat) (a b c : Nat) (hab : a ≤ b) :
    bslice d a b ++ bslice d b c = bslice d a (max b c) := by
  by_cases hbc : b ≤ c
  · rw [bslice_append2 d a b c hab hbc]
    congr 1
    omega
  · rw [bslice_nil d b c (by omega)]
    rw [List.append_nil]
    congr 1
    omega

theorem bslice_all (d : List Nat) (b : Nat) (h : d.length ≤ b) : bslice d 0 b = d := by
  unfold bslice
  rw [List.drop_zero]
  exact List.take_of_length_le (by omega)

theorem canim_normal_aux (d : List Nat) (doc : CanimDoc) (hB : Bytes d)
    (hmg : (d.take 4).all (· < 128) = true)
    (hlen : 20 ≤ d.length)
    (hrs : rstr d 12 = some (decodeAscii (bslice d (12 + 4) (12 + 4 + u32at d 12)), 12 + 4 + u32at d 12))
    (hanle : 12 + 4 + u32at d 12 ≤ d.length)
    (hp : parse_canim_normal d (d.take 4) (u32at d 4) (u16at d 8) (u16at d 10)
      (decodeAscii (bslice d (12 + 4) (12 + 4 + u32at d 12)))
      (byteAt d (12 + 4 + u32at d 12)) (12 + 4 + u32at d 12 + 1) = some doc)
    (hname : ∀ b ∈ doc.anim_name, b < 128)
    (hlayers : doc.minimal = false → doc.layers.length = u16at d (u32at d 12 + 25))
    (hclips : doc.minimal = false → 0 < doc.num_clips → doc.clips.length = doc.num_clips)
    (hsecs : ∀ s ∈ doc.sectionRecs, s.elements.length = s.element_count)
    (hsecjson : doc.sectionRecs.map jsonSection = doc.sectionRecs) :
    (export_canim_to_json doc).bind rebuild_canim_from_json = some d := by
  unfold parse_canim_normal at hp
  cases hq1 : r16 d (12 + 4 + u32at d 12 + 1) with
  | none =>
    rw [hq1] at hp
    cases hp
  | some v1 =>
  obtain ⟨mclips, q1⟩ := v1
  obtain ⟨hv1, hq1e, hb1⟩ := r16_some d _ mclips q1 hq1
  subst hv1
  subst hq1e
  rw [hq1] at hp
  dsimp only at hp
  cases hq2 : r16 d (12 + 4 + u32at d 12 + 1 + 2) with
  | none =>
    rw [hq2] at hp
    cases hp
  | some v2 =>
  obtain ⟨msects, q2⟩ := v2
  obtain ⟨hv2, hq2e, hb2⟩ := r16_some d _ msects q2 hq2
  subst hv2
  subst hq2e
  rw [hq2] at hp
  dsimp only at hp
  cases hq3 : r16 d (12 + 4 + u32at d 12 + 1 + 2 + 2) with
  | none =>
    rw [hq3] at hp
    cases hp
  | some v3 =>
  obtain ⟨melems, q3⟩ := v3
  obtain ⟨hv3, hq3e, hb3⟩ := r16_some d _ melems q3 hq3
  subst hv3
  subst hq3e
  rw [hq3] at hp
  dsimp only at hp
  cases hq4 : r16 d (12 + 4 + u32at d 12 + 1 + 2 + 2 + 2) with
  | none =>
    rw [hq4] at hp
    cases hp
  | some v4 =>
  obtain ⟨munk, q4⟩ := v4
  obtain ⟨hv4, hq4e, hb4⟩ := r16_some d _ munk q4 hq4
  subst hv4
  subst hq4e
  rw [hq4] at hp
  dsimp only at hp
  cases hq5 : r16 d (12 + 4 + u32at d 12 + 1 + 2 + 2 + 2 + 2) with
  | none =>
    rw [hq5] at hp
    cases hp
  | some v5 =>
  obtain ⟨mlayers, q5⟩ := v5
  obtain ⟨hv5, hq5e, hb5⟩ := r16_some d _ mlayers q5 hq5
  subst hv5
  subst hq5e
  rw [hq5] at hp
  dsimp only at hp
  by_cases hcl : u16at d (12 + 4 + u32at d 12 + 1) > 0
  · rw [if_pos hcl] at hp
    try dsimp only at hp
    by_cases htr : looks_like_section d ((clips_loop d (u16at d (12 + 4 + u32at d 12 + 1)) (layers_loop d (u16at d (12 + 4 + u32at d 12 + 1 + 2 + 2 + 2 + 2)) (12 + 4 + u32at d 12 + 1 + 2 + 2 + 2 + 2 + 2)).2).2) d.length (layers_loop d (u16at d (12 + 4 + u32at d 12 + 1 + 2 + 2 + 2 + 2)) (12 + 4 + u32at d 12 + 1 + 2 + 2 + 2 + 2 + 2)).1 = true
    · rw [if_pos htr] at hp
      try dsimp only at hp
      cases hpb : parse_build_section d d.length (d.length + 1) ((sections_loop d d.length (layers_loop d (u16at d (12 + 4 + u32at d 12 + 1 + 2 + 2 + 2 + 2)) (12 + 4 + u32at d 12 + 1 + 2 + 2 + 2 + 2 + 2)).1 (u16at d (12 + 4 + u32at d 12 + 1 + 2)) ((clips_loop d (u16at d (12 + 4 + u32at d 12 + 1)) (layers_loop d (u16at d (12 + 4 + u32at d 12 + 1 + 2 + 2 + 2 + 2)) (12 + 4 + u32at d 12 + 1 + 2 + 2 + 2 + 2 + 2)).2).2)).2) [] with
      | none =>
        rw [hpb] at hp
        cases hp
      | some res =>
        obtain ⟨entries, posB⟩ := res
        rw [hpb] at hp
        dsimp only at hp
        injection hp with hp1
        subst hp1
        dsimp only at hname hlayers hclips hsecs hsecjson
        have hlayers := hlayers rfl
        have hclips := hclips rfl
        rw [show u32at d 12 + 25 = 12 + 4 + u32at d 12 + 1 + 2 + 2 + 2 + 2 from by omega] at hlayers
        obtain ⟨hlayR, hlayLe⟩ := layers_region d hB (u16at d (12 + 4 + u32at d 12 + 1 + 2 + 2 + 2 + 2)) (12 + 4 + u32at d 12 + 1 + 2 + 2 + 2 + 2 + 2) hlayers
        obtain ⟨hclR, hclLe⟩ := clips_region d hB (u16at d (12 + 4 + u32at d 12 + 1)) ((layers_loop d (u16at d (12 + 4 + u32at d 12 + 1 + 2 + 2 + 2 + 2)) (12 + 4 + u32at d 12 + 1 + 2 + 2 + 2 + 2 + 2)).2) (hclips hcl)
        obtain ⟨hsecR, hsecLe⟩ := sections_region d d.length ((layers_loop d (u16at d (12 + 4 + u32at d 12 + 1 + 2 + 2 + 2 + 2)) (12 + 4 + u32at d 12 + 1 + 2 + 2 + 2 + 2 + 2)).1) hB (u16at d (12 + 4 + u32at d 12 + 1 + 2)) ((clips_loop d (u16at d (12 + 4 + u32at d 12 + 1)) (layers_loop d (u16at d (12 + 4 + u32at d 12 + 1 + 2 + 2 + 2 + 2)) (12 + 4 + u32at d 12 + 1 + 2 + 2 + 2 + 2 + 2)).2).2) hsecs
        obtain ⟨new, hesEq, hbeR, hbeLe⟩ := build_region d d.length (Nat.le_refl _) (d.length + 1) ((sections_loop d d.length (layers_loop d (u16at d (12 + 4 + u32at d 12 + 1 + 2 + 2 + 2 + 2)) (12 + 4 + u32at d 12 + 1 + 2 + 2 + 2 + 2 + 2)).1 (u16at d (12 + 4 + u32at d 12 + 1 + 2)) ((clips_loop d (u16at d (12 + 4 + u32at d 12 + 1)) (layers_loop d (u16at d (12 + 4 + u32at d 12 + 1 + 2 + 2 + 2 + 2)) (12 + 4 + u32at d 12 + 1 + 2 + 2 + 2 + 2 + 2)).2).2)).2) [] entries posB hpb
        have hbe2 : entries.map jsonEntry = new.map jsonEntry := by
          rw [hesEq, List.nil_append]
        unfold export_canim_to_json
        rw [if_neg (by simp)]
        rw [Option.some_bind]
        unfold rebuild_canim_from_json
        dsimp only
        rw [if_pos hmg]
        rw [wstr_of_ascii d 12 _ _ hB hrs hname]
        dsimp only
        rw [if_neg (by simp)]
        rw [hlayR]
        rw [hclR]
        rw [if_pos htr, hsecjson, hsecR]
        rw [hbe2, hbeR]
        dsimp only
        rw [show d.take 4 = bslice d 0 4 from (bslice_zero d 4).symm]
        rw [w32_u32at d 4 hB (by omega), w16_u16at d 8 hB (by omega), w16_u16at d 10 hB (by omega)]
        rw [w8_byteAt d (12 + 4 + u32at d 12) hB (by omega)]
        rw [w16_u16at d (12 + 4 + u32at d 12 + 1) hB (by omega)]
        rw [w16_u16at d (12 + 4 + u32at d 12 + 1 + 2) hB (by omega)]
        rw [w16_u16at d (12 + 4 + u32at d 12 + 1 + 2 + 2) hB (by omega)]
        rw [w16_u16at d (12 + 4 + u32at d 12 + 1 + 2 + 2 + 2) hB (by omega)]
        rw [hlayers]
        rw [w16_u16at d (12 + 4 + u32at d 12 + 1 + 2 + 2 + 2 + 2) hB (by omega)]
        rw [show (4 : Nat) + 4 = 8 from by norm_num]
        rw [show (8 : Nat) + 2 = 10 from by norm_num]
        rw [show (10 : Nat) + 2 = 12 from by norm_num]
        simp only [List.append_assoc, List.nil_append]
        rw [bslice_append_max d ((sections_loop d d.length (layers_loop d (u16at d (12 + 4 + u32at d 12 + 1 + 2 + 2 + 2 + 2)) (12 + 4 + u32at d 12 + 1 + 2 + 2 + 2 + 2 + 2)).1 (u16at d (12 + 4 + u32at d 12 + 1 + 2)) ((clips_loop d (u16at d (12 + 4 + u32at d 12 + 1)) (layers_loop d (u16at d (12 + 4 + u32at d 12 + 1 + 2 + 2 + 2 + 2)) (12 + 4 + u32at d 12 + 1 + 2 + 2 + 2 + 2 + 2)).2).2)).2) posB d.length hbeLe]
        rw [bslice_append2 d ((clips_loop d (u16at d (12 + 4 + u32at d 12 + 1)) (layers_loop d (u16at d (12 + 4 + u32at d 12 + 1 + 2 + 2 + 2 + 2)) (12 + 4 + u32at d 12 + 1 + 2 + 2 + 2 + 2 + 2)).2).2) ((sections_loop d d.length (layers_loop d (u16at d (12 + 4 + u32at d 12 + 1 + 2 + 2 + 2 + 2)) (12 + 4 + u32at d 12 + 1 + 2 + 2 + 2 + 2 + 2)).1 (u16at d (12 + 4 + u32at d 12 + 1 + 2)) ((clips_loop d (u16at d (12 + 4 + u32at d 12 + 1)) (layers_loop d (u16at d (12 + 4 + u32at d 12 + 1 + 2 + 2 + 2 + 2)) (12 + 4 + u32at d 12 + 1 + 2 + 2 + 2 + 2 + 2)).2).2)).2) (max posB d.length) hsecLe (by omega)]
        rw [bslice_append2 d ((layers_loop d (u16at d (12 + 4 + u32at d 12 + 1 + 2 + 2 + 2 + 2)) (12 + 4 + u32at d 12 + 1 + 2 + 2 + 2 + 2 + 2)).2) ((clips_loop d (u16at d (12 + 4 + u32at d 12 + 1)) (layers_loop d (u16at d (12 + 4 + u32at d 12 + 1 + 2 + 2 + 2 + 2)) (12 + 4 + u32at d 12 + 1 + 2 + 2 + 2 + 2 + 2)).2).2) (max posB d.length) hclLe (by omega)]
        rw [bslice_append2 d (12 + 4 + u32at d 12 + 1 + 2 + 2 + 2 + 2 + 2) ((layers_loop d (u16at d (12 + 4 + u32at d 12 + 1 + 2 + 2 + 2 + 2)) (12 + 4 + u32at d 12 + 1 + 2 + 2 + 2 + 2 + 2)).2) (max posB d.length) hlayLe (by omega)]
        rw [bslice_append2 d (12 + 4 + u32at d 12 + 1 + 2 + 2 + 2 + 2) (12 + 4 + u32at d 12 + 1 + 2 + 2 + 2 + 2 + 2) (max posB d.length) (by omega) (by omega)]
        rw [bslice_append2 d (12 + 4 + u32at d 12 + 1 + 2 + 2 + 2) (12 + 4 + u32at d 12 + 1 + 2 + 2 + 2 + 2) (max posB d.length) (by omega) (by omega)]
        rw [bslice_append2 d (12 + 4 + u32at d 12 + 1 + 2 + 2) (12 + 4 + u32at d 12 + 1 + 2 + 2 + 2) (max posB d.length) (by omega) (by omega)]
        rw [bslice_append2 d (12 + 4 + u32at d 12 + 1 + 2) (12 + 4 + u32at d 12 + 1 + 2 + 2) (max posB d.length) (by omega) (by omega)]
        rw [bslice_append2 d (12 + 4 + u32at d 12 + 1) (12 + 4 + u32at d 12 + 1 + 2) (max posB d.length) (by omega) (by omega)]
        rw [bslice_append2 d (12 + 4 + u32at d 12) (12 + 4 + u32at d 12 + 1) (max posB d.length) (by omega) (by omega)]
        rw [bslice_append2 d 12 (12 + 4 + u32at d 12) (max posB d.length) (by omega) (by omega)]
        rw [bslice_append2 d 10 12 (max posB d.length) (by omega) (by omega)]
        rw [bslice_append2 d 8 10 (max posB d.length) (by omega) (by omega)]
        rw [bslice_append2 d 4 8 (max posB d.length) (by omega) (by omega)]
        rw [bslice_append2 d 0 4 (max posB d.length) (by omega) (by omega)]
        rw [bslice_all d (max posB d.length) (by omega)]
    · rw [if_neg htr] at hp
      try dsimp only at hp
      cases hpb : parse_build_section d d.length (d.length + 1) ((clips_loop d (u16at d (12 + 4 + u32at d 12 + 1)) (layers_loop d (u16at d (12 + 4 + u32at d 12 + 1 + 2 + 2 + 2 + 2)) (12 + 4 + u32at d 12 + 1 + 2 + 2 + 2 + 2 + 2)).2).2) [] with
      | none =>
        rw [hpb] at hp
        cases hp
      | some res =>
        obtain ⟨entries, posB⟩ := res
        rw [hpb] at hp
        dsimp only at hp
        injection hp with hp1
        subst hp1
        dsimp only at hname hlayers hclips hsecs hsecjson
        have hlayers := hlayers rfl
        have hclips := hclips rfl
        rw [show u32at d 12 + 25 = 12 + 4 + u32at d 12 + 1 + 2 + 2 + 2 + 2 from by omega] at hlayers
        obtain ⟨hlayR, hlayLe⟩ := layers_region d hB (u16at d (12 + 4 + u32at d 12 + 1 + 2 + 2 + 2 + 2)) (12 + 4 + u32at d 12 + 1 + 2 + 2 + 2 + 2 + 2) hlayers
        obtain ⟨hclR, hclLe⟩ := clips_region d hB (u16at d (12 + 4 + u32at d 12 + 1)) ((layers_loop d (u16at d (12 + 4 + u32at d 12 + 1 + 2 + 2 + 2 + 2)) (12 + 4 + u32at d 12 + 1 + 2 + 2 + 2 + 2 + 2)).2) (hclips hcl)
        obtain ⟨new, hesEq, hbeR, hbeLe⟩ := build_region d d.length (Nat.le_refl _) (d.length + 1) ((clips_loop d (u16at d (12 + 4 + u32at d 12 + 1)) (layers_loop d (u16at d (12 + 4 + u32at d 12 + 1 + 2 + 2 + 2 + 2)) (12 + 4 + u32at d 12 + 1 + 2 + 2 + 2 + 2 + 2)).2).2) [] entries posB hpb
        have hbe2 : entries.map jsonEntry = new.map jsonEntry := by
          rw [hesEq, List.nil_append]
        unfold export_canim_to_json
        rw [if_neg (by simp)]
        rw [Option.some_bind]
        unfold rebuild_canim_from_json
        dsimp only
        rw [if_pos hmg]
        rw [wstr_of_ascii d 12 _ _ hB hrs hname]
        dsimp only
        rw [if_neg (by simp)]
        rw [hlayR]
        rw [hclR]
        rw [if_neg htr]
        rw [hbe2, hbeR]
        dsimp only
        rw [show d.take 4 = bslice d 0 4 from (bslice_zero d 4).symm]
        rw [w32_u32at d 4 hB (by omega), w16_u16at d 8 hB (by omega), w16_u16at d 10 hB (by omega)]
        rw [w8_byteAt d (12 + 4 + u32at d 12) hB (by omega)]
        rw [w16_u16at d (12 + 4 + u32at d 12 + 1) hB (by omega)]
        rw [w16_u16at d (12 + 4 + u32at d 12 + 1 + 2) hB (by omega)]
        rw [w16_u16at d (12 + 4 + u32at d 12 + 1 + 2 + 2) hB (by omega)]
        rw [w16_u16at d (12 + 4 + u32at d 12 + 1 + 2 + 2 + 2) hB (by omega)]
        rw [hlayers]
        rw [w16_u16at d (12 + 4 + u32at d 12 + 1 + 2 + 2 + 2 + 2) hB (by omega)]
        rw [show (4 : Nat) + 4 = 8 from by norm_num]
        rw [show (8 : Nat) + 2 = 10 from by norm_num]
        rw [show (10 : Nat) + 2 = 12 from by norm_num]
        simp only [List.append_assoc, List.nil_append]
        rw [bslice_append_max d ((clips_loop d (u16at d (12 + 4 + u32at d 12 + 1)) (layers_loop d (u16at d (12 + 4 + u32at d 12 + 1 + 2 + 2 + 2 + 2)) (12 + 4 + u32at d 12 + 1 + 2 + 2 + 2 + 2 + 2)).2).2) posB d.length hbeLe]
        rw [bslice_append2 d ((layers_loop d (u16at d (12 + 4 + u32at d 12 + 1 + 2 + 2 + 2 + 2)) (12 + 4 + u32at d 12 + 1 + 2 + 2 + 2 + 2 + 2)).2) ((clips_loop d (u16at d (12 + 4 + u32at d 12 + 1)) (layers_loop d (u16at d (12 + 4 + u32at d 12 + 1 + 2 + 2 + 2 + 2)) (12 + 4 + u32at d 12 + 1 + 2 + 2 + 2 + 2 + 2)).2).2) (max posB d.length) hclLe (by omega)]
        rw [bslice_append2 d (12 + 4 + u32at d 12 + 1 + 2 + 2 + 2 + 2 + 2) ((layers_loop d (u16at d (12 + 4 + u32at d 12 + 1 + 2 + 2 + 2 + 2)) (12 + 4 + u32at d 12 + 1 + 2 + 2 + 2 + 2 + 2)).2) (max posB d.length) hlayLe (by omega)]
        rw [bslice_append2 d (12 + 4 + u32at d 12 + 1 + 2 + 2 + 2 + 2) (12 + 4 + u32at d 12 + 1 + 2 + 2 + 2 + 2 + 2) (max posB d.length) (by omega) (by omega)]
        rw [bslice_append2 d (12 + 4 + u32at d 12 + 1 + 2 + 2 + 2) (12 + 4 + u32at d 12 + 1 + 2 + 2 + 2 + 2) (max posB d.length) (by omega) (by omega)]
        rw [bslice_append2 d (12 + 4 + u32at d 12 + 1 + 2 + 2) (12 + 4 + u32at d 12 + 1 + 2 + 2 + 2) (max posB d.length) (by omega) (by omega)]
        rw [bslice_append2 d (12 + 4 + u32at d 12 + 1 + 2) (12 + 4 + u32at d 12 + 1 + 2 + 2) (max posB d.length) (by omega) (by omega)]
        rw [bslice_append2 d (12 + 4 + u32at d 12 + 1) (12 + 4 + u32at d 12 + 1 + 2) (max posB d.length) (by omega) (by omega)]
        rw [bslice_append2 d (12 + 4 + u32at d 12) (12 + 4 + u32at d 12 + 1) (max posB d.length) (by omega) (by omega)]
        rw [bslice_append2 d 12 (12 + 4 + u32at d 12) (max posB d.length) (by omega) (by omega)]
        rw [bslice_append2 d 10 12 (max posB d.length) (by omega) (by omega)]
        rw [bslice_append2 d 8 10 (max posB d.length) (by omega) (by omega)]
        rw [bslice_append2 d 4 8 (max posB d.length) (by omega) (by omega)]
        rw [bslice_append2 d 0 4 (max posB d.length) (by omega) (by omega)]
        rw [bslice_all d (max posB d.length) (by omega)]
  · rw [if_neg hcl] at hp
    try dsimp only at hp
    by_cases htr : looks_like_section d ((layers_loop d (u16at d (12 + 4 + u32at d 12 + 1 + 2 + 2 + 2 + 2)) (12 + 4 + u32at d 12 + 1 + 2 + 2 + 2 + 2 + 2)).2) d.length (layers_loop d (u16at d (12 + 4 + u32at d 12 + 1 + 2 + 2 + 2 + 2)) (12 + 4 + u32at d 12 + 1 + 2 + 2 + 2 + 2 + 2)).1 = true
    · rw [if_pos htr] at hp
      try dsimp only at hp
      cases hpb : parse_build_section d d.length (d.length + 1) ((sections_loop d d.length (layers_loop d (u16at d (12 + 4 + u32at d 12 + 1 + 2 + 2 + 2 + 2)) (12 + 4 + u32at d 12 + 1 + 2 + 2 + 2 + 2 + 2)).1 (u16at d (12 + 4 + u32at d 12 + 1 + 2)) ((layers_loop d (u16at d (12 + 4 + u32at d 12 + 1 + 2 + 2 + 2 + 2)) (12 + 4 + u32at d 12 + 1 + 2 + 2 + 2 + 2 + 2)).2)).2) [] with
      | none =>
        rw [hpb] at hp
        cases hp
      | some res =>
        obtain ⟨entries, posB⟩ := res
        rw [hpb] at hp
        dsimp only at hp
        injection hp with hp1
        subst hp1
        dsimp only at hname hlayers hclips hsecs hsecjson
        have hlayers := hlayers rfl
        have hclips := hclips rfl
        rw [show u32at d 12 + 25 = 12 + 4 + u32at d 12 + 1 + 2 + 2 + 2 + 2 from by omega] at hlayers
        obtain ⟨hlayR, hlayLe⟩ := layers_region d hB (u16at d (12 + 4 + u32at d 12 + 1 + 2 + 2 + 2 + 2)) (12 + 4 + u32at d 12 + 1 + 2 + 2 + 2 + 2 + 2) hlayers
        obtain ⟨hsecR, hsecLe⟩ := sections_region d d.length ((layers_loop d (u16at d (12 + 4 + u32at d 12 + 1 + 2 + 2 + 2 + 2)) (12 + 4 + u32at d 12 + 1 + 2 + 2 + 2 + 2 + 2)).1) hB (u16at d (12 + 4 + u32at d 12 + 1 + 2)) ((layers_loop d (u16at d (12 + 4 + u32at d 12 + 1 + 2 + 2 + 2 + 2)) (12 + 4 + u32at d 12 + 1 + 2 + 2 + 2 + 2 + 2)).2) hsecs
        obtain ⟨new, hesEq, hbeR, hbeLe⟩ := build_region d d.length (Nat.le_refl _) (d.length + 1) ((sections_loop d d.length (layers_loop d (u16at d (12 + 4 + u32at d 12 + 1 + 2 + 2 + 2 + 2)) (12 + 4 + u32at d 12 + 1 + 2 + 2 + 2 + 2 + 2)).1 (u16at d (12 + 4 + u32at d 12 + 1 + 2)) ((layers_loop d (u16at d (12 + 4 + u32at d 12 + 1 + 2 + 2 + 2 + 2)) (12 + 4 + u32at d 12 + 1 + 2 + 2 + 2 + 2 + 2)).2)).2) [] entries posB hpb
        have hbe2 : entries.map jsonEntry = new.map jsonEntry := by
          rw [hesEq, List.nil_append]
        unfold export_canim_to_json
        rw [if_neg (by simp)]
        rw [Option.some_bind]
        unfold rebuild_canim_from_json
        dsimp only
        rw [if_pos hmg]
        rw [wstr_of_ascii d 12 _ _ hB hrs hname]
        dsimp only
        rw [if_neg (by simp)]
        rw [hlayR]
        simp only [wcat]
        rw [if_pos htr, hsecjson, hsecR]
        rw [hbe2, hbeR]
        dsimp only
        rw [show d.take 4 = bslice d 0 4 from (bslice_zero d 4).symm]
        rw [w32_u32at d 4 hB (by omega), w16_u16at d 8 hB (by omega), w16_u16at d 10 hB (by omega)]
        rw [w8_byteAt d (12 + 4 + u32at d 12) hB (by omega)]
        rw [w16_u16at d (12 + 4 + u32at d 12 + 1) hB (by omega)]
        rw [w16_u16at d (12 + 4 + u32at d 12 + 1 + 2) hB (by omega)]
        rw [w16_u16at d (12 + 4 + u32at d 12 + 1 + 2 + 2) hB (by omega)]
        rw [w16_u16at d (12 + 4 + u32at d 12 + 1 + 2 + 2 + 2) hB (by omega)]
        rw [hlayers]
        rw [w16_u16at d (12 + 4 + u32at d 12 + 1 + 2 + 2 + 2 + 2) hB (by omega)]
        rw [show (4 : Nat) + 4 = 8 from by norm_num]
        rw [show (8 : Nat) + 2 = 10 from by norm_num]
        rw [show (10 : Nat) + 2 = 12 from by norm_num]
        simp only [List.append_assoc, List.nil_append]
        rw [bslice_append_max d ((sections_loop d d.length (layers_loop d (u16at d (12 + 4 + u32at d 12 + 1 + 2 + 2 + 2 + 2)) (12 + 4 + u32at d 12 + 1 + 2 + 2 + 2 + 2 + 2)).1 (u16at d (12 + 4 + u32at d 12 + 1 + 2)) ((layers_loop d (u16at d (12 + 4 + u32at d 12 + 1 + 2 + 2 + 2 + 2)) (12 + 4 + u32at d 12 + 1 + 2 + 2 + 2 + 2 + 2)).2)).2) posB d.length hbeLe]
        rw [bslice_append2 d ((layers_loop d (u16at d (12 + 4 + u32at d 12 + 1 + 2 + 2 + 2 + 2)) (12 + 4 + u32at d 12 + 1 + 2 + 2 + 2 + 2 + 2)).2) ((sections_loop d d.length (layers_loop d (u16at d (12 + 4 + u32at d 12 + 1 + 2 + 2 + 2 + 2)) (12 + 4 + u32at d 12 + 1 + 2 + 2 + 2 + 2 + 2)).1 (u16at d (12 + 4 + u32at d 12 + 1 + 2)) ((layers_loop d (u16at d (12 + 4 + u32at d 12 + 1 + 2 + 2 + 2 + 2)) (12 + 4 + u32at d 12 + 1 + 2 + 2 + 2 + 2 + 2)).2)).2) (max posB d.length) hsecLe (by omega)]
        rw [bslice_append2 d (12 + 4 + u32at d 12 + 1 + 2 + 2 + 2 + 2 + 2) ((layers_loop d (u16at d (12 + 4 + u32at d 12 + 1 + 2 + 2 + 2 + 2)) (12 + 4 + u32at d 12 + 1 + 2 + 2 + 2 + 2 + 2)).2) (max posB d.length) hlayLe (by omega)]
        rw [bslice_append2 d (12 + 4 + u32at d 12 + 1 + 2 + 2 + 2 + 2) (12 + 4 + u32at d 12 + 1 + 2 + 2 + 2 + 2 + 2) (max posB d.length) (by omega) (by omega)]
        rw [bslice_append2 d (12 + 4 + u32at d 12 + 1 + 2 + 2 + 2) (12 + 4 + u32at d 12 + 1 + 2 + 2 + 2 + 2) (max posB d.length) (by omega) (by omega)]
        rw [bslice_append2 d (12 + 4 + u32at d 12 + 1 + 2 + 2) (12 + 4 + u32at d 12 + 1 + 2 + 2 + 2) (max posB d.length) (by omega) (by omega)]
        rw [bslice_append2 d (12 + 4 + u32at d 12 + 1 + 2) (12 + 4 + u32at d 12 + 1 + 2 + 2) (max posB d.length) (by omega) (by omega)]
        rw [bslice_append2 d (12 + 4 + u32at d 12 + 1) (12 + 4 + u32at d 12 + 1 + 2) (max posB d.length) (by omega) (by omega)]
        rw [bslice_append2 d (12 + 4 + u32at d 12) (12 + 4 + u32at d 12 + 1) (max posB d.length) (by omega) (by omega)]
        rw [bslice_append2 d 12 (12 + 4 + u32at d 12) (max posB d.length) (by omega) (by omega)]
        rw [bslice_append2 d 10 12 (max posB d.length) (by omega) (by omega)]
        rw [bslice_append2 d 8 10 (max posB d.length) (by omega) (by omega)]
        rw [bslice_append2 d 4 8 (max posB d.length) (by omega) (by omega)]
        rw [bslice_append2 d 0 4 (max posB d.length) (by omega) (by omega)]
        rw [bslice_all d (max posB d.length) (by omega)]
    · rw [if_neg htr] at hp
      try dsimp only at hp
      cases hpb : parse_build_section d d.length (d.length + 1) ((layers_loop d (u16at d (12 + 4 + u32at d 12 + 1 + 2 + 2 + 2 + 2)) (12 + 4 + u32at d 12 + 1 + 2 + 2 + 2 + 2 + 2)).2) [] with
      | none =>
        rw [hpb] at hp
        cases hp
      | some res =>
        obtain ⟨entries, posB⟩ := res
        rw [hpb] at hp
        dsimp only at hp
        injection hp with hp1
        subst hp1
        dsimp only at hname hlayers hclips hsecs hsecjson
        have hlayers := hlayers rfl
        have hclips := hclips rfl
        rw [show u32at d 12 + 25 = 12 + 4 + u32at d 12 + 1 + 2 + 2 + 2 + 2 from by omega] at hlayers
        obtain ⟨hlayR, hlayLe⟩ := layers_region d hB (u16at d (12 + 4 + u32at d 12 + 1 + 2 + 2 + 2 + 2)) (12 + 4 + u32at d 12 + 1 + 2 + 2 + 2 + 2 + 2) hlayers
        obtain ⟨new, hesEq, hbeR, hbeLe⟩ := build_region d d.length (Nat.le_refl _) (d.length + 1) ((layers_loop d (u16at d (12 + 4 + u32at d 12 + 1 + 2 + 2 + 2 + 2)) (12 + 4 + u32at d 12 + 1 + 2 + 2 + 2 + 2 + 2)).2) [] entries posB hpb
        have hbe2 : entries.map jsonEntry = new.map jsonEntry := by
          rw [hesEq, List.nil_append]
        unfold export_canim_to_json
        rw [if_neg (by simp)]
        rw [Option.some_bind]
        unfold rebuild_canim_from_json
        dsimp only
        rw [if_pos hmg]
        rw [wstr_of_ascii d 12 _ _ hB hrs hname]
        dsimp only
        rw [if_neg (by simp)]
        rw [hlayR]
        simp only [wcat]
        rw [if_neg htr]
        rw [hbe2, hbeR]
        dsimp only
        rw [show d.take 4 = bslice d 0 4 from (bslice_zero d 4).symm]
        rw [w32_u32at d 4 hB (by omega), w16_u16at d 8 hB (by omega), w16_u16at d 10 hB (by omega)]
        rw [w8_byteAt d (12 + 4 + u32at d 12) hB (by omega)]
        rw [w16_u16at d (12 + 4 + u32at d 12 + 1) hB (by omega)]
        rw [w16_u16at d (12 + 4 + u32at d 12 + 1 + 2) hB (by omega)]
        rw [w16_u16at d (12 + 4 + u32at d 12 + 1 + 2 + 2) hB (by omega)]
        rw [w16_u16at d (12 + 4 + u32at d 12 + 1 + 2 + 2 + 2) hB (by omega)]
        rw [hlayers]
        rw [w16_u16at d (12 + 4 + u32at d 12 + 1 + 2 + 2 + 2 + 2) hB (by omega)]
        rw [show (4 : Nat) + 4 = 8 from by norm_num]
        rw [show (8 : Nat) + 2 = 10 from by norm_num]
        rw [show (10 : Nat) + 2 = 12 from by norm_num]
        simp only [List.append_assoc, List.nil_append]
        rw [bslice_append_max d ((layers_loop d (u16at d (12 + 4 + u32at d 12 + 1 + 2 + 2 + 2 + 2)) (12 + 4 + u32at d 12 + 1 + 2 + 2 + 2 + 2 + 2)).2) posB d.length hbeLe]
        rw [bslice_append2 d (12 + 4 + u32at d 12 + 1 + 2 + 2 + 2 + 2 + 2) ((layers_loop d (u16at d (12 + 4 + u32at d 12 + 1 + 2 + 2 + 2 + 2)) (12 + 4 + u32at d 12 + 1 + 2 + 2 + 2 + 2 + 2)).2) (max posB d.length) hlayLe (by omega)]
        rw [bslice_append2 d (12 + 4 + u32at d 12 + 1 + 2 + 2 + 2 + 2) (12 + 4 + u32at d 12 + 1 + 2 + 2 + 2 + 2 + 2) (max posB d.length) (by omega) (by omega)]
        rw [bslice_append2 d (12 + 4 + u32at d 12 + 1 + 2 + 2 + 2) (12 + 4 + u32at d 12 + 1 + 2 + 2 + 2 + 2) (max posB d.length) (by omega) (by omega)]
        rw [bslice_append2 d (12 + 4 + u32at d 12 + 1 + 2 + 2) (12 + 4 + u32at d 12 + 1 + 2 + 2 + 2) (max posB d.length) (by omega) (by omega)]
        rw [bslice_append2 d (12 + 4 + u32at d 12 + 1 + 2) (12 + 4 + u32at d 12 + 1 + 2 + 2) (max posB d.length) (by omega) (by omega)]
        rw [bslice_append2 d (12 + 4 + u32at d 12 + 1) (12 + 4 + u32at d 12 + 1 + 2) (max posB d.length) (by omega) (by omega)]
        rw [bslice_append2 d (12 + 4 + u32at d 12) (12 + 4 + u32at d 12 + 1) (max posB d.length) (by omega) (by omega)]
        rw [bslice_append2 d 12 (12 + 4 + u32at d 12) (max posB d.length) (by omega) (by omega)]
        rw [bslice_append2 d 10 12 (max posB d.length) (by omega) (by omega)]
        rw [bslice_append2 d 8 10 (max posB d.length) (by omega) (by omega)]
        rw [bslice_append2 d 4 8 (max posB d.length) (by omega) (by omega)]
        rw [bslice_append2 d 0 4 (max posB d.length) (by omega) (by omega)]
        rw [bslice_all d (max posB d.length) (by omega)]

theorem canim_roundtrip_aux (d : List Nat) (doc : CanimDoc) (hB : Bytes d)
    (hp : parse_canim d = some doc) (hskip : doc.skipped = false)
    (hname : ∀ b ∈ doc.anim_name, b < 128)
    (hlayers : doc.minimal = false → doc.layers.length = u16at d (u32at d 12 + 25))
    (hclips : doc.minimal = false → 0 < doc.num_clips → doc.clips.length = doc.num_clips)
    (hsecs : ∀ s ∈ doc.sectionRecs, s.elements.length = s.element_count)
    (hsecjson : doc.sectionRecs.map jsonSection = doc.sectionRecs) :
    (export_canim_to_json doc).bind rebuild_canim_from_json = some d := by
  unfold parse_canim at hp
  by_cases hsmall : d.length < 20
  · rw [if_pos hsmall] at hp
    injection hp with hp1
    rw [← hp1] at hskip
    exact absurd hskip (by simp [empty_canim_result])
  · rw [if_neg hsmall] at hp
    by_cases hmg0 : ¬ (d.take 4).all (· < 128) = true
    · rw [if_pos hmg0] at hp
      cases hp
    · rw [if_neg hmg0] at hp
      rw [Decidable.not_not] at hmg0
      dsimp only at hp
      cases hrs : rstr d 12 with
      | none =>
        rw [hrs] at hp
        cases hp
      | some rn =>
        obtain ⟨an, posN⟩ := rn
        obtain ⟨han, hposN, hposNle, h16le⟩ := rstr_some_name d 12 an posN hrs
        subst han
        subst hposN
        rw [hrs] at hp
        dsimp only at hp
        cases h8 : r8 d (12 + 4 + u32at d 12) with
        | none =>
          rw [h8] at hp
          cases hp
        | some r8v =>
          obtain ⟨rate, pos0⟩ := r8v
          obtain ⟨hrate, hpos0, hpos0le⟩ := r8_some d _ rate pos0 h8
          subst hrate
          subst hpos0
          rw [h8] at hp
          dsimp only at hp
          by_cases hhf : u16at d 8 = 0
          · rw [if_pos hhf] at hp
            cases hms : minimal_scan d d.length (12 + 4 + u32at d 12 + 1) with
            | none =>
              rw [hms] at hp
              exact canim_normal_aux d doc hB hmg0 (by omega) hrs hposNle hp hname
                hlayers hclips hsecs hsecjson
            | some ss =>
              rw [hms] at hp
              dsimp only at hp
              injection hp with hp1
              subst hp1
              have hssb : 12 + 4 + u32at d 12 + 1 ≤ ss ∧ ss + 4 < d.length := by
                unfold minimal_scan at hms
                exact minimalScanF_ge d d.length _ _ ss hms
              obtain ⟨hss1, hss2⟩ := hssb
              obtain ⟨hsprR, hsprGe, hsprLe⟩ :=
                bareF_region d d.length hB (d.length - ss) ss (by omega)
              dsimp only at hname
              unfold export_canim_to_json
              rw [if_neg (by simp)]
              rw [Option.some_bind]
              unfold rebuild_canim_from_json
              dsimp only
              rw [if_pos hmg0]
              rw [wstr_of_ascii d 12 _ _ hB hrs hname]
              dsimp only
              rw [if_pos rfl]
              rw [if_pos rfl]
              rw [show bare_sprite_loop d d.length ss =
                bareSpriteLoopF d d.length (d.length - ss) ss from rfl]
              rw [hsprR]
              dsimp only
              rw [show d.take 4 = bslice d 0 4 from (bslice_zero d 4).symm]
              rw [w32_u32at d 4 hB (by omega), w16_u16at d 8 hB (by omega),
                w16_u16at d 10 hB (by omega)]
              rw [w8_byteAt d (12 + 4 + u32at d 12) hB (by omega)]
              rw [show (4 : Nat) + 4 = 8 from by norm_num]
              rw [show (8 : Nat) + 2 = 10 from by norm_num]
              rw [show (10 : Nat) + 2 = 12 from by norm_num]
              simp only [List.append_assoc, List.nil_append]
              rw [bslice_append2 d ss (bareSpriteLoopF d d.length (d.length - ss) ss).2
                d.length hsprGe hsprLe]
              rw [bslice_append2 d (12 + 4 + u32at d 12 + 1) ss d.length (by omega) (by omega)]
              rw [bslice_append2 d (12 + 4 + u32at d 12) (12 + 4 + u32at d 12 + 1) d.length
                (by omega) (by omega)]
              rw [bslice_append2 d 12 (12 + 4 + u32at d 12) d.length (by omega) (by omega)]
              rw [bslice_append2 d 10 12 d.length (by omega) (by omega)]
              rw [bslice_append2 d 8 10 d.length (by omega) (by omega)]
              rw [bslice_append2 d 4 8 d.length (by omega) (by omega)]
              rw [bslice_append2 d 0 4 d.length (by omega) (by omega)]
              rw [bslice_self]
          · rw [if_neg hhf] at hp
            exact canim_normal_aux d doc hB hmg0 (by omega) hrs hposNle hp hname
              hlayers hclips hsecs hsecjson

/-- Claim C1 (amended): the round-trip law holds conditionally for both
container formats.  Event-metadata side: `CAnimMeta.load` then
`_rebuild_bytes` reproduces the buffer exactly when the header's declared
entry count matches the number of discovered chunk boundaries and the first
boundary (if any) sits immediately after the 12-byte header — the rebuilt
header always carries the recomputed chunk count, every retained structured
chunk re-encodes byte-identically (verify-or-fallback), and raw chunks are
copied verbatim.  Animation side: `parse_canim` then `export_canim_to_json`
then `rebuild_canim_from_json` reproduces the buffer exactly for every
accepted non-skipped parse whose name is pure ASCII, whose layer table and
(when present) clip table were read completely, whose traditional sections
parsed all their declared elements, and whose section floats survive the
JSON number round trip; the minimal format needs only the ASCII name. -/
theorem container_roundtrip_conditional :
    (∀ d : List Nat, Bytes d → 12 ≤ d.length →
      u32at d 8 = (find_chunk_boundaries d).length →
      (∀ p m rest, find_chunk_boundaries d = (p, m) :: rest → p = 12) →
      rebuild_bytes (canim_meta_load d) = d) ∧
    (∀ d doc, Bytes d → parse_canim d = some doc → doc.skipped = false →
      (∀ b ∈ doc.anim_name, b < 128) →
      (doc.minimal = false → doc.layers.length = u16at d (u32at d 12 + 25)) →
      (doc.minimal = false → 0 < doc.num_clips → doc.clips.length = doc.num_clips) →
      (∀ s ∈ doc.sectionRecs, s.elements.length = s.element_count) →
      doc.sectionRecs.map jsonSection = doc.sectionRecs →
      (export_canim_to_json doc).bind rebuild_canim_from_json = some d) :=
  ⟨fun d hB hlen hcount hfirst => meta_roundtrip_aux d hB hlen hcount hfirst,
   fun d doc hB hp hskip hname hlayers hclips hsecs hsecjson =>
     canim_roundtrip_aux d doc hB hp hskip hname hlayers hclips hsecs hsecjson⟩

/-- A 19-byte event container holding one opaque MACT chunk, for the C1
witness. -/
def c1mbuf : List Nat :=
  [1, 0, 0, 0, 2, 0, 0, 0, 1, 0, 0, 0, 77, 65, 67, 84, 1, 2, 3]

/-- Witness for C1 on concrete buffers of both formats. -/
theorem container_roundtrip_conditional_witness :
    rebuild_bytes (canim_meta_load c1mbuf) = c1mbuf ∧
    (export_canim_to_json c6doc).bind rebuild_canim_from_json = some c6buf :=
  ⟨container_roundtrip_conditional.1 c1mbuf (by decide) (by decide) (by decide)
    (by
      intro p m rest h
      rw [show find_chunk_boundaries c1mbuf = [(12, [77, 65, 67, 84])] from by decide] at h
      injection h with h1 h2
      injection h1 with ha hb
      exact ha.symm),
   container_roundtrip_conditional.2 c6buf c6doc (by decide) (by decide) (by decide)
    (by decide)
    (fun h => absurd h (by decide))
    (fun h => absurd h (by decide))
    (by decide)
    rfl⟩
